import Mathlib

/-!
# kiln: release resolution and retrieval

A shallow embedding of the release-source wiring of `main.go` and of the
S3 release sources (`fetcher.S3CompiledReleaseSource`,
`fetcher.S3BuiltReleaseSource`) exercised by the tests under `fetcher/`.

Go maps are association lists with unique keys; Go errors are carried by
their message text; the collaborators reached through interfaces (the S3
object lister, the S3 downloader, the file system, the compiled regular
expression) are explicit arguments.
-/

set_option autoImplicit false

namespace Kiln

/-! ## Data model -/

/-- The type `fetcher.ReleaseID`: a release name and version, compared by value. -/
structure ReleaseID where
  Name : String
  Version : String
deriving DecidableEq, Repr

/-- The type `cargo.Stemcell`: the operating system and version of a stemcell. -/
structure Stemcell where
  OS : String
  Version : String
deriving DecidableEq, Repr

/-- The type `fetcher.CompiledRelease`: a release compiled against one stemcell, at an S3 key. -/
structure CompiledRelease where
  ID : ReleaseID
  StemcellOS : String
  StemcellVersion : String
  Path : String
deriving DecidableEq, Repr

/-- The type `fetcher.BuiltRelease`: a stemcell-independent release at an S3 key. -/
structure BuiltRelease where
  ID : ReleaseID
  Path : String
deriving DecidableEq, Repr

/-- The interface `fetcher.ReleaseInfoDownloader`, with its two implementations. -/
inductive ReleaseInfoDownloader where
  | compiled (r : CompiledRelease)
  | built (r : BuiltRelease)
deriving DecidableEq, Repr

/-- The type `fetcher.ReleaseSet`, a Go `map[ReleaseID]ReleaseInfoDownloader`, as an
association list. A nil map reads like the empty one and is `[]` as well. -/
abbrev ReleaseSet := List (ReleaseID × ReleaseInfoDownloader)

/-- The keys of a release set. -/
def ReleaseSet.keys (s : ReleaseSet) : List ReleaseID := s.map Prod.fst

/-- Map read `s[id]`: the value stored under `id`, if any. -/
def ReleaseSet.get? : ReleaseSet → ReleaseID → Option ReleaseInfoDownloader
  | [], _ => none
  | (k, v) :: rest, id => if k = id then some v else ReleaseSet.get? rest id

/-- Map write `s[id] = v`: replaces the value of an existing key, adds a new key otherwise. -/
def ReleaseSet.set : ReleaseSet → ReleaseID → ReleaseInfoDownloader → ReleaseSet
  | [], id, v => [(id, v)]
  | (k, w) :: rest, id, v =>
    if k = id then (k, v) :: rest else (k, w) :: ReleaseSet.set rest id v

/-! ## `main.go`: the release sources factory -/

/-- One bucket configuration of `cargo.Assets` (`CompiledReleases`, `UncompiledReleases`):
`main.go` reads `Bucket` and hands the whole value to `Configure`. -/
structure S3Config where
  Bucket : String
  Regex : String
deriving DecidableEq, Repr

/-- The part of `cargo.Assets` that `releaseSourcesFactory` reads. -/
structure Assets where
  CompiledReleases : S3Config
  UncompiledReleases : S3Config
deriving DecidableEq, Repr

/-- The values `releaseSourcesFactory` appends, as `commands.ReleaseSource`:
an `S3ReleaseSource` configured from a bucket configuration and converted to
`S3CompiledReleaseSource` or to `S3BuiltReleaseSource`, and the BOSH.io source built by
`NewBOSHIOReleaseSource`. -/
inductive ReleaseSource where
  | S3Compiled (cfg : S3Config)
  | BOSHIO
  | S3Built (cfg : S3Config)
deriving DecidableEq, Repr

/-- The closure `releaseSourcesFactory` of `main.go` (lines 97-116). -/
def releaseSourcesFactory (assets : Assets) : List ReleaseSource :=
  let releaseSources : List ReleaseSource := []
  let releaseSources :=
    if assets.CompiledReleases.Bucket ≠ "" then
      releaseSources ++ [ReleaseSource.S3Compiled assets.CompiledReleases]
    else releaseSources
  let releaseSources := releaseSources ++ [ReleaseSource.BOSHIO]
  let releaseSources :=
    if assets.UncompiledReleases.Bucket ≠ "" then
      releaseSources ++ [ReleaseSource.S3Built assets.UncompiledReleases]
    else releaseSources
  releaseSources

/-! ## The S3 release sources: locating releases -/

/-- What the release sources use of a compiled Go `regexp.Regexp`: the names of its
capture groups (`SubexpNames`, index 0 is the whole match and unnamed groups are `""`), and
`FindStringSubmatch`, which yields `none` when the pattern does not match the string and
the texts of the groups, by index, when it does. -/
structure Regexp where
  SubexpNames : List String
  FindStringSubmatch : String → Option (List String)

/-- The result of one `ListObjectsPages` call of the S3 client: the pages of object keys it
delivered to the callback, and the error it returned, if any. -/
structure ListObjectsOutcome where
  Pages : List (List String)
  Err : Option String

/-- The struct `fetcher.S3ReleaseSource` that `main.go` converts to
`S3CompiledReleaseSource` and to `S3BuiltReleaseSource`, with the fields the tests set:
the pattern (compiled), the bucket and the S3 client, which lists a bucket by name. -/
structure S3ReleaseSource where
  Regex : Regexp
  Bucket : String
  S3Client : String → ListObjectsOutcome

/-- Modelled from the spec: the fetcher package's sources are missing; section 3 names the
two capture groups every pattern must define. -/
def builtCaptureGroups : List String := ["release_name", "release_version"]

/-- Modelled from the spec: the fetcher package's sources are missing; section 3 names the
four capture groups a compiled-source pattern must define. -/
def compiledCaptureGroups : List String :=
  ["release_name", "release_version", "stemcell_os", "stemcell_version"]

/-- Modelled from the spec: the fetcher package's sources are missing; the validation of
section 4.1 that the pattern defines every required named group. -/
def hasCaptureGroups (exp : Regexp) (required : List String) : Bool :=
  required.all (fun n => decide (n ∈ exp.SubexpNames))

/-- Modelled from the spec: the fetcher package's sources are missing; the configuration
error of sections 4.1 and 7, which names the missing requirement. The tests expect the
text "Missing some capture group" in it. -/
def missingCaptureGroupError (required : List String) : String :=
  "Missing some capture group. Required capture groups: " ++ ", ".intercalate required

/-- Modelled from the spec: the fetcher package's sources are missing; the name-to-index
table of section 9: the text captured by the group called `name`, read from the submatches
at the index the name has among the pattern's group names. -/
def subgroup : List String → List String → String → String
  | n :: ns, m :: ms, name => if n = name then m else subgroup ns ms name
  | _, _, _ => ""

/-- Modelled from the spec: the fetcher package's sources are missing; the pattern matcher
of section 4.1 for a compiled source: no candidate when the pattern does not match the key,
else the candidate identity and stemcell extracted from the key, located at the key. -/
def matchCompiledKey (exp : Regexp) (key : String) : Option CompiledRelease :=
  match exp.FindStringSubmatch key with
  | none => none
  | some ms =>
    some { ID := { Name := subgroup exp.SubexpNames ms "release_name",
                   Version := subgroup exp.SubexpNames ms "release_version" },
           StemcellOS := subgroup exp.SubexpNames ms "stemcell_os",
           StemcellVersion := subgroup exp.SubexpNames ms "stemcell_version",
           Path := key }

/-- Modelled from the spec: the fetcher package's sources are missing; the pattern matcher
of section 4.1 for a built source: no candidate when the pattern does not match the key,
else the candidate identity extracted from the key, located at the key. -/
def matchBuiltKey (exp : Regexp) (key : String) : Option BuiltRelease :=
  match exp.FindStringSubmatch key with
  | none => none
  | some ms =>
    some { ID := { Name := subgroup exp.SubexpNames ms "release_name",
                   Version := subgroup exp.SubexpNames ms "release_version" },
           Path := key }

/-- Modelled from the spec: the fetcher package's sources are missing; what the compiled
source does with one listed key (section 4.2): the key is skipped when the pattern does not
match it; the candidate is recorded under its ReleaseID only if that ID is in the desired
set and its stemcell OS and version equal the desired stemcell's. -/
def compiledStep (exp : Regexp) (desiredReleaseSet : ReleaseSet) (stemcell : Stemcell)
    (matched : ReleaseSet) (key : String) : ReleaseSet :=
  match matchCompiledKey exp key with
  | none => matched
  | some c =>
    if c.ID ∈ desiredReleaseSet.keys ∧ c.StemcellOS = stemcell.OS ∧
        c.StemcellVersion = stemcell.Version then
      matched.set c.ID (ReleaseInfoDownloader.compiled c)
    else matched

/-- Modelled from the spec: the fetcher package's sources are missing; what the built
source does with one listed key (section 4.2): the key is skipped when the pattern does not
match it; the candidate is recorded under its ReleaseID if that ID is in the desired set,
with no stemcell comparison. -/
def builtStep (exp : Regexp) (desiredReleaseSet : ReleaseSet)
    (matched : ReleaseSet) (key : String) : ReleaseSet :=
  match matchBuiltKey exp key with
  | none => matched
  | some b =>
    if b.ID ∈ desiredReleaseSet.keys then
      matched.set b.ID (ReleaseInfoDownloader.built b)
    else matched

/-- Modelled from the spec: the fetcher package's sources are missing; the page-by-page
consumption of a listing (section 4.2): every page is processed eagerly, key by key, and
the consumer always asks for the next page. -/
def consumePages (step : ReleaseSet → String → ReleaseSet) (pages : List (List String)) :
    ReleaseSet :=
  pages.foldl (fun matched page => page.foldl step matched) []

/-- Modelled from the spec: the fetcher package's sources are missing;
`S3CompiledReleaseSource.GetMatchedReleases` (sections 4.1, 4.2 and 7): the pattern's group
set is validated before the listing; the bucket is listed and its keys matched and
filtered; a listing error aborts the call and is returned unchanged. -/
def S3CompiledReleaseSource.GetMatchedReleases (r : S3ReleaseSource)
    (desiredReleaseSet : ReleaseSet) (stemcell : Stemcell) : Except String ReleaseSet :=
  if hasCaptureGroups r.Regex compiledCaptureGroups = false then
    Except.error (missingCaptureGroupError compiledCaptureGroups)
  else
    let listing := r.S3Client r.Bucket
    let matched := consumePages (compiledStep r.Regex desiredReleaseSet stemcell) listing.Pages
    match listing.Err with
    | some err => Except.error err
    | none => Except.ok matched

/-- Modelled from the spec: the fetcher package's sources are missing;
`S3BuiltReleaseSource.GetMatchedReleases` (sections 4.1, 4.2 and 7): as for the compiled
source, with the two required groups and no use of the stemcell argument. -/
def S3BuiltReleaseSource.GetMatchedReleases (r : S3ReleaseSource)
    (desiredReleaseSet : ReleaseSet) (_stemcell : Stemcell) : Except String ReleaseSet :=
  if hasCaptureGroups r.Regex builtCaptureGroups = false then
    Except.error (missingCaptureGroupError builtCaptureGroups)
  else
    let listing := r.S3Client r.Bucket
    let matched := consumePages (builtStep r.Regex desiredReleaseSet) listing.Pages
    match listing.Err with
    | some err => Except.error err
    | none => Except.ok matched

/-- The listing of `r` with the keys the pattern does not match removed from every page. -/
def S3ReleaseSource.withoutNonMatchingKeys (r : S3ReleaseSource) : S3ReleaseSource :=
  { r with
    S3Client := fun bucket =>
      { Pages := (r.S3Client bucket).Pages.map
          (List.filter (fun key => (r.Regex.FindStringSubmatch key).isSome)),
        Err := (r.S3Client bucket).Err } }

/-- One listed key as a map write: the ReleaseID and value the compiled source records for
the key, or `none` when the key is skipped. -/
def compiledCandidate (exp : Regexp) (desiredReleaseSet : ReleaseSet) (stemcell : Stemcell)
    (key : String) : Option (ReleaseID × ReleaseInfoDownloader) :=
  match matchCompiledKey exp key with
  | none => none
  | some c =>
    if c.ID ∈ desiredReleaseSet.keys ∧ c.StemcellOS = stemcell.OS ∧
        c.StemcellVersion = stemcell.Version then
      some (c.ID, ReleaseInfoDownloader.compiled c)
    else none

/-- One listed key as a map write: the ReleaseID and value the built source records for the
key, or `none` when the key is skipped. -/
def builtCandidate (exp : Regexp) (desiredReleaseSet : ReleaseSet)
    (key : String) : Option (ReleaseID × ReleaseInfoDownloader) :=
  match matchBuiltKey exp key with
  | none => none
  | some b =>
    if b.ID ∈ desiredReleaseSet.keys then some (b.ID, ReleaseInfoDownloader.built b)
    else none

/-- The step of a source whose map writes are given by `candidate`. -/
def recordStep (candidate : String → Option (ReleaseID × ReleaseInfoDownloader))
    (matched : ReleaseSet) (key : String) : ReleaseSet :=
  match candidate key with
  | none => matched
  | some (id, v) => matched.set id v

/-- Text `sub` occurs in text `s`. -/
def containsSubstring (s sub : String) : Prop := sub.data <:+: s.data

instance (s sub : String) : Decidable (containsSubstring s sub) := by
  unfold containsSubstring; infer_instance

/-! ## The S3 release sources: downloading releases -/

/-- The field of the AWS SDK's `s3manager.Downloader` that a download option sets. -/
structure Downloader where
  Concurrency : Int
deriving DecidableEq, Repr

/-- The constant `s3manager.DefaultDownloadConcurrency` of the AWS SDK. -/
def DefaultDownloadConcurrency : Int := 5

/-- The fields of `s3.GetObjectInput` a download sets. -/
structure GetObjectInput where
  Bucket : String
  Key : String
deriving DecidableEq, Repr

/-- The arguments of one `S3Downloader.Download` call, the writer apart: the object to get and
the variadic downloader options. -/
structure DownloadCall where
  Input : GetObjectInput
  Options : List (Downloader → Downloader)

/-- What `DownloadReleases` does to the outside, in order: it asks the file system to create
an output file, and it calls the S3 downloader. -/
inductive Effect where
  | create (path : String)
  | download (call : DownloadCall)

/-- The collaborators of `DownloadReleases`: `Create` is the file system, giving the error
text of creating the file at a path, or `none` when the file is created; `Download` is the
`S3Downloader` field of the source, giving the error text of the transfer, or `none`. -/
structure Environment where
  Create : String → Option String
  Download : GetObjectInput → Option String

/-- The outcome of `DownloadReleases`: its effects in order and the error it returns. -/
structure DownloadOutcome where
  Effects : List Effect
  Err : Option String

/-- The paths of the output files the run asked to create, in order. -/
def DownloadOutcome.createdPaths (o : DownloadOutcome) : List String :=
  o.Effects.filterMap (fun e => match e with
    | Effect.create path => some path
    | Effect.download _ => none)

/-- The download calls of the run, in order. -/
def DownloadOutcome.downloadCalls (o : DownloadOutcome) : List DownloadCall :=
  o.Effects.filterMap (fun e => match e with
    | Effect.create _ => none
    | Effect.download call => some call)

/-- The repository location of a located release: the `Path` field of either variant. -/
def ReleaseInfoDownloader.Path : ReleaseInfoDownloader → String
  | ReleaseInfoDownloader.compiled c => c.Path
  | ReleaseInfoDownloader.built b => b.Path

/-- Modelled from the spec: the fetcher package's sources are missing; the local file name of
section 4.4, by variant of the located release. -/
def localFileName : ReleaseInfoDownloader → String
  | ReleaseInfoDownloader.compiled c =>
    c.ID.Name ++ "-" ++ c.ID.Version ++ "-" ++ c.StemcellOS ++ "-" ++ c.StemcellVersion ++ ".tgz"
  | ReleaseInfoDownloader.built b => b.ID.Name ++ "-" ++ b.ID.Version ++ ".tgz"

/-- Modelled from the spec: the fetcher package's sources are missing; the output file of
section 4.4 is the file name in the destination directory: the directory, the separator and
the name, with no normalisation of the directory text. -/
def outputFile (releaseDir : String) (release : ReleaseInfoDownloader) : String :=
  releaseDir ++ "/" ++ localFileName release

/-- Modelled from the spec: the fetcher package's sources are missing; the parallelism hint of
section 4.4 as a downloader option: the given number of threads when it is positive, the
transport's default otherwise. -/
def setConcurrency (downloadThreads : Int) (dl : Downloader) : Downloader :=
  if downloadThreads > 0 then { dl with Concurrency := downloadThreads }
  else { dl with Concurrency := DefaultDownloadConcurrency }

/-- Modelled from the spec: the fetcher package's sources are missing; the file-system error
of sections 4.4 and 7, which includes the failing path. -/
def createFileError (path cause : String) : String :=
  "failed to create file " ++ path ++ ": " ++ cause

/-- Modelled from the spec: the fetcher package's sources are missing; the transfer error of
sections 4.4 and 7; the tests expect the text to end with a newline. -/
def downloadFileError (cause : String) : String :=
  "failed to download file, " ++ cause ++ "\n"

/-- Modelled from the spec: the fetcher package's sources are missing; `DownloadReleases` of
the S3 sources (section 4.4): the matched entries are taken one at a time, in the order the
map yields them (the order of the list); for each, the output file is created and the object
at the entry's Path in the source's bucket is downloaded with one concurrency option; the
first file that cannot be created, or the first failed transfer, ends the run with an
error. -/
def DownloadReleases (env : Environment) (r : S3ReleaseSource) (releaseDir : String) :
    ReleaseSet → Int → DownloadOutcome
  | [], _ => { Effects := [], Err := none }
  | (_, release) :: rest, downloadThreads =>
    let path := outputFile releaseDir release
    match env.Create path with
    | some cause => { Effects := [Effect.create path], Err := some (createFileError path cause) }
    | none =>
      let call : DownloadCall :=
        { Input := { Bucket := r.Bucket, Key := release.Path },
          Options := [setConcurrency downloadThreads] }
      match env.Download call.Input with
      | some cause =>
        { Effects := [Effect.create path, Effect.download call],
          Err := some (downloadFileError cause) }
      | none =>
        let next := DownloadReleases env r releaseDir rest downloadThreads
        { Effects := Effect.create path :: Effect.download call :: next.Effects,
          Err := next.Err }

/-! ## Fixtures of the fetcher tests -/

/-- The pattern of the compiled-source tests, with the submatches Go's `regexp` gives on
the keys those tests list. The optional group `(-\w+(\.[0-9]+)?)?` of the release version takes
the first word after the numbers: `-lts` of the `bpm` keys, and also `-ubuntu` of the `capi`
key and `-windows` of the `diego` key, which leaves `xenial` and nothing for the stemcell
OS. -/
def compiledTestRegexp : Regexp where
  SubexpNames :=
    ["", "release_name", "release_version", "", "", "stemcell_os", "stemcell_version"]
  FindStringSubmatch := fun key =>
    if key = "2.5/bpm/bpm-1.2.3-lts-ubuntu-xenial-190.0.0.tgz" then
      some [key, "bpm", "1.2.3-lts", "-lts", "", "ubuntu-xenial", "190.0.0"]
    else if key = "2.5/bpm/bpm-1.2.3-lts-ubuntu-xenial-191.0.0.tgz" then
      some [key, "bpm", "1.2.3-lts", "-lts", "", "ubuntu-xenial", "191.0.0"]
    else if key = "2.5/capi/capi-1.2.3-ubuntu-xenial-190.30.0.tgz" then
      some [key, "capi", "1.2.3-ubuntu", "-ubuntu", "", "xenial", "190.30.0"]
    else if key = "2.5/diego/diego-1.2.3-windows-1803.0.0.tgz" then
      some [key, "diego", "1.2.3-windows", "-windows", "", "", "1803.0.0"]
    else none

/-- The pattern of the built-source tests, with the submatches Go's `regexp` gives on the
keys those tests list. -/
def builtTestRegexp : Regexp where
  SubexpNames := ["", "release_name", "release_version", "", ""]
  FindStringSubmatch := fun key =>
    if key = "2.5/bpm/bpm-1.2.3-lts.tgz" then some [key, "bpm", "1.2.3-lts", "-lts", ""]
    else if key = "2.5/bpm/bpm-4.5.6.tgz" then some [key, "bpm", "4.5.6", "", ""]
    else if key = "2.5/diego/diego-1.2.3.tgz" then some [key, "diego", "1.2.3", "", ""]
    else none

/-- The pattern of the tests "the regular expression is missing a capture group": its first
group is unnamed. It is matched against no key there. -/
def missingGroupTestRegexp : Regexp where
  SubexpNames := ["", "", "release_version", "stemcell_os", "stemcell_version"]
  FindStringSubmatch := fun _ => none

/-- The ReleaseID `bpm/1.2.3-lts` of the tests. -/
def bpmReleaseID : ReleaseID := { Name := "bpm", Version := "1.2.3-lts" }

/-- The desired stemcell `ubuntu-xenial/190.0.0` of the tests. -/
def desiredStemcell : Stemcell := { OS := "ubuntu-xenial", Version := "190.0.0" }

/-- The desired release set of the tests: `bpm/1.2.3-lts`. -/
def desiredReleaseSet : ReleaseSet :=
  [(bpmReleaseID, ReleaseInfoDownloader.compiled
      { ID := bpmReleaseID, StemcellOS := "ubuntu-xenial", StemcellVersion := "190.0.0",
        Path := "" })]

/-- The compiled source of the test "when a matching release version is compiled against
multiple stemcell versions": one page with the two `bpm` keys. -/
def multiStemcellSource : S3ReleaseSource where
  Regex := compiledTestRegexp
  Bucket := "some-bucket"
  S3Client := fun _ =>
    { Pages := [["2.5/bpm/bpm-1.2.3-lts-ubuntu-xenial-190.0.0.tgz",
                 "2.5/bpm/bpm-1.2.3-lts-ubuntu-xenial-191.0.0.tgz"]],
      Err := none }

/-- The built source of the test "if any objects in built S3 bucket do not match a release
specified in Kilnfile.lock". -/
def builtTestSource : S3ReleaseSource where
  Regex := builtTestRegexp
  Bucket := "built-bucket"
  S3Client := fun _ =>
    { Pages := [["2.5/bpm/bpm-4.5.6.tgz", "2.5/diego/diego-1.2.3.tgz",
                 "2.5/bpm/bpm-1.2.3-lts.tgz"]],
      Err := none }

/-- The source of the tests "the regular expression is missing a capture group", with a
client that lists nothing. -/
def missingGroupSource : S3ReleaseSource where
  Regex := missingGroupTestRegexp
  Bucket := "some-bucket"
  S3Client := fun _ => { Pages := [], Err := none }

/-- The matched set of the compiled-source download tests: `uaa` and `bpm` 1.2.3 compiled
against `ubuntu-trusty/1234`. -/
def matchedCompiledObjects : ReleaseSet :=
  [({ Name := "uaa", Version := "1.2.3" }, ReleaseInfoDownloader.compiled
      { ID := { Name := "uaa", Version := "1.2.3" }, StemcellOS := "ubuntu-trusty",
        StemcellVersion := "1234", Path := "some-uaa-key" }),
   ({ Name := "bpm", Version := "1.2.3" }, ReleaseInfoDownloader.compiled
      { ID := { Name := "bpm", Version := "1.2.3" }, StemcellOS := "ubuntu-trusty",
        StemcellVersion := "1234", Path := "some-bpm-key" })]

/-- The matched set of the built-source download tests: `uaa` and `bpm` 1.2.3. -/
def matchedBuiltObjects : ReleaseSet :=
  [({ Name := "uaa", Version := "1.2.3" }, ReleaseInfoDownloader.built
      { ID := { Name := "uaa", Version := "1.2.3" }, Path := "some-uaa-key" }),
   ({ Name := "bpm", Version := "1.2.3" }, ReleaseInfoDownloader.built
      { ID := { Name := "bpm", Version := "1.2.3" }, Path := "some-bpm-key" })]

/-- The source of the download tests: only its bucket matters to a download. -/
def downloadTestSource : S3ReleaseSource where
  Regex := { SubexpNames := [], FindStringSubmatch := fun _ => none }
  Bucket := "some-bucket"
  S3Client := fun _ => { Pages := [], Err := none }

/-- An environment in which every file is created and every transfer succeeds. -/
def workingEnvironment : Environment where
  Create := fun _ => none
  Download := fun _ => none

/-- An environment in which no file can be created, as under `/non-existent-folder`. -/
def noDirectoryEnvironment : Environment where
  Create := fun path => some ("open " ++ path ++ ": no such file or directory")
  Download := fun _ => none

/-- An environment in which every file is created and every transfer fails with
"503 Service Unavailable", as the fake downloader of the tests "when a file can't be
downloaded". -/
def unavailableEnvironment : Environment where
  Create := fun _ => none
  Download := fun _ => some "503 Service Unavailable"

/-! ## The multi-source resolver -/

/-- The `GetMatchedReleases` operation of a release source, as the resolver sees it: the
desired set and the stemcell in, the located releases or an error out. -/
abbrev Locate := ReleaseSet → Stemcell → Except String ReleaseSet

/-- One query of a resolution pass: the matched set when the source was asked, and the desired
set it was asked for. -/
structure ResolutionQuery where
  matchedBefore : ReleaseSet
  queried : ReleaseSet

/-- The state of a resolution pass: the running matched set, the desired releases still
unmatched, and the queries made so far, in order. -/
structure Resolution where
  matched : ReleaseSet
  remaining : ReleaseSet
  queries : List ResolutionQuery

/-- Modelled from the spec: the resolver of the fetch command (`commands/fetch.go`) is
missing; the merge of section 4.3 into the running matched set of section 3: an entry, once
present, is never overwritten (first match wins). -/
def mergeMatches (matched found : ReleaseSet) : ReleaseSet :=
  found.foldl (fun m e =>
    match m.get? e.1 with
    | some _ => m
    | none => m.set e.1 e.2) matched

/-- Modelled from the spec: the resolver of the fetch command (`commands/fetch.go`) is
missing; section 4.3: the matched IDs are removed from the remaining set. -/
def removeMatched (remaining matched : ReleaseSet) : ReleaseSet :=
  remaining.filter (fun e => decide (e.1 ∉ matched.keys))

/-- Modelled from the spec: the resolver of the fetch command (`commands/fetch.go`) is
missing; the pass of section 4.3 over the sources in priority order: a source is asked for the
current remaining set, its matches are merged and removed from the remaining set; sources are
not asked once nothing remains; an error of a source ends the pass (section 7). -/
def resolveFrom : List Locate → Stemcell → Resolution → Except String Resolution
  | [], _, st => Except.ok st
  | source :: rest, stemcell, st =>
    if st.remaining.isEmpty then Except.ok st
    else
      match source st.remaining stemcell with
      | Except.error err => Except.error err
      | Except.ok found =>
        let matched := mergeMatches st.matched found
        resolveFrom rest stemcell
          { matched := matched,
            remaining := removeMatched st.remaining matched,
            queries := st.queries ++
              [{ matchedBefore := st.matched, queried := st.remaining }] }

/-- Modelled from the spec: the resolver of the fetch command (`commands/fetch.go`) is
missing; a resolution pass of section 4.3 from the empty matched set. -/
def resolve (sources : List Locate) (desiredReleaseSet : ReleaseSet) (stemcell : Stemcell) :
    Except String Resolution :=
  resolveFrom sources stemcell { matched := [], remaining := desiredReleaseSet, queries := [] }

/-- A desired set of two releases: `bpm/1.2.3-lts` and `uaa/1.2.3`. -/
def twoDesiredReleases : ReleaseSet :=
  [(bpmReleaseID, ReleaseInfoDownloader.compiled
      { ID := bpmReleaseID, StemcellOS := "ubuntu-xenial", StemcellVersion := "190.0.0",
        Path := "" }),
   ({ Name := "uaa", Version := "1.2.3" }, ReleaseInfoDownloader.compiled
      { ID := { Name := "uaa", Version := "1.2.3" }, StemcellOS := "ubuntu-xenial",
        StemcellVersion := "190.0.0", Path := "" })]

/-- The S3 sources of the tests in priority order: the compiled source of the stemcell tests,
then the built source. -/
def testSources : List Locate :=
  [S3CompiledReleaseSource.GetMatchedReleases multiStemcellSource,
   S3BuiltReleaseSource.GetMatchedReleases builtTestSource]

/-- The invariant of a resolution pass for the desired set `desired`. -/
def ResolutionInvariant (desired : ReleaseSet) (st : Resolution) : Prop :=
  st.remaining = removeMatched desired st.matched ∧
  (∀ id ∈ st.matched.keys, id ∈ desired.keys) ∧
  ∀ q ∈ st.queries, q.queried = removeMatched desired q.matchedBefore ∧
    ∀ id v, q.matchedBefore.get? id = some v → st.matched.get? id = some v

/-- The outcome of the pass over `testSources` for `twoDesiredReleases`. -/
def testResolution : Resolution :=
  match resolve testSources twoDesiredReleases desiredStemcell with
  | Except.ok res => res
  | Except.error _ => { matched := [], remaining := [], queries := [] }

/-! ## Go library functions used by `commands/publish.go` -/

/-- The function `strconv.IsPrint`: a rune up to U+00FF is printable when it lies between
U+0020 and U+007E, or from U+00A1 on and is not U+00AD; a rune above U+00FF is printable when
the tables of the package hold it so, which `isPrint` stands for. -/
def IsPrint (isPrint : Char → Bool) (r : Char) : Bool :=
  if r.toNat ≤ 0xFF then
    (decide (0x20 ≤ r.toNat) && decide (r.toNat ≤ 0x7E)) ||
      (decide (0xA1 ≤ r.toNat) && decide (r.toNat ≠ 0xAD))
  else isPrint r

/-- The digits of a number in base 16 (`lowerhex`), the last `width` of them. -/
def lowerHex : Nat → Nat → List Char
  | 0, _ => []
  | width + 1, n => lowerHex width (n / 16) ++ [Nat.digitChar (n % 16)]

/-- The function `appendEscapedRune` of `strconv` as `Quote` and `QuoteRune` call it: the quote
character and the backslash get a backslash in front, a printable rune is kept, and any other
rune is written as `\a`, `\b`, `\f`, `\n`, `\r`, `\t`, `\v`, or by its number, `\x` and two
digits below U+0020 and for U+007F, `\u` and four digits below U+10000, `\U` and eight digits
from there on. -/
def appendEscapedRune (isPrint : Char → Bool) (quote r : Char) : List Char :=
  if r = quote ∨ r = '\\' then ['\\', r]
  else if IsPrint isPrint r then [r]
  else if r.toNat = 7 then ['\\', 'a']
  else if r.toNat = 8 then ['\\', 'b']
  else if r.toNat = 12 then ['\\', 'f']
  else if r = '\n' then ['\\', 'n']
  else if r = '\r' then ['\\', 'r']
  else if r = '\t' then ['\\', 't']
  else if r.toNat = 11 then ['\\', 'v']
  else if r.toNat < 0x20 ∨ r.toNat = 0x7F then '\\' :: 'x' :: lowerHex 2 r.toNat
  else if r.toNat < 0x10000 then '\\' :: 'u' :: lowerHex 4 r.toNat
  else '\\' :: 'U' :: lowerHex 8 r.toNat

/-- The quoted form `%q` of a text (`strconv.Quote`): the text between double quotes, rune by
rune as `appendEscapedRune` writes it. A text here is a sequence of runes; Go writes a byte
that is not part of a rune in UTF-8 as `\x` and two digits. -/
def goQuote (isPrint : Char → Bool) (s : String) : String :=
  String.mk ('"' :: (s.data.flatMap (appendEscapedRune isPrint '"') ++ ['"']))

/-- The quoted form `%q` of an integer (`strconv.QuoteRune`): the rune of that number between
single quotes, as `appendEscapedRune` writes it; a number that is no rune stands for
U+FFFD. -/
def quoteRune (isPrint : Char → Bool) (n : Nat) : String :=
  let r : Char :=
    if n < 0xD800 ∨ (0xDFFF < n ∧ n < 0x110000) then Char.ofNat n else Char.ofNat 0xFFFD
  let quote : Char := Char.ofNat 39
  String.mk (quote :: (appendEscapedRune isPrint quote r ++ [quote]))

/-- The value of a text of decimal digits read from the left, on top of `acc`. -/
def foldDigits (acc : Nat) : List Char → Nat
  | [] => acc
  | c :: cs => foldDigits (acc * 10 + (c.toNat - 48)) cs

/-- The number written by a non-empty text of decimal digits, `none` for any other text. -/
def parseDigits (cs : List Char) : Option Nat :=
  if cs ≠ [] ∧ cs.all Char.isDigit = true then some (foldDigits 0 cs) else none

/-- The optional sign in front of a number text: whether it is `-`, and the text after the
sign. -/
def splitSign : List Char → Bool × List Char
  | '-' :: rest => (true, rest)
  | '+' :: rest => (false, rest)
  | cs => (false, cs)

/-- The function `strconv.ParseInt(s, 10, 64)`, also `strconv.Atoi` on a 64-bit platform: an
optional sign and decimal digits, within the range of `int64`; `none` is a parse error. -/
def parseInt64 (s : String) : Option Int :=
  match parseDigits (splitSign s.data).2 with
  | none => none
  | some n =>
    let value : Int := if (splitSign s.data).1 then -(n : Int) else (n : Int)
    if -(2 : Int) ^ 63 ≤ value ∧ value < (2 : Int) ^ 63 then some value else none

/-- The function `strconv.ParseUint(s, 10, 64)`: decimal digits without a sign, within the
range of `uint64`; `none` is a parse error. -/
def parseUint64 (s : String) : Option Nat :=
  match parseDigits s.data with
  | none => none
  | some n => if n < 2 ^ 64 then some n else none

/-- The function `strings.Split(s, sep)` for a one-character separator, on character lists: the
pieces between the separators; the empty text gives one empty piece. -/
def splitOnChar (sep : Char) : List Char → List (List Char)
  | [] => [[]]
  | c :: cs =>
    if c = sep then [] :: splitOnChar sep cs
    else
      match splitOnChar sep cs with
      | [] => [[c]]
      | piece :: pieces => (c :: piece) :: pieces

/-- The function `strings.Split(s, ".")`. -/
def splitDots (s : String) : List String :=
  (splitOnChar '.' s.data).map String.mk

/-! ## The library `github.com/Masterminds/semver` (release 1.5), as far as `publish.go` uses it -/

namespace semver

/-- The type `semver.Version`: the three numbers (`int64`), the prerelease text, the build
metadata text and the text the version was made from. -/
structure Version where
  major : Nat
  minor : Nat
  patch : Nat
  pre : String
  metadata : String
  original : String
deriving DecidableEq, Repr

/-- A character of the class `[0-9A-Za-z\-]`. -/
def isIdentifierChar (c : Char) : Bool :=
  c.isAlphanum || c == '-'

/-- The text matches `[0-9A-Za-z\-]+(\.[0-9A-Za-z\-]+)*`, whole: non-empty pieces of identifier
characters, separated by dots. -/
def validIdentifiers (cs : List Char) : Bool :=
  (splitOnChar '.' cs).all (fun piece => !piece.isEmpty && piece.all isIdentifierChar)

/-- The method `Version.String`: `major.minor.patch`, then `-pre` and `+metadata` when they are
not empty. -/
def Version.str (v : Version) : String :=
  toString v.major ++ "." ++ toString v.minor ++ "." ++ toString v.patch ++
    (if v.pre ≠ "" then "-" ++ v.pre else "") ++
    (if v.metadata ≠ "" then "+" ++ v.metadata else "")

/-- The method `Version.originalVPrefix`: `v` when the original text starts with it. -/
def Version.originalVPrefix (v : Version) : String :=
  if v.original.data.head? = some 'v' then "v" else ""

/-- The copy `vNext` that `SetPrerelease` returns when the text is valid: the prerelease text
is replaced and the original text is the text of the copy, after the `v` of the old original
text, if any. -/
def Version.withPrerelease (v : Version) (pre : String) : Version :=
  { v with pre := pre,
           original := v.originalVPrefix ++ Version.str { v with pre := pre } }

/-- The method `Version.SetPrerelease`: a copy of the version with the prerelease text
replaced; a non-empty text that is not a valid prerelease is the error
`ErrInvalidPrerelease`. -/
def Version.SetPrerelease (v : Version) (pre : String) : Except String Version :=
  if pre.length > 0 ∧ validIdentifiers pre.data = false then
    Except.error "Invalid Prerelease string"
  else Except.ok (v.withPrerelease pre)

/-- One number of a version text, by `strconv.ParseInt(digits, 10, 64)`. The error quotes the
text, which is of digits, so that the quoted form is the text between double quotes. -/
def parseSegment (digits : List Char) : Except String Nat :=
  let n := foldDigits 0 digits
  if n < 2 ^ 63 then Except.ok n
  else Except.error ("Error parsing version segment: strconv.ParseInt: parsing \"" ++
    String.mk digits ++ "\": value out of range")

/-- The optional group `(\.[0-9]+)?` of the version pattern at the start of `cs`: the digits
matched, if any, and the rest of the text. -/
def takeDotNumber (cs : List Char) : Option (List Char) × List Char :=
  match cs with
  | '.' :: rest =>
    if (rest.takeWhile Char.isDigit).isEmpty then (none, cs)
    else (some (rest.takeWhile Char.isDigit), rest.dropWhile Char.isDigit)
  | _ => (none, cs)

/-- The tail `(-pre)?(\+metadata)?$` of the version pattern: the prerelease and metadata texts
when the whole of `cs` matches. -/
def parseTail (cs : List Char) : Option (String × String) :=
  match cs with
  | [] => some ("", "")
  | '-' :: rest =>
    let pre := rest.takeWhile (fun c => c ≠ '+')
    if validIdentifiers pre = false then none
    else
      match rest.dropWhile (fun c => c ≠ '+') with
      | [] => some (String.mk pre, "")
      | _ :: metadata =>
        if validIdentifiers metadata then some (String.mk pre, String.mk metadata) else none
  | '+' :: metadata =>
    if validIdentifiers metadata then some ("", String.mk metadata) else none
  | _ => none

/-- The optional `v` in front of a version text (`v?` of the version pattern) is dropped. -/
def dropLeadingV : List Char → List Char
  | 'v' :: rest => rest
  | cs => cs

/-- The function `semver.NewVersion`: the text must match, whole, the pattern
`v?([0-9]+)(\.[0-9]+)?(\.[0-9]+)?(-pre)?(\+metadata)?`, with `pre` and `metadata` dot-separated
identifiers; a missing minor or patch number is 0; every number must fit an `int64`. -/
def NewVersion (text : String) : Except String Version :=
  let cs := dropLeadingV text.data
  let majorDigits := cs.takeWhile Char.isDigit
  if majorDigits.isEmpty then Except.error "Invalid Semantic Version"
  else
    let minorPart := takeDotNumber (cs.dropWhile Char.isDigit)
    let patchPart := takeDotNumber minorPart.2
    match parseTail patchPart.2 with
    | none => Except.error "Invalid Semantic Version"
    | some (pre, metadata) =>
      match parseSegment majorDigits with
      | Except.error err => Except.error err
      | Except.ok major =>
        match (match minorPart.1 with
               | some digits => parseSegment digits
               | none => Except.ok 0) with
        | Except.error err => Except.error err
        | Except.ok minor =>
          match (match patchPart.1 with
                 | some digits => parseSegment digits
                 | none => Except.ok 0) with
          | Except.error err => Except.error err
          | Except.ok patch =>
            Except.ok { major := major, minor := minor, patch := patch, pre := pre,
                        metadata := metadata, original := text }

/-- The function `comparePrePart`: the order of two pieces of prerelease texts; a missing piece
(`""`) is below any piece, a number (by `strconv.ParseUint`) is below a text that is not a
number, numbers go by value and other texts by their characters in order (`s > o`). Two
different texts never compare as 0. -/
def comparePrePart (s o : String) : Int :=
  if s = o then 0
  else if s = "" then -1
  else if o = "" then 1
  else
    match parseUint64 s, parseUint64 o with
    | none, none => if o.data < s.data then 1 else -1
    | some _, none => -1
    | none, some _ => 1
    | some si, some oi => if si > oi then 1 else -1

/-- The loop of `comparePrerelease` once the pieces of the first text are used up: every piece
left of the second text is compared with the missing piece `""`. -/
def compareMissingParts : List String → Int
  | [] => 0
  | o :: os => if comparePrePart "" o ≠ 0 then comparePrePart "" o else compareMissingParts os

/-- The loop of `comparePrerelease` over the pieces of the two texts, a missing piece being
`""`: the first comparison that is not 0 decides. -/
def comparePreParts : List String → List String → Int
  | [], os => compareMissingParts os
  | s :: ss, [] =>
    if comparePrePart s "" ≠ 0 then comparePrePart s "" else comparePreParts ss []
  | s :: ss, o :: os =>
    if comparePrePart s o ≠ 0 then comparePrePart s o else comparePreParts ss os

/-- The function `comparePrerelease`: the two texts are split at the dots and compared piece
by piece. -/
def comparePrerelease (v o : String) : Int :=
  comparePreParts (splitDots v) (splitDots o)

/-- The function `compareSegment` on two numbers. -/
def compareSegment (v o : Nat) : Int :=
  if v < o then -1 else if v > o then 1 else 0

/-- The method `Version.Compare`: -1, 0 or 1; the numbers decide first, then a version without
prerelease is above one with a prerelease, then the prerelease texts decide. Metadata is not
compared. -/
def Version.Compare (v o : Version) : Int :=
  if compareSegment v.major o.major ≠ 0 then compareSegment v.major o.major
  else if compareSegment v.minor o.minor ≠ 0 then compareSegment v.minor o.minor
  else if compareSegment v.patch o.patch ≠ 0 then compareSegment v.patch o.patch
  else if v.pre = "" ∧ o.pre = "" then 0
  else if v.pre = "" then 1
  else if o.pre = "" then -1
  else comparePrerelease v.pre o.pre

/-- The method `Version.LessThan`. -/
def Version.LessThan (v o : Version) : Bool :=
  decide (v.Compare o < 0)

/-- The version that `NewVersion` makes of the version text `M.m.p-pre` of a constraint, or
`M.m.p` for an empty `pre`: no metadata, and that text as original text. -/
abbrev constraintVersion (major minor patch : Nat) (pre : String) : Version :=
  { major := major, minor := minor, patch := patch, pre := pre, metadata := "",
    original := toString major ++ "." ++ toString minor ++ "." ++ toString patch ++
      (if pre ≠ "" then "-" ++ pre else "") }

/-- The comparison operators of constraints that `publish.go` writes. -/
inductive Operator where
  | greaterThanEqual
  | lessThanEqual
  | tilde
deriving DecidableEq, Repr

/-- One parsed constraint: an operator and a full version (no wildcard). -/
structure Constraint where
  op : Operator
  con : Version
deriving DecidableEq, Repr

/-- The type `semver.Constraints` for a text without `||`: the constraints between the commas,
all of which must hold. -/
abbrev Constraints := List Constraint

/-- The check of one constraint (`constraintGreaterThanEqual`, `constraintLessThanEqual`,
`constraintTilde`): a version with a prerelease never satisfies a constraint whose version has
none; `~0.0.0` accepts every version from 0.0.0 on; otherwise `~M.m.p` asks for a version that
is not below `M.m.p` and has the same major and minor number. -/
def Constraint.check (c : Constraint) (v : Version) : Bool :=
  if v.pre ≠ "" ∧ c.con.pre = "" then false
  else
    match c.op with
    | Operator.greaterThanEqual => decide (v.Compare c.con ≥ 0)
    | Operator.lessThanEqual => decide (v.Compare c.con ≤ 0)
    | Operator.tilde =>
      if v.LessThan c.con then false
      else if c.con.major = 0 ∧ c.con.minor = 0 ∧ c.con.patch = 0 then true
      else if v.major ≠ c.con.major then false
      else if v.minor ≠ c.con.minor then false
      else true

/-- The method `Constraints.Check`. -/
def Constraints.Check (cs : Constraints) (v : Version) : Bool :=
  cs.all (fun c => c.check v)

end semver

/-! ## `commands/publish.go`: release versions -/

/-- The text that `%q` writes for a value of the struct `semver.Version`, whose method `String`
is one of the pointer: the fields between braces with a blank between them, each number as the
quoted rune of that number and each text quoted. -/
def quoteVersion (isPrint : Char → Bool) (v : semver.Version) : String :=
  "\x7b" ++ quoteRune isPrint v.major ++ " " ++ quoteRune isPrint v.minor ++ " " ++
    quoteRune isPrint v.patch ++ " " ++ goQuote isPrint v.pre ++ " " ++
    goQuote isPrint v.metadata ++ " " ++ goQuote isPrint v.original ++ "\x7d"

/-- The type `releaseVersion`. -/
structure releaseVersion where
  semver : semver.Version
  window : String
  prereleaseVersion : Int
deriving DecidableEq, Repr

/-- The method `releaseVersion.IsGA`. -/
def releaseVersion.IsGA (rv : releaseVersion) : Bool :=
  rv.window == "ga"

/-- The method `releaseVersion.IsMajor`. -/
def releaseVersion.IsMajor (rv : releaseVersion) : Bool :=
  rv.semver.minor == 0 && rv.semver.patch == 0

/-- The method `releaseVersion.IsMinor`. -/
def releaseVersion.IsMinor (rv : releaseVersion) : Bool :=
  rv.semver.minor != 0 && rv.semver.patch == 0

/-- The method `releaseVersion.String`. -/
def releaseVersion.str (rv : releaseVersion) : String :=
  rv.semver.str

/-- The method `releaseVersion.MajorAndMinor`. -/
def releaseVersion.MajorAndMinor (rv : releaseVersion) : String :=
  toString rv.semver.major ++ "." ++ toString rv.semver.minor

/-- The method `releaseVersion.PrereleaseVersion`. -/
def releaseVersion.PrereleaseVersion (rv : releaseVersion) : Int :=
  rv.prereleaseVersion

/-- The method `releaseVersion.MajorMinorConstraint`: the constraint text `~M.m.0` always
parses, to one tilde constraint on the version of the text `M.m.0`. -/
def releaseVersion.MajorMinorConstraint (rv : releaseVersion) : Except String semver.Constraints :=
  Except.ok [{ op := semver.Operator.tilde,
               con := semver.constraintVersion rv.semver.major rv.semver.minor 0 "" }]

/-- The method `releaseVersion.PrereleaseVersionsConstraint`: an error for a GA version, whose
text shows the fields of the struct `rv.semver`; otherwise the constraint parsed from the text
`>= M.m.p-w.0, <= M.m.p-w.9999`. For a window `w` that is a valid prerelease text this is the
pair of constraints below. The parse of the text for any other window is not modelled and
stands as the library's error for a text that is no constraint. -/
def releaseVersion.PrereleaseVersionsConstraint (isPrint : Char → Bool) (rv : releaseVersion) :
    Except String semver.Constraints :=
  if rv.IsGA then
    Except.error ("can't determine PrereleaseVersionsConstraint for " ++
      quoteVersion isPrint rv.semver ++ ", which is GA")
  else
    let coreVersion := toString rv.semver.major ++ "." ++ toString rv.semver.minor ++ "." ++
      toString rv.semver.patch ++ "-" ++ rv.window
    if semver.validIdentifiers rv.window.data then
      Except.ok
        [{ op := semver.Operator.greaterThanEqual,
           con := semver.constraintVersion rv.semver.major rv.semver.minor rv.semver.patch
                    (rv.window ++ ".0") },
         { op := semver.Operator.lessThanEqual,
           con := semver.constraintVersion rv.semver.major rv.semver.minor rv.semver.patch
                    (rv.window ++ ".9999") }]
    else
      Except.error ("improper constraint: >= " ++ coreVersion ++ ".0")

/-- The method `releaseVersion.SetPrereleaseVersion`: an error for a GA version; otherwise a
copy whose prerelease text is `<window>.<number>` and whose prerelease number is the number.
The receiver is a value: the original is not changed. -/
def releaseVersion.SetPrereleaseVersion (isPrint : Char → Bool) (rv : releaseVersion)
    (prereleaseVersion : Int) : Except String releaseVersion :=
  if rv.IsGA then
    Except.error ("SetPrereleaseVersion: can't set the prerelease version on a GA version (" ++
      goQuote isPrint rv.str ++ ")")
  else
    match rv.semver.SetPrerelease (rv.window ++ "." ++ toString prereleaseVersion) with
    | Except.error err =>
      Except.error ("SetPrereleaseVersion: couldn't set prerelease: " ++ err)
    | Except.ok v => Except.ok { rv with semver := v, prereleaseVersion := prereleaseVersion }

/-- The function `ReleaseVersionFromBuildVersion`. Clearing the prerelease never fails; the
text of that error would show the fields of the struct `v2`, a copy of the base version. When
setting the prerelease number fails, `rv` is nil by then, and `%q` prints a nil pointer as
`<nil>`. -/
def ReleaseVersionFromBuildVersion (isPrint : Char → Bool) (baseVersion : semver.Version)
    (window : String) : Except String releaseVersion :=
  match baseVersion.SetPrerelease "" with
  | Except.error err =>
    Except.error ("ReleaseVersionFromBuildVersion: error clearing prerelease of " ++
      quoteVersion isPrint baseVersion ++ ": " ++ err)
  | Except.ok v2 =>
    let rv : releaseVersion := { semver := v2, window := window, prereleaseVersion := 0 }
    if window ≠ "ga" then
      match rv.SetPrereleaseVersion isPrint 1 with
      | Except.error err =>
        Except.error ("ReleaseVersionFromBuildVersion: error setting prerelease of <nil> " ++
          "to 1: " ++ err)
      | Except.ok rv => Except.ok rv
    else Except.ok rv

/-- The text of the error of `strconv.Atoi` for a text it does not parse: the value is out of
range when the text is a signed number, the syntax is invalid otherwise. -/
def atoiError (isPrint : Char → Bool) (s : String) : String :=
  "strconv.Atoi: parsing " ++ goQuote isPrint s ++
    (if (parseDigits (splitSign s.data).2).isSome then ": value out of range"
     else ": invalid syntax")

/-- The function `ReleaseVersionFromPublishedVersion`. -/
def ReleaseVersionFromPublishedVersion (isPrint : Char → Bool) (versionString : String) :
    Except String releaseVersion :=
  match semver.NewVersion versionString with
  | Except.error err =>
    Except.error ("ReleaseVersionFromPublishedVersion: unable to parse version " ++
      goQuote isPrint versionString ++ ": " ++ err)
  | Except.ok version =>
    let segments := splitDots version.pre
    if segments.length ≠ 2 then
      Except.error ("ReleaseVersionFromPublishedVersion: expected prerelease to have a dot (" ++
        goQuote isPrint version.str ++ ")")
    else
      let window := segments.headD ""
      match parseInt64 (segments.getLastD "") with
      | none =>
        Except.error ("ReleaseVersionFromPublishedVersion: release has malformed prelease " ++
          "version (" ++ version.str ++ "): " ++ atoiError isPrint (segments.getLastD ""))
      | some prereleaseVersion =>
        Except.ok { semver := version, window := window,
                    prereleaseVersion := prereleaseVersion }

/-- The function `releaseType`. -/
def releaseType (window : String) (includesSecurityFix : Bool) (v : releaseVersion) : String :=
  if window = "rc" then "Release Candidate"
  else if window = "beta" then "Beta Release"
  else if window = "alpha" then "Alpha Release"
  else if window = "ga" then
    if v.IsMajor then "Major Release"
    else if v.IsMinor then "Minor Release"
    else if includesSecurityFix then "Security Release"
    else "Maintenance Release"
  else "Developer Release"

/-! ## `commands/publish.go`: the releases on Pivnet -/

/-- The fields of `pivnet.Release` that `publish.go` reads or writes. -/
structure Release where
  ID : Int
  Version : String
  ReleaseType : String
  ReleaseDate : String
  EndOfSupportDate : String
  Availability : String
deriving DecidableEq, Repr

/-- The fields of `pivnet.ProductFile` that `publish.go` reads. -/
structure ProductFile where
  ID : Int
  Name : String
  FileVersion : String
  FileType : String
deriving DecidableEq, Repr

/-- The fields of `pivnet.UserGroup` that `publish.go` reads. -/
structure UserGroup where
  ID : Int
  Name : String
deriving DecidableEq, Repr

/-- The fields of `cargo.Kilnfile` that `publish.go` reads. -/
structure Kilnfile where
  Slug : String
  PreGaUserGroups : List String
deriving DecidableEq, Repr

/-- The constant `oslFileType`. -/
def oslFileType : String := "Open Source License"

/-- The method `releaseSet.Find`: the first release with that version text. -/
def releaseSet.Find : List Release → String → Except String Release
  | [], version => Except.error ("release with version " ++ version ++ " not found")
  | r :: rs, version => if r.Version = version then Except.ok r else releaseSet.Find rs version

/-- The comparison that `FindLatest` gives to `sort.Slice`: the versions of the two releases,
parsed again, by `LessThan`. Every release compared has a version that parses. -/
def releaseLess (r1 r2 : Release) : Bool :=
  match semver.NewVersion r1.Version, semver.NewVersion r2.Version with
  | Except.ok v1, Except.ok v2 => v1.LessThan v2
  | _, _ => false

/-- One step of the insertion sort by which `sort.Slice` orders a short slice: the next element
`x` moves left past every element it is less than. The part sorted so far is held with its
last element first. -/
def insertFromRight {α : Type} (less : α → α → Bool) (x : α) : List α → List α
  | [] => [x]
  | y :: ys => if less x y then y :: insertFromRight less x ys else x :: y :: ys

/-- The slice sorted by `sort.Slice`, last element first. `sort.Slice` sorts slices of up to
twelve elements by insertion, as here; for longer slices it may order elements that compare
equal otherwise. -/
def sortSliceDescending {α : Type} (less : α → α → Bool) (l : List α) : List α :=
  l.foldl (fun sorted x => insertFromRight less x sorted) []

/-- The test of the first loop of `FindLatest`: the version of the release parses and
satisfies the constraint. -/
def satisfiesConstraint (constraint : semver.Constraints) (release : Release) : Bool :=
  match semver.NewVersion release.Version with
  | Except.error _ => false
  | Except.ok v => constraint.Check v

/-- The method `releaseSet.FindLatest`: the releases whose version parses and satisfies the
constraint, sorted by version; the last one, or `none` when there is none (the `false` result).
The error result is always nil. -/
def releaseSet.FindLatest (rs : List Release) (constraint : semver.Constraints) :
    Option Release :=
  (sortSliceDescending releaseLess (rs.filter (satisfiesConstraint constraint))).head?

/-- The value of a Go `int` after an addition that may pass the range of `int64`. -/
def wrapInt64 (i : Int) : Int :=
  (i + 2 ^ 63) % 2 ^ 64 - 2 ^ 63

/-- The method `Publish.determineVersion`. -/
def determineVersion (isPrint : Char → Bool) (releases : List Release)
    (version : releaseVersion) : Except String releaseVersion :=
  if version.IsGA then Except.ok version
  else
    match version.PrereleaseVersionsConstraint isPrint with
    | Except.error err =>
      Except.error ("determineVersion: error building prerelease version constraint: " ++ err)
    | Except.ok constraint =>
      match releaseSet.FindLatest releases constraint with
      | none => Except.ok version
      | some latestRelease =>
        match ReleaseVersionFromPublishedVersion isPrint latestRelease.Version with
        | Except.error err =>
          Except.error ("determineVersion: error parsing release version: " ++ err)
        | Except.ok maxPublishedVersion =>
          version.SetPrereleaseVersion isPrint
            (wrapInt64 (maxPublishedVersion.PrereleaseVersion + 1))

/-! ## `commands/publish.go`: dates -/

/-- A date of the Gregorian calendar. -/
structure CivilDate where
  Year : Nat
  Month : Nat
  Day : Nat
deriving DecidableEq, Repr

/-- The number of days of a month of the Gregorian calendar. -/
def daysInMonth (year month : Nat) : Nat :=
  if month = 2 then
    if (year % 4 = 0 ∧ year % 100 ≠ 0) ∨ year % 400 = 0 then 29 else 28
  else if month = 4 ∨ month = 6 ∨ month = 9 ∨ month = 11 then 30
  else 31

/-- The date 24 hours before midnight of a date: the day before. -/
def CivilDate.dayBefore (t : CivilDate) : CivilDate :=
  if t.Day > 1 then { t with Day := t.Day - 1 }
  else if t.Month > 1 then
    { Year := t.Year, Month := t.Month - 1, Day := daysInMonth t.Year (t.Month - 1) }
  else { Year := t.Year - 1, Month := 12, Day := 31 }

/-- The date 24 hours after a date: the day after. -/
def CivilDate.dayAfter (t : CivilDate) : CivilDate :=
  if t.Day < daysInMonth t.Year t.Month then { t with Day := t.Day + 1 }
  else if t.Month < 12 then { Year := t.Year, Month := t.Month + 1, Day := 1 }
  else { Year := t.Year + 1, Month := 1, Day := 1 }

/-- The date a number of days after a date. -/
def CivilDate.addDays (t : CivilDate) : Nat → CivilDate
  | 0 => t
  | n + 1 => (t.addDays n).dayAfter

/-- A number in decimal, with zeros in front up to a width. -/
def zeroPad (width n : Nat) : String :=
  String.mk (List.replicate (width - (toString n).length) '0') ++ toString n

/-- A date in the layout `publishDateFormat`, "2006-01-02". -/
def CivilDate.Format (t : CivilDate) : String :=
  zeroPad 4 t.Year ++ "-" ++ zeroPad 2 t.Month ++ "-" ++ zeroPad 2 t.Day

/-- A moment in UTC: the civil date and the seconds since its midnight, from 0 to 86399. -/
structure Moment where
  date : CivilDate
  second : Nat
deriving DecidableEq, Repr

/-- The first moment is before the second. -/
def Moment.before (a b : Moment) : Bool :=
  decide (a.date.Year < b.date.Year) ||
  (a.date.Year == b.date.Year && (decide (a.date.Month < b.date.Month) ||
    (a.date.Month == b.date.Month && (decide (a.date.Day < b.date.Day) ||
      (a.date.Day == b.date.Day && decide (a.second < b.second))))))

/-- The date a number of days before a date. -/
def CivilDate.subDays (t : CivilDate) : Nat → CivilDate
  | 0 => t
  | n + 1 => (t.subDays n).dayBefore

/-- The date a number of days after a date, or before it for a negative number. -/
def CivilDate.shiftDays (t : CivilDate) (days : Int) : CivilDate :=
  if days < 0 then t.subDays days.natAbs else t.addDays days.natAbs

/-- The moment a number of seconds after a moment, or before it for a negative number. -/
def Moment.add (m : Moment) (seconds : Int) : Moment :=
  { date := m.date.shiftDays (((m.second : Int) + seconds) / 86400),
    second := (((m.second : Int) + seconds) % 86400).toNat }

/-- A location (`time.Location`): the offset from UTC in seconds that holds before the first
clock change, and the clock changes in order of time, each with the UTC moment from which its
offset holds. -/
structure Location where
  offset : Int
  changes : List (Moment × Int)
deriving Repr

/-- The offset in force at a UTC moment, with the moments between which it holds (`none` for
no bound), looked up in the clock changes that follow `start`. -/
def Location.lookupFrom (offset : Int) (start : Option Moment) :
    List (Moment × Int) → Moment → Int × Option Moment × Option Moment
  | [], _ => (offset, start, none)
  | (change, next) :: rest, m =>
    if m.before change then (offset, start, some change)
    else Location.lookupFrom next (some change) rest m

/-- The method `Location.lookup`: the offset in force at a UTC moment, and the moments between
which it holds. -/
def Location.lookup (l : Location) (m : Moment) : Int × Option Moment × Option Moment :=
  Location.lookupFrom l.offset none l.changes m

/-- The type `time.Time`: a moment and the location its date and clock are read in. -/
structure Time where
  utc : Moment
  loc : Location
deriving Repr

/-- The moment as date and seconds of the local clock. -/
def Time.localMoment (t : Time) : Moment :=
  t.utc.add (t.loc.lookup t.utc).1

/-- The method `Time.Year`. -/
def Time.Year (t : Time) : Nat := t.localMoment.date.Year

/-- The method `Time.Month`. -/
def Time.Month (t : Time) : Nat := t.localMoment.date.Month

/-- The method `Time.Location`. -/
def Time.Location (t : Time) : Location := t.loc

/-- The method `Time.Add` for a duration in whole seconds. -/
def Time.Add (t : Time) (seconds : Int) : Time :=
  { t with utc := t.utc.add seconds }

/-- The method `Time.Format` for the layout `publishDateFormat`: the local date. -/
def Time.Format (t : Time) : String :=
  t.localMoment.date.Format

/-- The function `time.Date(year, month, day, 0, 0, 0, 0, loc)` for a date of the calendar:
the date at midnight is first taken as UTC and the offset in force then is looked up; when the
moment less that offset is outside the period of the offset, the offset in force at that
moment is taken. -/
def Date (year month day : Nat) (loc : Location) : Time :=
  let unix : Moment := { date := { Year := year, Month := month, Day := day }, second := 0 }
  let found := loc.lookup unix
  if found.1 ≠ 0 then
    let utc := unix.add (-found.1)
    let outside : Bool :=
      (match found.2.1 with
       | some start => utc.before start
       | none => false) ||
      (match found.2.2 with
       | some stop => !utc.before stop
       | none => false)
    let offset := if outside then (loc.lookup utc).1 else found.1
    { utc := unix.add (-offset), loc := loc }
  else { utc := unix, loc := loc }

/-- The function `endOfSupportFor`. -/
def endOfSupportFor (publishDate : Time) : String :=
  let monthWithOverflow := publishDate.Month + 10
  let month := ((monthWithOverflow - 1) % 12) + 1
  let yearDelta := (monthWithOverflow - 1) / 12
  let startOfTenthMonth := Date (publishDate.Year + yearDelta) month 1 publishDate.Location
  let endOfNinthMonth := startOfTenthMonth.Add (-24 * 3600)
  endOfNinthMonth.Format

/-- The date that the specification of `endOfSupportFor` names, as YYYY-MM-DD: the last day of
the ninth month after the month of a date, that is, with `m` the month and `y` the year of the
date, the day before the first day of the month `((m + 9) mod 12) + 1` of the year
`y + (m + 9) div 12`. -/
def lastDayOfNinthMonth (publishDate : CivilDate) : String :=
  (CivilDate.dayBefore
    { Year := publishDate.Year + (publishDate.Month + 9) / 12,
      Month := (publishDate.Month + 9) % 12 + 1, Day := 1 }).Format

/-- The method `Publish.eogsDate`, with the value of `p.Now()` as `now`. -/
def eogsDate (isPrint : Char → Bool) (now : Time) (rv : releaseVersion)
    (releases : List Release) : Except String String :=
  if rv.IsGA then
    match rv.MajorMinorConstraint with
    | Except.error err => Except.error err
    | Except.ok sameMajorAndMinor =>
      match releaseSet.FindLatest releases sameMajorAndMinor with
      | none => Except.ok (endOfSupportFor now)
      | some lastPatchRelease =>
        if lastPatchRelease.EndOfSupportDate ≠ "" then
          Except.ok lastPatchRelease.EndOfSupportDate
        else
          Except.error ("previously published release " ++
            goQuote isPrint lastPatchRelease.Version ++
            " does not have an End of General Support date")
  else Except.ok ""

/-! ## `commands/publish.go`: the Pivnet services -/

/-- A call of one of the Pivnet services, with its arguments. -/
inductive PivnetCall where
  | releasesList (productSlug : String)
  | releasesUpdate (productSlug : String) (release : Release)
  | productFilesList (productSlug : String)
  | productFilesAddToRelease (productSlug : String) (releaseID productFileID : Int)
  | userGroupsList
  | userGroupsAddToRelease (productSlug : String) (releaseID userGroupID : Int)
deriving DecidableEq, Repr

/-- The three services `PivnetReleasesService`, `PivnetProductFilesService` and
`PivnetUserGroupsService` over a state `σ` of what stands behind them: each method gives its
result and the next state. An error is its text. -/
structure PivnetServices (σ : Type) where
  releasesList : String → σ → Except String (List Release) × σ
  releasesUpdate : String → Release → σ → Except String Release × σ
  productFilesList : String → σ → Except String (List ProductFile) × σ
  productFilesAddToRelease : String → Int → Int → σ → Option String × σ
  userGroupsList : σ → Except String (List UserGroup) × σ
  userGroupsAddToRelease : String → Int → Int → σ → Option String × σ

/-- The state of the services and the calls made so far, oldest first. -/
structure Session (σ : Type) where
  state : σ
  calls : List PivnetCall

/-- The function `findMatchingOSL`: the first product file that is an open source license for
the major and minor number of the version. -/
def findMatchingOSL : List ProductFile → releaseVersion → Option ProductFile
  | [], _ => none
  | file :: productFiles, version =>
    if file.FileType = oslFileType ∧ file.FileVersion = version.MajorAndMinor then some file
    else findMatchingOSL productFiles version

/-- The method `Publish.attachLicenseFile`. -/
def attachLicenseFile {σ : Type} (pivnet : PivnetServices σ) (slug : String) (releaseID : Int)
    (version : releaseVersion) (s : Session σ) : Except String String × Session σ :=
  if version.IsGA then
    let listed := pivnet.productFilesList slug s.state
    let s1 : Session σ :=
      { state := listed.2, calls := s.calls ++ [PivnetCall.productFilesList slug] }
    match listed.1 with
    | Except.error err => (Except.error err, s1)
    | Except.ok productFiles =>
      match findMatchingOSL productFiles version with
      | none => (Except.error "required license file doesn't exist on Pivnet", s1)
      | some productFile =>
        let added := pivnet.productFilesAddToRelease slug releaseID productFile.ID s1.state
        let s2 : Session σ :=
          { state := added.2,
            calls := s1.calls ++
              [PivnetCall.productFilesAddToRelease slug releaseID productFile.ID] }
        match added.1 with
        | none => (Except.ok productFile.Name, s2)
        | some err => (Except.error err, s2)
  else (Except.ok "", s)

/-- The inner loop of `addUserGroups`: the first user group with the name is added to the
release; `none` when no group has the name (`groupFound` stays false). -/
def addUserGroup {σ : Type} (pivnet : PivnetServices σ) (slug : String) (releaseID : Int)
    (userGroupName : String) : List UserGroup → Session σ → Option (Option String × Session σ)
  | [], _ => none
  | userGroup :: allUserGroups, s =>
    if userGroup.Name = userGroupName then
      let added := pivnet.userGroupsAddToRelease slug releaseID userGroup.ID s.state
      some (added.1,
        { state := added.2,
          calls := s.calls ++ [PivnetCall.userGroupsAddToRelease slug releaseID userGroup.ID] })
    else addUserGroup pivnet slug releaseID userGroupName allUserGroups s

/-- The outer loop of `addUserGroups` over the names of the Kilnfile. -/
def addUserGroupsLoop {σ : Type} (isPrint : Char → Bool) (pivnet : PivnetServices σ)
    (slug : String) (releaseID : Int) (allUserGroups : List UserGroup) :
    List String → Session σ → Option String × Session σ
  | [], s => (none, s)
  | userGroupName :: names, s =>
    match addUserGroup pivnet slug releaseID userGroupName allUserGroups s with
    | none =>
      (some ("no matching user group " ++ goQuote isPrint userGroupName ++ " on Pivnet"), s)
    | some (some err, s1) => (some err, s1)
    | some (none, s1) => addUserGroupsLoop isPrint pivnet slug releaseID allUserGroups names s1

/-- The method `Publish.addUserGroups`: the error it returns, `none` for nil. -/
def addUserGroups {σ : Type} (isPrint : Char → Bool) (pivnet : PivnetServices σ)
    (rv : releaseVersion) (release : Release) (kilnfile : Kilnfile) (s : Session σ) :
    Option String × Session σ :=
  if rv.IsGA then (none, s)
  else
    let listed := pivnet.userGroupsList s.state
    let s1 : Session σ := { state := listed.2, calls := s.calls ++ [PivnetCall.userGroupsList] }
    match listed.1 with
    | Except.error err => (some err, s1)
    | Except.ok allUserGroups =>
      addUserGroupsLoop isPrint pivnet kilnfile.Slug release.ID allUserGroups
        kilnfile.PreGaUserGroups s1

/-! ## Fixtures of the publish tests -/

/-- A table of the printable runes above U+00FF that holds none of them: no text quoted in the
evaluations below has such a rune. -/
def testPrintable : Char → Bool :=
  fun _ => false

/-- A release on Pivnet with a version and an End of General Support date. -/
def releaseOnPivnet (id : Int) (version endOfSupportDate : String) : Release :=
  { ID := id, Version := version, ReleaseType := "", ReleaseDate := "",
    EndOfSupportDate := endOfSupportDate, Availability := "" }

/-- The product files that Pivnet lists in the GA tests. -/
def testProductFiles : List ProductFile :=
  [{ ID := 40, Name := "Uncle Bob's Magic Elixir", FileVersion := "2.0", FileType := "Snake Oil" },
   { ID := 41, Name := "Uncle Bob's Magic Elixir", FileVersion := "2.1", FileType := "Snake Oil" },
   { ID := 43, Name := "PCF Pivotal Application Service v2.1 OSL", FileVersion := "2.1",
     FileType := "Open Source License" },
   { ID := 42, Name := "PCF Pivotal Application Service v2.0 OSL", FileVersion := "2.0",
     FileType := "Open Source License" }]

/-- The user groups that Pivnet lists in the happy-path tests. -/
def testUserGroups : List UserGroup :=
  [{ ID := 123, Name := "Dell/EMC Early Access Group" },
   { ID := 123, Name := "Ignore me!" },
   { ID := 456, Name := "PCF R&D" }]

/-- The Kilnfile of the tests. -/
def testKilnfile : Kilnfile :=
  { Slug := "elastic-runtime",
    PreGaUserGroups := ["Dell/EMC Early Access Group", "PCF R&D"] }

/-- The fake services of the happy-path tests, which answer every call alike: the releases
given, the product files and user groups above, and no error. -/
def testPivnet (releases : List Release) : PivnetServices Unit where
  releasesList := fun _ s => (Except.ok releases, s)
  releasesUpdate := fun _ _ s => (Except.ok (releaseOnPivnet 123 "" ""), s)
  productFilesList := fun _ s => (Except.ok testProductFiles, s)
  productFilesAddToRelease := fun _ _ _ s => (none, s)
  userGroupsList := fun s => (Except.ok testUserGroups, s)
  userGroupsAddToRelease := fun _ _ _ s => (none, s)

/-- The session before any call. -/
def newSession : Session Unit :=
  { state := (), calls := [] }

/-- The release version 2.0.0-rc.1 of the rc tests. -/
def rcReleaseVersion : releaseVersion :=
  { semver := ⟨2, 0, 0, "rc.1", "", "2.0.0-rc.1"⟩, window := "rc", prereleaseVersion := 1 }

/-- The release version 2.0.0 of the GA tests for a major release. -/
def gaReleaseVersion : releaseVersion :=
  { semver := ⟨2, 0, 0, "", "", "2.0.0"⟩, window := "ga", prereleaseVersion := 0 }

/-- A Kilnfile that asks for a user group Pivnet does not list. -/
def missingGroupKilnfile : Kilnfile :=
  { Slug := "elastic-runtime", PreGaUserGroups := ["PCF R&D", "No such group"] }

/-- The releases on Pivnet in the GA test for a patch release. -/
def patchTestReleases : List Release :=
  [releaseOnPivnet 123 "2.1.1-build.45" "", releaseOnPivnet 0 "2.1.0" "2019-07-31",
   releaseOnPivnet 0 "2.1.1-build.1234" "", releaseOnPivnet 0 "2.0.0" "2010-01-05"]

/-- The release version 2.1.1 of the GA test for a patch release. -/
def gaPatchReleaseVersion : releaseVersion :=
  { semver := ⟨2, 1, 1, "", "", "2.1.1"⟩, window := "ga", prereleaseVersion := 0 }

/-- A location without clock changes, at the offset 0 from UTC. -/
def fixedLocation : Location :=
  { offset := 0, changes := [] }

/-- The time 2016-05-04 03:02:01 of the GA tests, whose location `time.Local` is that of the
machine, here a location without clock changes. -/
def testNow : Time :=
  { utc := { date := { Year := 2016, Month := 5, Day := 4 }, second := 10921 },
    loc := fixedLocation }

/-- The time 2016-05-05 03:02:01, a day after the time of the GA tests. -/
def dayAfterTestNow : Time :=
  { utc := { date := { Year := 2016, Month := 5, Day := 5 }, second := 10921 },
    loc := fixedLocation }

/-- Releases on Pivnet at a publish of 2.1.6: the build release, a release candidate of 2.1.6,
the patch releases 2.1.3, 2.1.5 and 2.1.4 in this order, and releases of 2.2 and 2.0, each
with its own End of General Support date. -/
def severalPatchReleases : List Release :=
  [releaseOnPivnet 123 "2.1.6-build.45" "", releaseOnPivnet 1 "2.1.6-rc.1" "2019-06-06",
   releaseOnPivnet 3 "2.1.3" "2019-03-03", releaseOnPivnet 5 "2.1.5" "2019-05-05",
   releaseOnPivnet 4 "2.1.4" "2019-04-04", releaseOnPivnet 6 "2.2.0" "2020-02-02",
   releaseOnPivnet 7 "2.0.9" "2018-09-09"]

/-- The release version 2.1.6 of a GA publish. -/
def gaSixthPatchVersion : releaseVersion :=
  { semver := ⟨2, 1, 6, "", "", "2.1.6"⟩, window := "ga", prereleaseVersion := 0 }

/-- The releases on Pivnet in the test "when previous release candidates have been
published". -/
def rcTestReleases : List Release :=
  [releaseOnPivnet 123 "2.0.0-build.45" "", releaseOnPivnet 0 "2.0.0-rc.2" "",
   releaseOnPivnet 0 "2.0.0-rc.1" ""]

/-- Releases on Pivnet among which the only release candidate is 2.0.0-rc.10000. -/
def rcBeyondBoundReleases : List Release :=
  [releaseOnPivnet 123 "2.0.0-build.45" "", releaseOnPivnet 0 "2.0.0-rc.10000" ""]

/-! ## `commands/publish.go`: `Execute` -/

/-- The function `unicode.IsSpace`: the white space characters of Unicode. -/
def isSpace (c : Char) : Bool :=
  c = '\t' || c = '\n' || c.toNat = 11 || c.toNat = 12 || c = '\r' || c = ' ' ||
    c.toNat = 0x85 || c.toNat = 0xA0 || c.toNat = 0x1680 ||
    (0x2000 ≤ c.toNat && c.toNat ≤ 0x200A) || c.toNat = 0x2028 || c.toNat = 0x2029 ||
    c.toNat = 0x202F || c.toNat = 0x205F || c.toNat = 0x3000

/-- The function `strings.TrimSpace`: the text without the white space at its two ends. -/
def trimSpace (s : String) : String :=
  String.mk ((s.data.dropWhile isSpace).reverse.dropWhile isSpace).reverse

/-- The field `Publish.Options`. -/
structure Options where
  Kilnfile : String
  Version : String
  PivnetToken : String
  PivnetHost : String
  IncludesSecurityFix : Bool
  Window : String
deriving DecidableEq, Repr

/-- What `parseArgsAndSetup` reads of the world: the options that `jhanda.Parse` makes of the
arguments, for each path of the file system `FS` whether it opens and, when it does, what
reading all of it gives, and the Kilnfile that the YAML decoder makes of a file that
opened. An error is its text. -/
structure Setup where
  Parse : List String → Except String Options
  Open : String → Except String (Except String String)
  Decode : Except String String → Except String Kilnfile

/-- The method `Publish.parseArgsAndSetup`: the options, the Kilnfile and the build version, or
the first error. The clock and the Pivnet clients it sets when they are missing are made
without a call to Pivnet and are parameters of `updateReleaseOnPivnet` here. -/
def parseArgsAndSetup (isPrint : Char → Bool) (setup : Setup) (args : List String) :
    Except String (Options × Kilnfile × semver.Version) :=
  match setup.Parse args with
  | Except.error err => Except.error err
  | Except.ok options =>
    match setup.Open options.Version with
    | Except.error err => Except.error err
    | Except.ok versionFile =>
      match versionFile with
      | Except.error err => Except.error err
      | Except.ok versionBuf =>
        match semver.NewVersion (trimSpace versionBuf) with
        | Except.error err => Except.error err
        | Except.ok version =>
          match setup.Open options.Kilnfile with
          | Except.error err => Except.error err
          | Except.ok file =>
            match setup.Decode file with
            | Except.error err => Except.error ("could not parse Kilnfile: " ++ err)
            | Except.ok kilnfile =>
              let window := options.Window
              if window ≠ "ga" ∧ window ≠ "rc" ∧ window ≠ "beta" ∧ window ≠ "alpha" then
                Except.error ("unknown window: " ++ goQuote isPrint window)
              else Except.ok (options, kilnfile, version)

/-- The method `Publish.updateRelease`, without what it writes to the log: the release with the
five fields set is sent to `Update`. -/
def updateRelease {σ : Type} (pivnet : PivnetServices σ) (release : Release)
    (slug version releaseType releaseDate endOfSupportDate availability _licenseFileName : String)
    (s : Session σ) : Except String Release × Session σ :=
  let release : Release :=
    { release with Version := version, ReleaseType := releaseType, ReleaseDate := releaseDate,
                   EndOfSupportDate := endOfSupportDate, Availability := availability }
  let updated := pivnet.releasesUpdate slug release s.state
  let s1 : Session σ :=
    { state := updated.2, calls := s.calls ++ [PivnetCall.releasesUpdate slug release] }
  match updated.1 with
  | Except.error err => (Except.error err, s1)
  | Except.ok updatedRelease => (Except.ok updatedRelease, s1)

/-- The method `Publish.updateReleaseOnPivnet`, without what it writes to the log: the error
it returns, `none` for nil. The clock `p.Now` gives the time `now` at each of its calls. -/
def updateReleaseOnPivnet {σ : Type} (isPrint : Char → Bool) (pivnet : PivnetServices σ)
    (now : Time) (options : Options) (kilnfile : Kilnfile) (buildVersion : semver.Version)
    (s : Session σ) : Option String × Session σ :=
  let window := options.Window
  match ReleaseVersionFromBuildVersion isPrint buildVersion window with
  | Except.error err => (some err, s)
  | Except.ok rv =>
    let listed := pivnet.releasesList kilnfile.Slug s.state
    let s1 : Session σ :=
      { state := listed.2, calls := s.calls ++ [PivnetCall.releasesList kilnfile.Slug] }
    match listed.1 with
    | Except.error err => (some err, s1)
    | Except.ok releases =>
      match releaseSet.Find releases buildVersion.str with
      | Except.error err => (some err, s1)
      | Except.ok release =>
        match determineVersion isPrint releases rv with
        | Except.error err => (some err, s1)
        | Except.ok versionToPublish =>
          let attached := attachLicenseFile pivnet kilnfile.Slug release.ID versionToPublish s1
          match attached.1 with
          | Except.error err => (some err, attached.2)
          | Except.ok licenseFileName =>
            match eogsDate isPrint now rv releases with
            | Except.error err => (some err, attached.2)
            | Except.ok endOfSupportDate =>
              let availability :=
                if rv.IsGA then "All Users" else "Selected User Groups Only"
              let updated := updateRelease pivnet release kilnfile.Slug versionToPublish.str
                (releaseType window options.IncludesSecurityFix rv) now.Format endOfSupportDate
                availability licenseFileName attached.2
              match updated.1 with
              | Except.error err => (some err, updated.2)
              | Except.ok updatedRelease =>
                addUserGroups isPrint pivnet rv updatedRelease kilnfile updated.2

/-- The method `Publish.Execute`: the error it returns, `none` for nil. The deferred call
`p.recoverFromPanic()` only builds a function, which is never run, and no step here
panics. -/
def Execute {σ : Type} (isPrint : Char → Bool) (setup : Setup) (pivnet : PivnetServices σ)
    (now : Time) (args : List String) (s : Session σ) : Option String × Session σ :=
  match parseArgsAndSetup isPrint setup args with
  | Except.error err => (some err, s)
  | Except.ok (options, kilnfile, buildVersion) =>
    updateReleaseOnPivnet isPrint pivnet now options kilnfile buildVersion s

/-- The arguments of a call when it is a call of `Update`. -/
def PivnetCall.updateArgs : PivnetCall → Option (String × Release)
  | PivnetCall.releasesUpdate productSlug release => some (productSlug, release)
  | _ => none

/-- The calls of `Update` among calls of the Pivnet services, with their arguments. -/
def updateCalls (calls : List PivnetCall) : List (String × Release) :=
  calls.filterMap PivnetCall.updateArgs

/-! ## Fixtures of the publish error tests -/

/-- The options that the arguments `--pivnet-token SOME_TOKEN --window <window>` give, with
the defaults of the other flags. -/
def testOptions (window : String) : Options :=
  { Kilnfile := "Kilnfile", Version := "version", PivnetToken := "SOME_TOKEN",
    PivnetHost := "https://network.pivotal.io", IncludesSecurityFix := false,
    Window := window }

/-- The setup of the error tests: a version file with the given body, a Kilnfile that decodes
to the Kilnfile of the tests, and arguments whose second element is the window. -/
def testSetup (versionFileBody : String) : Setup where
  Parse := fun args => Except.ok (testOptions (args.getD 1 ""))
  Open := fun path =>
    if path = "version" then Except.ok (Except.ok versionFileBody)
    else if path = "Kilnfile" then Except.ok (Except.ok "slug: elastic-runtime")
    else Except.error "file does not exist"
  Decode := fun _ => Except.ok testKilnfile

/-- The build version `someVersion` of the error tests, 2.8.0-build.111. -/
def someVersion : semver.Version :=
  ⟨2, 8, 0, "build.111", "", "2.8.0-build.111"⟩

/-- The fake services of the error tests: the releases and product files given, the user
groups of the happy-path tests, and the given answers of the two `AddToRelease` methods. -/
def errorTestPivnet (releases : List Release) (productFiles : Except String (List ProductFile))
    (addLicense : Option String) : PivnetServices Unit where
  releasesList := fun _ s => (Except.ok releases, s)
  releasesUpdate := fun _ _ s => (Except.ok (releaseOnPivnet 123 "" ""), s)
  productFilesList := fun _ s => (productFiles, s)
  productFilesAddToRelease := fun _ _ _ s => (addLicense, s)
  userGroupsList := fun s => (Except.ok testUserGroups, s)
  userGroupsAddToRelease := fun _ _ _ s => (none, s)

/-- The product file that Pivnet lists in the error tests: the license of a version. -/
def licenseFile (fileVersion : String) : ProductFile :=
  { ID := 42, Name := "PCF Pivotal Application Service v" ++ fileVersion ++ " OSL",
    FileVersion := fileVersion, FileType := "Open Source License" }

/-- The releases on Pivnet in the test "the previous release on PivNet does not have an EOGS
date", where the build version is 2.9.1-build.111. -/
def noEogsReleases : List Release :=
  [releaseOnPivnet 99 "2.9.1-build.111" "", releaseOnPivnet 0 "2.9.0" ""]

/-- The fake services of the test "a release on PivNet has an invalid version": the release
to update, a release whose version is no version, and the license of 2.8. -/
def invalidVersionPivnet : PivnetServices Unit :=
  errorTestPivnet
    [releaseOnPivnet 0 "2.8.0-build.111" "", releaseOnPivnet 0 "invalid version" ""]
    (Except.ok [licenseFile "2.8"]) none

/-- Releases on Pivnet at a publish of the build 2.8.0-build.111: the release 2.8.0 and two
releases with the version of the build, of the IDs 99 and 100. -/
def twoBuildReleases : List Release :=
  [releaseOnPivnet 1 "2.8.0" "", releaseOnPivnet 99 "2.8.0-build.111" "",
   releaseOnPivnet 100 "2.8.0-build.111" ""]

/-- Two releases on Pivnet whose versions, 2.0.0-rc.01 and 2.0.0-rc.1, differ in a zero in
front of the prerelease number. -/
def leadingZeroReleases : List Release :=
  [releaseOnPivnet 1 "2.0.0-rc.01" "", releaseOnPivnet 2 "2.0.0-rc.1" ""]

/-- The constraint `>= 2.0.0-rc.0, <= 2.0.0-rc.9999`. -/
def rcConstraint : semver.Constraints :=
  [{ op := semver.Operator.greaterThanEqual, con := semver.constraintVersion 2 0 0 "rc.0" },
   { op := semver.Operator.lessThanEqual, con := semver.constraintVersion 2 0 0 "rc.9999" }]

/-! ## The file names of located releases -/

/-- The ReleaseID of a located release: the `ID` field of either variant. -/
def ReleaseInfoDownloader.ID : ReleaseInfoDownloader → ReleaseID
  | ReleaseInfoDownloader.compiled c => c.ID
  | ReleaseInfoDownloader.built b => b.ID

/-- The text holds no hyphen. -/
def hyphenFree (s : String) : Bool :=
  !s.data.contains '-'

/-- Two built releases of different ReleaseIDs, with hyphens in a name and in a version. -/
def hyphenatedBuiltReleases : BuiltRelease × BuiltRelease :=
  ({ ID := { Name := "a-b", Version := "c" }, Path := "first-key" },
   { ID := { Name := "a", Version := "b-c" }, Path := "second-key" })

/-! ## The prerelease number of a published release -/

/-- The number that the second piece of the prerelease text of a version writes, 0 when there
is no such piece or it writes no number. -/
def prereleaseNumber (v : semver.Version) : Int :=
  match splitDots v.pre with
  | _ :: piece :: _ => (parseInt64 piece).getD 0
  | _ => 0

/-- The prerelease number of the version of a release, 0 when its Version is no version. -/
def publishedNumber (r : Release) : Int :=
  match semver.NewVersion r.Version with
  | Except.ok v => prereleaseNumber v
  | Except.error _ => 0

/-- Releases on Pivnet with the release candidates 2.0.0-rc.9999 and 2.0.0-rc.10000. -/
def rcAtBoundReleases : List Release :=
  [releaseOnPivnet 123 "2.0.0-build.45" "", releaseOnPivnet 1 "2.0.0-rc.9999" "",
   releaseOnPivnet 2 "2.0.0-rc.10000" ""]

/-- The location Europe/Berlin in the years 2018 and 2019: one hour ahead of UTC, two hours
from the last Sunday of March to the last Sunday of October, with the changes at 01:00
UTC. -/
def europeBerlin : Location :=
  { offset := 3600,
    changes :=
      [({ date := { Year := 2018, Month := 3, Day := 25 }, second := 3600 }, 7200),
       ({ date := { Year := 2018, Month := 10, Day := 28 }, second := 3600 }, 3600),
       ({ date := { Year := 2019, Month := 3, Day := 31 }, second := 3600 }, 7200),
       ({ date := { Year := 2019, Month := 10, Day := 27 }, second := 3600 }, 3600)] }

/-- Noon of 2018-06-15 on the clock of Europe/Berlin, 10:00 UTC. -/
def berlinNoon : Time :=
  { utc := { date := { Year := 2018, Month := 6, Day := 15 }, second := 36000 },
    loc := europeBerlin }

/-! ## Theorems -/

variable {isPrint : Char → Bool}

/-! ### Release sets -/

theorem ReleaseSet.mem_set (s : ReleaseSet) (id : ReleaseID) (v : ReleaseInfoDownloader)
    (x : ReleaseID × ReleaseInfoDownloader) (hx : x ∈ s.set id v) : x ∈ s ∨ x = (id, v) := by
  induction s with
  | nil => simpa [ReleaseSet.set] using hx
  | cons p rest ih =>
    obtain ⟨k, w⟩ := p
    by_cases hk : k = id
    · subst hk
      simp only [ReleaseSet.set, if_true, List.mem_cons] at hx
      rcases hx with hx | hx
      · exact Or.inr hx
      · exact Or.inl (List.mem_cons_of_mem _ hx)
    · simp only [ReleaseSet.set, hk, if_false, List.mem_cons] at hx
      rcases hx with hx | hx
      · exact Or.inl (hx ▸ List.mem_cons_self _ _)
      · rcases ih hx with h | h
        · exact Or.inl (List.mem_cons_of_mem _ h)
        · exact Or.inr h

theorem ReleaseSet.get?_set_self (s : ReleaseSet) (id : ReleaseID)
    (v : ReleaseInfoDownloader) : (s.set id v).get? id = some v := by
  induction s with
  | nil => simp [ReleaseSet.set, ReleaseSet.get?]
  | cons p rest ih =>
    obtain ⟨k, w⟩ := p
    by_cases hk : k = id
    · simp [ReleaseSet.set, ReleaseSet.get?, hk]
    · simp [ReleaseSet.set, ReleaseSet.get?, hk, ih]

theorem ReleaseSet.get?_set_ne (s : ReleaseSet) (id id' : ReleaseID)
    (v : ReleaseInfoDownloader) (hne : id ≠ id') : (s.set id v).get? id' = s.get? id' := by
  induction s with
  | nil => simp [ReleaseSet.set, ReleaseSet.get?, hne]
  | cons p rest ih =>
    obtain ⟨k, w⟩ := p
    by_cases hk : k = id
    · subst hk
      simp [ReleaseSet.set, ReleaseSet.get?, hne]
    · by_cases hk' : k = id'
      · subst hk'
        simp [ReleaseSet.set, ReleaseSet.get?, hk]
      · simp [ReleaseSet.set, ReleaseSet.get?, hk, hk', ih]

theorem ReleaseSet.mem_keys_set (s : ReleaseSet) (id k : ReleaseID)
    (v : ReleaseInfoDownloader) : k ∈ (s.set id v).keys ↔ k ∈ s.keys ∨ k = id := by
  induction s with
  | nil => simp [ReleaseSet.set, ReleaseSet.keys]
  | cons p rest ih =>
    obtain ⟨k', w⟩ := p
    by_cases hk : k' = id
    · subst hk
      simp only [ReleaseSet.set, if_true, ReleaseSet.keys, List.map_cons, List.mem_cons]
      tauto
    · simp only [ReleaseSet.keys] at ih
      simp only [ReleaseSet.set, hk, if_false, ReleaseSet.keys, List.map_cons, List.mem_cons, ih]
      tauto

theorem ReleaseSet.nodup_keys_set (s : ReleaseSet) (id : ReleaseID)
    (v : ReleaseInfoDownloader) (hs : s.keys.Nodup) : (s.set id v).keys.Nodup := by
  induction s with
  | nil => simp [ReleaseSet.set, ReleaseSet.keys]
  | cons p rest ih =>
    obtain ⟨k, w⟩ := p
    have hs' : k ∉ ReleaseSet.keys rest ∧ (ReleaseSet.keys rest).Nodup := by
      simpa [ReleaseSet.keys] using hs
    by_cases hk : k = id
    · simpa [ReleaseSet.set, hk, ReleaseSet.keys] using hs
    · have hnot : k ∉ ReleaseSet.keys (ReleaseSet.set rest id v) := by
        rw [ReleaseSet.mem_keys_set]
        rintro (h | h)
        · exact hs'.1 h
        · exact hk h
      have := ih hs'.2
      simp only [ReleaseSet.set, hk, if_false, ReleaseSet.keys, List.map_cons, List.nodup_cons]
      exact ⟨by simpa [ReleaseSet.keys] using hnot, by simpa [ReleaseSet.keys] using this⟩

theorem ReleaseSet.mem_keys_of_get? (s : ReleaseSet) (id : ReleaseID)
    (v : ReleaseInfoDownloader) (h : s.get? id = some v) : id ∈ s.keys := by
  induction s with
  | nil => simp [ReleaseSet.get?] at h
  | cons p rest ih =>
    obtain ⟨k, w⟩ := p
    by_cases hk : k = id
    · simp [ReleaseSet.keys, hk]
    · simp only [ReleaseSet.get?, hk, if_false] at h
      have := ih h
      simp only [ReleaseSet.keys] at this
      simp [ReleaseSet.keys, this]

/-! ### Folding the listing -/

theorem foldl_invariant {α β : Type} (P : β → Prop) (f : β → α → β) (l : List α)
    (hstep : ∀ b a, a ∈ l → P b → P (f b a)) (b : β) (hb : P b) : P (l.foldl f b) := by
  induction l generalizing b with
  | nil => simpa using hb
  | cons a t ih =>
    simp only [List.foldl_cons]
    exact ih (fun b' a' ha' => hstep b' a' (List.mem_cons_of_mem _ ha')) _
      (hstep b a (List.mem_cons_self _ _) hb)

theorem foldl_pages_eq (step : ReleaseSet → String → ReleaseSet) (pages : List (List String))
    (init : ReleaseSet) :
    pages.foldl (fun matched page => page.foldl step matched) init =
      pages.flatten.foldl step init := by
  induction pages generalizing init with
  | nil => rfl
  | cons page rest ih => simp [List.flatten, List.foldl_append, ih]

theorem consumePages_eq (step : ReleaseSet → String → ReleaseSet)
    (pages : List (List String)) : consumePages step pages = pages.flatten.foldl step [] :=
  foldl_pages_eq step pages []

theorem compiledStep_eq (exp : Regexp) (desired : ReleaseSet) (stemcell : Stemcell) :
    compiledStep exp desired stemcell = recordStep (compiledCandidate exp desired stemcell) := by
  funext matched key
  unfold compiledStep recordStep compiledCandidate
  cases matchCompiledKey exp key with
  | none => rfl
  | some c => by_cases h : c.ID ∈ desired.keys ∧ c.StemcellOS = stemcell.OS ∧
      c.StemcellVersion = stemcell.Version <;> simp [h]

theorem builtStep_eq (exp : Regexp) (desired : ReleaseSet) :
    builtStep exp desired = recordStep (builtCandidate exp desired) := by
  funext matched key
  unfold builtStep recordStep builtCandidate
  cases matchBuiltKey exp key with
  | none => rfl
  | some b => by_cases h : b.ID ∈ desired.keys <;> simp [h]

/-- Every entry of the result was written for some listed key. -/
theorem recordStep_entries (cand : String → Option (ReleaseID × ReleaseInfoDownloader))
    (l : List String) (x : ReleaseID × ReleaseInfoDownloader)
    (hx : x ∈ l.foldl (recordStep cand) []) : ∃ key ∈ l, cand key = some x := by
  have hinv := foldl_invariant
    (fun acc : ReleaseSet => ∀ y ∈ acc, ∃ key ∈ l, cand key = some y) (recordStep cand) l
    (by
      intro acc key hkey hacc y hy
      unfold recordStep at hy
      cases hc : cand key with
      | none => rw [hc] at hy; exact hacc y hy
      | some p =>
        obtain ⟨id, v⟩ := p
        rw [hc] at hy
        rcases ReleaseSet.mem_set acc id v y hy with h | h
        · exact hacc y h
        · exact ⟨key, hkey, by rw [hc, h]⟩)
    [] (by intro y hy; cases hy)
  exact hinv x hx

/-- The keys of the result are distinct. -/
theorem recordStep_nodup (cand : String → Option (ReleaseID × ReleaseInfoDownloader))
    (l : List String) : (l.foldl (recordStep cand) []).keys.Nodup := by
  refine foldl_invariant (fun acc : ReleaseSet => acc.keys.Nodup) (recordStep cand) l ?_ []
    (by simp [ReleaseSet.keys])
  intro acc key _ hacc
  unfold recordStep
  cases hc : cand key with
  | none => exact hacc
  | some p => exact ReleaseSet.nodup_keys_set acc p.1 p.2 hacc

/-- A listed key that is written leaves an entry under its ReleaseID, written for some
listed key. -/
theorem recordStep_accepted (cand : String → Option (ReleaseID × ReleaseInfoDownloader))
    (l : List String) (key : String) (id : ReleaseID) (v : ReleaseInfoDownloader)
    (hkey : key ∈ l) (hc : cand key = some (id, v)) :
    ∃ key' ∈ l, ∃ v', cand key' = some (id, v') ∧
      (l.foldl (recordStep cand) []).get? id = some v' := by
  obtain ⟨s, t, hl⟩ := List.append_of_mem hkey
  have hsub : ∀ a ∈ t, a ∈ l := by
    intro a ha
    rw [hl]
    exact List.mem_append_right _ (List.mem_cons_of_mem _ ha)
  have hfold : l.foldl (recordStep cand) [] =
      t.foldl (recordStep cand) (recordStep cand (s.foldl (recordStep cand) []) key) := by
    rw [hl, List.foldl_append, List.foldl_cons]
  rw [hfold]
  refine foldl_invariant
    (fun acc : ReleaseSet => ∃ key' ∈ l, ∃ v', cand key' = some (id, v') ∧
      acc.get? id = some v') (recordStep cand) t ?_ _ ?_
  · intro acc a ha hacc
    obtain ⟨key', hkey', v', hc', hget⟩ := hacc
    unfold recordStep
    cases hca : cand a with
    | none => exact ⟨key', hkey', v', hc', hget⟩
    | some p =>
      obtain ⟨id2, v2⟩ := p
      by_cases hid : id2 = id
      · subst hid
        exact ⟨a, hsub a ha, v2, hca, ReleaseSet.get?_set_self acc id2 v2⟩
      · refine ⟨key', hkey', v', hc', ?_⟩
        show (acc.set id2 v2).get? id = some v'
        rw [ReleaseSet.get?_set_ne acc id2 id v2 hid]
        exact hget
  · refine ⟨key, hkey, v, hc, ?_⟩
    unfold recordStep
    rw [hc]
    exact ReleaseSet.get?_set_self _ id v

/-- Keys that are never written can be removed from the listing. -/
theorem recordStep_filter (cand : String → Option (ReleaseID × ReleaseInfoDownloader))
    (p : String → Bool) (hp : ∀ key, p key = false → cand key = none) (l : List String)
    (init : ReleaseSet) :
    (l.filter p).foldl (recordStep cand) init = l.foldl (recordStep cand) init := by
  induction l generalizing init with
  | nil => rfl
  | cons a t ih =>
    cases hpa : p a with
    | true => simp [List.filter, hpa, ih]
    | false =>
      have : recordStep cand init a = init := by
        unfold recordStep
        rw [hp a hpa]
      simp [List.filter, hpa, ih, this]


/-- C1: for every assets configuration `releaseSourcesFactory` returns the compiled S3
source when `CompiledReleases.Bucket` is non-empty, then the BOSH.io source, then the built
S3 source when `UncompiledReleases.Bucket` is non-empty; the BOSH.io source occurs exactly
once. -/
theorem releaseSourcesFactory_order (assets : Assets) :
    releaseSourcesFactory assets =
      (if assets.CompiledReleases.Bucket ≠ "" then
          [ReleaseSource.S3Compiled assets.CompiledReleases] else []) ++
        [ReleaseSource.BOSHIO] ++
        (if assets.UncompiledReleases.Bucket ≠ "" then
          [ReleaseSource.S3Built assets.UncompiledReleases] else []) ∧
    (releaseSourcesFactory assets).count ReleaseSource.BOSHIO = 1 := by
  unfold releaseSourcesFactory
  by_cases h1 : assets.CompiledReleases.Bucket = "" <;>
    by_cases h2 : assets.UncompiledReleases.Bucket = "" <;>
    simp [h1, h2]

/-! ### `GetMatchedReleases` -/

theorem compiled_ok_iff (r : S3ReleaseSource) (desired : ReleaseSet) (stemcell : Stemcell)
    (rs : ReleaseSet) :
    S3CompiledReleaseSource.GetMatchedReleases r desired stemcell = Except.ok rs ↔
      hasCaptureGroups r.Regex compiledCaptureGroups = true ∧
      (r.S3Client r.Bucket).Err = none ∧
      rs = (r.S3Client r.Bucket).Pages.flatten.foldl
        (recordStep (compiledCandidate r.Regex desired stemcell)) [] := by
  unfold S3CompiledReleaseSource.GetMatchedReleases
  simp only [consumePages_eq, compiledStep_eq]
  cases hg : hasCaptureGroups r.Regex compiledCaptureGroups with
  | false => simp
  | true =>
    cases he : (r.S3Client r.Bucket).Err with
    | some err => simp
    | none =>
      simp only [Bool.true_eq_false, if_false, Except.ok.injEq, true_and]
      exact eq_comm

theorem built_ok_iff (r : S3ReleaseSource) (desired : ReleaseSet) (stemcell : Stemcell)
    (rs : ReleaseSet) :
    S3BuiltReleaseSource.GetMatchedReleases r desired stemcell = Except.ok rs ↔
      hasCaptureGroups r.Regex builtCaptureGroups = true ∧
      (r.S3Client r.Bucket).Err = none ∧
      rs = (r.S3Client r.Bucket).Pages.flatten.foldl
        (recordStep (builtCandidate r.Regex desired)) [] := by
  unfold S3BuiltReleaseSource.GetMatchedReleases
  simp only [consumePages_eq, builtStep_eq]
  cases hg : hasCaptureGroups r.Regex builtCaptureGroups with
  | false => simp
  | true =>
    cases he : (r.S3Client r.Bucket).Err with
    | some err => simp
    | none =>
      simp only [Bool.true_eq_false, if_false, Except.ok.injEq, true_and]
      exact eq_comm

theorem compiledCandidate_some (exp : Regexp) (desired : ReleaseSet) (stemcell : Stemcell)
    (key : String) (x : ReleaseID × ReleaseInfoDownloader) :
    compiledCandidate exp desired stemcell key = some x ↔
      ∃ c, matchCompiledKey exp key = some c ∧ c.ID ∈ desired.keys ∧
        c.StemcellOS = stemcell.OS ∧ c.StemcellVersion = stemcell.Version ∧
        x = (c.ID, ReleaseInfoDownloader.compiled c) := by
  unfold compiledCandidate
  cases hm : matchCompiledKey exp key with
  | none => simp
  | some c =>
    by_cases h : c.ID ∈ desired.keys ∧ c.StemcellOS = stemcell.OS ∧
        c.StemcellVersion = stemcell.Version
    · simp only [h, and_self, if_true, Option.some.injEq, exists_eq_left', true_and]
      exact eq_comm
    · simp only [h, if_false, Option.some.injEq, exists_eq_left']
      constructor
      · intro h'; cases h'
      · rintro ⟨h1, h2, h3, _⟩
        exact absurd ⟨h1, h2, h3⟩ h

theorem builtCandidate_some (exp : Regexp) (desired : ReleaseSet)
    (key : String) (x : ReleaseID × ReleaseInfoDownloader) :
    builtCandidate exp desired key = some x ↔
      ∃ b, matchBuiltKey exp key = some b ∧ b.ID ∈ desired.keys ∧
        x = (b.ID, ReleaseInfoDownloader.built b) := by
  unfold builtCandidate
  cases hm : matchBuiltKey exp key with
  | none => simp
  | some b =>
    by_cases h : b.ID ∈ desired.keys
    · simp only [h, if_true, Option.some.injEq, exists_eq_left', true_and]
      exact eq_comm
    · simp only [h, if_false, Option.some.injEq, exists_eq_left']
      constructor
      · intro h'; cases h'
      · rintro ⟨h1, _⟩
        exact h1.elim

theorem matchCompiledKey_path (exp : Regexp) (key : String) (c : CompiledRelease)
    (h : matchCompiledKey exp key = some c) : c.Path = key := by
  unfold matchCompiledKey at h
  cases hm : exp.FindStringSubmatch key with
  | none => rw [hm] at h; cases h
  | some ms =>
    rw [hm] at h
    simp only [Option.some.injEq] at h
    rw [← h]

theorem matchBuiltKey_path (exp : Regexp) (key : String) (b : BuiltRelease)
    (h : matchBuiltKey exp key = some b) : b.Path = key := by
  unfold matchBuiltKey at h
  cases hm : exp.FindStringSubmatch key with
  | none => rw [hm] at h; cases h
  | some ms =>
    rw [hm] at h
    simp only [Option.some.injEq] at h
    rw [← h]

/-- C2: every entry that `S3CompiledReleaseSource.GetMatchedReleases` returns is a
CompiledRelease extracted from a listed key, stored under its own ReleaseID, whose stemcell
OS and version equal the desired stemcell's; so a candidate extracted from a key with another
stemcell OS or version is in the result under no ReleaseID, whether or not its name and
version are desired. -/
theorem compiled_excludes_other_stemcells (r : S3ReleaseSource) (desired : ReleaseSet)
    (stemcell : Stemcell) (rs : ReleaseSet)
    (h : S3CompiledReleaseSource.GetMatchedReleases r desired stemcell = Except.ok rs) :
    (∀ id e, (id, e) ∈ rs →
      ∃ c, e = ReleaseInfoDownloader.compiled c ∧ c.ID = id ∧
        c.Path ∈ (r.S3Client r.Bucket).Pages.flatten ∧
        matchCompiledKey r.Regex c.Path = some c ∧
        c.StemcellOS = stemcell.OS ∧ c.StemcellVersion = stemcell.Version) ∧
    (∀ key c, matchCompiledKey r.Regex key = some c →
      (c.StemcellOS ≠ stemcell.OS ∨ c.StemcellVersion ≠ stemcell.Version) →
      ∀ id, (id, ReleaseInfoDownloader.compiled c) ∉ rs) := by
  obtain ⟨_, _, hrs⟩ := (compiled_ok_iff r desired stemcell rs).1 h
  have hall : ∀ id e, (id, e) ∈ rs →
      ∃ c, e = ReleaseInfoDownloader.compiled c ∧ c.ID = id ∧
        c.Path ∈ (r.S3Client r.Bucket).Pages.flatten ∧
        matchCompiledKey r.Regex c.Path = some c ∧
        c.StemcellOS = stemcell.OS ∧ c.StemcellVersion = stemcell.Version := by
    intro id e hmem
    rw [hrs] at hmem
    obtain ⟨key, hkey, hc⟩ := recordStep_entries _ _ _ hmem
    obtain ⟨c, hm, _, hos, hver, hx⟩ := (compiledCandidate_some _ _ _ _ _).1 hc
    have hpath := matchCompiledKey_path _ _ _ hm
    simp only [Prod.mk.injEq] at hx
    refine ⟨c, hx.2, hx.1.symm, ?_, ?_, hos, hver⟩
    · rw [hpath]; exact hkey
    · rw [hpath]; exact hm
  refine ⟨hall, ?_⟩
  intro key c _ hdiff id hmem
  obtain ⟨c', he, _, _, _, hos, hver⟩ := hall id _ hmem
  simp only [ReleaseInfoDownloader.compiled.injEq] at he
  subst he
  rcases hdiff with hd | hd
  · exact hd hos
  · exact hd hver

/-- The test "when a matching release version is compiled against multiple stemcell
versions": the `bpm` release compiled against 191.0.0 is not in the result. -/
theorem compiled_excludes_other_stemcells_witness :
    (bpmReleaseID, ReleaseInfoDownloader.compiled
        { ID := bpmReleaseID, StemcellOS := "ubuntu-xenial", StemcellVersion := "191.0.0",
          Path := "2.5/bpm/bpm-1.2.3-lts-ubuntu-xenial-191.0.0.tgz" }) ∉
      [(bpmReleaseID, ReleaseInfoDownloader.compiled
        { ID := bpmReleaseID, StemcellOS := "ubuntu-xenial", StemcellVersion := "190.0.0",
          Path := "2.5/bpm/bpm-1.2.3-lts-ubuntu-xenial-190.0.0.tgz" })] :=
  (compiled_excludes_other_stemcells multiStemcellSource desiredReleaseSet desiredStemcell _
    rfl).2 "2.5/bpm/bpm-1.2.3-lts-ubuntu-xenial-191.0.0.tgz" _ rfl (Or.inr (by decide))
    bpmReleaseID

/-- C3: when a listed key encodes a desired release compiled against the desired stemcell, and
no other listed key does so for the same ReleaseID (other keys may encode that release against
other stemcells, in any position of the listing), `S3CompiledReleaseSource.GetMatchedReleases`
returns under that ReleaseID exactly one entry: the CompiledRelease with the desired stemcell
and that key as Path. -/
theorem compiled_picks_desired_stemcell (r : S3ReleaseSource) (desired : ReleaseSet)
    (stemcell : Stemcell) (key : String) (id : ReleaseID)
    (hgroups : hasCaptureGroups r.Regex compiledCaptureGroups = true)
    (herr : (r.S3Client r.Bucket).Err = none)
    (hkey : key ∈ (r.S3Client r.Bucket).Pages.flatten)
    (hmatch : matchCompiledKey r.Regex key = some
      { ID := id, StemcellOS := stemcell.OS, StemcellVersion := stemcell.Version, Path := key })
    (hdesired : id ∈ desired.keys)
    (honly : ∀ key' ∈ (r.S3Client r.Bucket).Pages.flatten, ∀ c',
      matchCompiledKey r.Regex key' = some c' → c'.ID = id →
      c'.StemcellOS = stemcell.OS → c'.StemcellVersion = stemcell.Version → key' = key) :
    ∃ rs, S3CompiledReleaseSource.GetMatchedReleases r desired stemcell = Except.ok rs ∧
      rs.get? id = some (ReleaseInfoDownloader.compiled
        { ID := id, StemcellOS := stemcell.OS, StemcellVersion := stemcell.Version,
          Path := key }) ∧
      rs.keys.count id = 1 := by
  refine ⟨_, (compiled_ok_iff r desired stemcell _).2 ⟨hgroups, herr, rfl⟩, ?_, ?_⟩
  · have hc : compiledCandidate r.Regex desired stemcell key = some (id,
        ReleaseInfoDownloader.compiled ⟨id, stemcell.OS, stemcell.Version, key⟩) :=
      (compiledCandidate_some _ _ _ _ _).2 ⟨_, hmatch, hdesired, rfl, rfl, rfl⟩
    obtain ⟨key', hkey', v', hc', hget⟩ := recordStep_accepted _ _ key id _ hkey hc
    obtain ⟨c', hm', _, hos, hver, hx⟩ := (compiledCandidate_some _ _ _ _ _).1 hc'
    simp only [Prod.mk.injEq] at hx
    have hk : key' = key := honly key' hkey' c' hm' hx.1.symm hos hver
    rw [hk, hmatch] at hm'
    simp only [Option.some.injEq] at hm'
    rw [hget, hx.2, ← hm']
  · have hc : compiledCandidate r.Regex desired stemcell key = some (id,
        ReleaseInfoDownloader.compiled ⟨id, stemcell.OS, stemcell.Version, key⟩) :=
      (compiledCandidate_some _ _ _ _ _).2 ⟨_, hmatch, hdesired, rfl, rfl, rfl⟩
    obtain ⟨_, _, v', _, hget⟩ := recordStep_accepted _ _ key id _ hkey hc
    exact List.count_eq_one_of_mem (recordStep_nodup _ _)
      (ReleaseSet.mem_keys_of_get? _ _ _ hget)

/-- The test "when a matching release version is compiled against multiple stemcell
versions": of the two `bpm` keys, the one compiled against 190.0.0 is returned. -/
theorem compiled_picks_desired_stemcell_witness :
    ∃ rs, S3CompiledReleaseSource.GetMatchedReleases multiStemcellSource desiredReleaseSet
        desiredStemcell = Except.ok rs ∧
      rs.get? bpmReleaseID = some (ReleaseInfoDownloader.compiled
        { ID := bpmReleaseID, StemcellOS := "ubuntu-xenial", StemcellVersion := "190.0.0",
          Path := "2.5/bpm/bpm-1.2.3-lts-ubuntu-xenial-190.0.0.tgz" }) ∧
      rs.keys.count bpmReleaseID = 1 :=
  compiled_picks_desired_stemcell multiStemcellSource desiredReleaseSet desiredStemcell
    "2.5/bpm/bpm-1.2.3-lts-ubuntu-xenial-190.0.0.tgz" bpmReleaseID (by decide) rfl
    (by decide) rfl (by decide)
    (by
      intro key' hkey' c' hm' _ _ hver
      have hmem : key' = "2.5/bpm/bpm-1.2.3-lts-ubuntu-xenial-190.0.0.tgz" ∨
          key' = "2.5/bpm/bpm-1.2.3-lts-ubuntu-xenial-191.0.0.tgz" := by
        simpa [multiStemcellSource] using hkey'
      rcases hmem with hk | hk
      · exact hk
      · subst hk
        have hc' : c' = ⟨bpmReleaseID, "ubuntu-xenial", "191.0.0",
            "2.5/bpm/bpm-1.2.3-lts-ubuntu-xenial-191.0.0.tgz"⟩ :=
          (Option.some.inj hm').symm
        subst hc'
        exact absurd hver (by decide))

/-- C4: for the built and for the compiled source, `GetMatchedReleases` gives the same result,
entries and error alike, on a listing and on that listing with every key the pattern does not
match removed: such a key adds no entry and causes no error. -/
theorem non_matching_keys_ignored (r : S3ReleaseSource) (desired : ReleaseSet)
    (stemcell : Stemcell) :
    S3BuiltReleaseSource.GetMatchedReleases r desired stemcell =
      S3BuiltReleaseSource.GetMatchedReleases r.withoutNonMatchingKeys desired stemcell ∧
    S3CompiledReleaseSource.GetMatchedReleases r desired stemcell =
      S3CompiledReleaseSource.GetMatchedReleases r.withoutNonMatchingKeys desired stemcell := by
  have hflat : ∀ (p : String → Bool) (pages : List (List String)),
      (pages.map (List.filter p)).flatten = pages.flatten.filter p := by
    intro p pages
    induction pages with
    | nil => rfl
    | cons page rest ih =>
      simp only [List.map_cons, List.flatten_cons, List.filter_append, ih]
  constructor
  · unfold S3BuiltReleaseSource.GetMatchedReleases S3ReleaseSource.withoutNonMatchingKeys
    simp only [consumePages_eq, builtStep_eq, hflat]
    rw [recordStep_filter]
    intro key hkey
    unfold builtCandidate matchBuiltKey
    cases hm : r.Regex.FindStringSubmatch key with
    | none => rfl
    | some ms => simp [hm] at hkey
  · unfold S3CompiledReleaseSource.GetMatchedReleases S3ReleaseSource.withoutNonMatchingKeys
    simp only [consumePages_eq, compiledStep_eq, hflat]
    rw [recordStep_filter]
    intro key hkey
    unfold compiledCandidate matchCompiledKey
    cases hm : r.Regex.FindStringSubmatch key with
    | none => rfl
    | some ms => simp [hm] at hkey

/-- C5: every entry that `S3BuiltReleaseSource.GetMatchedReleases` returns is stored under a
ReleaseID of the desired set and is the BuiltRelease with that ID whose Path is a listed key it
was extracted from; the result is the same for every stemcell argument; and a listed key the
pattern matches whose extracted ReleaseID is desired leaves an entry under that ID, whose Path
is that key when no other listed key encodes the same ReleaseID. -/
theorem built_matches_desired_ids (r : S3ReleaseSource) (desired : ReleaseSet)
    (stemcell : Stemcell) (rs : ReleaseSet)
    (h : S3BuiltReleaseSource.GetMatchedReleases r desired stemcell = Except.ok rs) :
    (∀ id e, (id, e) ∈ rs →
      id ∈ desired.keys ∧
      ∃ path, e = ReleaseInfoDownloader.built { ID := id, Path := path } ∧
        path ∈ (r.S3Client r.Bucket).Pages.flatten ∧
        matchBuiltKey r.Regex path = some { ID := id, Path := path }) ∧
    (∀ stemcell', S3BuiltReleaseSource.GetMatchedReleases r desired stemcell' = Except.ok rs) ∧
    (∀ key b, key ∈ (r.S3Client r.Bucket).Pages.flatten →
      matchBuiltKey r.Regex key = some b → b.ID ∈ desired.keys →
      ∃ path, rs.get? b.ID = some (ReleaseInfoDownloader.built { ID := b.ID, Path := path }) ∧
        path ∈ (r.S3Client r.Bucket).Pages.flatten ∧
        matchBuiltKey r.Regex path = some { ID := b.ID, Path := path } ∧
        ((∀ key' ∈ (r.S3Client r.Bucket).Pages.flatten, ∀ b',
            matchBuiltKey r.Regex key' = some b' → b'.ID = b.ID → key' = key) →
          path = key)) := by
  obtain ⟨_, _, hrs⟩ := (built_ok_iff r desired stemcell rs).1 h
  refine ⟨?_, fun _ => h, ?_⟩
  · intro id e hmem
    rw [hrs] at hmem
    obtain ⟨key, hkey, hc⟩ := recordStep_entries _ _ _ hmem
    obtain ⟨b, hm, hd, hx⟩ := (builtCandidate_some _ _ _ _).1 hc
    have hpath := matchBuiltKey_path _ _ _ hm
    simp only [Prod.mk.injEq] at hx
    obtain ⟨hid, he⟩ := hx
    subst hid
    refine ⟨hd, key, ?_, hkey, ?_⟩
    · rw [he, ← hpath]
    · rw [hm, ← hpath]
  · intro key b hkey hm hd
    have hc : builtCandidate r.Regex desired key =
        some (b.ID, ReleaseInfoDownloader.built b) :=
      (builtCandidate_some _ _ _ _).2 ⟨b, hm, hd, rfl⟩
    obtain ⟨key', hkey', v', hc', hget⟩ := recordStep_accepted _ _ key b.ID _ hkey hc
    obtain ⟨b', hm', _, hx⟩ := (builtCandidate_some _ _ _ _).1 hc'
    have hpath := matchBuiltKey_path _ _ _ hm'
    simp only [Prod.mk.injEq] at hx
    obtain ⟨hid, he⟩ := hx
    have hb' : b' = ⟨b.ID, key'⟩ := by
      cases b'
      simp only [BuiltRelease.mk.injEq]
      exact ⟨hid.symm, hpath⟩
    refine ⟨key', ?_, hkey', ?_, ?_⟩
    · rw [hrs, hget, he, hb']
    · rw [hm', hb']
    · intro honly
      exact honly key' hkey' b' hm' hid.symm

/-- The test "if any objects in built S3 bucket do not match a release specified in
Kilnfile.lock": the result found with the stemcell the test calls ignored is the result for
the desired stemcell too. -/
theorem built_matches_desired_ids_witness :
    S3BuiltReleaseSource.GetMatchedReleases builtTestSource desiredReleaseSet
      desiredStemcell = Except.ok [(bpmReleaseID, ReleaseInfoDownloader.built
        { ID := bpmReleaseID, Path := "2.5/bpm/bpm-1.2.3-lts.tgz" })] :=
  (built_matches_desired_ids builtTestSource desiredReleaseSet
    { OS := "ignored", Version := "ignored" } _ rfl).2.1 desiredStemcell

theorem hasCaptureGroups_false (exp : Regexp) (required : List String)
    (h : ∃ n ∈ required, n ∉ exp.SubexpNames) : hasCaptureGroups exp required = false := by
  obtain ⟨n, hn, hmiss⟩ := h
  cases hg : hasCaptureGroups exp required with
  | false => rfl
  | true =>
    unfold hasCaptureGroups at hg
    rw [List.all_eq_true] at hg
    exact absurd (of_decide_eq_true (hg n hn)) hmiss

theorem missingCaptureGroupError_text (required : List String) :
    containsSubstring (missingCaptureGroupError required) "Missing some capture group" := by
  unfold containsSubstring missingCaptureGroupError
  rw [String.data_append]
  exact List.IsInfix.trans (by decide) (List.prefix_append _ _).isInfix

/-- C6: when the pattern lacks one of the capture groups the source requires (`release_name`,
`release_version`; for the compiled source also `stemcell_os`, `stemcell_version`),
`GetMatchedReleases` returns an error whose text contains "Missing some capture group", for
every desired set (the empty or nil one too) and whatever the S3 client would list or
return. -/
theorem missing_capture_group_is_error (r : S3ReleaseSource) (desired : ReleaseSet)
    (stemcell : Stemcell) :
    ((∃ n ∈ builtCaptureGroups, n ∉ r.Regex.SubexpNames) →
      ∃ msg, S3BuiltReleaseSource.GetMatchedReleases r desired stemcell = Except.error msg ∧
        containsSubstring msg "Missing some capture group") ∧
    ((∃ n ∈ compiledCaptureGroups, n ∉ r.Regex.SubexpNames) →
      ∃ msg, S3CompiledReleaseSource.GetMatchedReleases r desired stemcell = Except.error msg ∧
        containsSubstring msg "Missing some capture group") := by
  constructor
  · intro h
    refine ⟨missingCaptureGroupError builtCaptureGroups, ?_, missingCaptureGroupError_text _⟩
    unfold S3BuiltReleaseSource.GetMatchedReleases
    rw [if_pos (hasCaptureGroups_false _ _ h)]
  · intro h
    refine ⟨missingCaptureGroupError compiledCaptureGroups, ?_,
      missingCaptureGroupError_text _⟩
    unfold S3CompiledReleaseSource.GetMatchedReleases
    rw [if_pos (hasCaptureGroups_false _ _ h)]

/-- The tests "the regular expression is missing a capture group": the pattern's first group
is unnamed and the desired set is nil. -/
theorem missing_capture_group_is_error_witness :
    (∃ msg, S3BuiltReleaseSource.GetMatchedReleases missingGroupSource [] desiredStemcell =
        Except.error msg ∧ containsSubstring msg "Missing some capture group") ∧
    (∃ msg, S3CompiledReleaseSource.GetMatchedReleases missingGroupSource [] desiredStemcell =
        Except.error msg ∧ containsSubstring msg "Missing some capture group") :=
  ⟨(missing_capture_group_is_error missingGroupSource [] desiredStemcell).1
      ⟨"release_name", by decide, by decide⟩,
    (missing_capture_group_is_error missingGroupSource [] desiredStemcell).2
      ⟨"release_name", by decide, by decide⟩⟩

/-! ### `DownloadReleases` -/

theorem DownloadReleases_create_error (env : Environment) (r : S3ReleaseSource)
    (dir : String) (id : ReleaseID) (release : ReleaseInfoDownloader) (rest : ReleaseSet)
    (threads : Int) (cause : String) (h : env.Create (outputFile dir release) = some cause) :
    DownloadReleases env r dir ((id, release) :: rest) threads =
      { Effects := [Effect.create (outputFile dir release)],
        Err := some (createFileError (outputFile dir release) cause) } := by
  simp [DownloadReleases, h]

theorem DownloadReleases_download_error (env : Environment) (r : S3ReleaseSource)
    (dir : String) (id : ReleaseID) (release : ReleaseInfoDownloader) (rest : ReleaseSet)
    (threads : Int) (cause : String) (hc : env.Create (outputFile dir release) = none)
    (hd : env.Download { Bucket := r.Bucket, Key := release.Path } = some cause) :
    DownloadReleases env r dir ((id, release) :: rest) threads =
      { Effects := [Effect.create (outputFile dir release),
          Effect.download { Input := { Bucket := r.Bucket, Key := release.Path },
                            Options := [setConcurrency threads] }],
        Err := some (downloadFileError cause) } := by
  simp [DownloadReleases, hc, hd]

theorem DownloadReleases_step (env : Environment) (r : S3ReleaseSource)
    (dir : String) (id : ReleaseID) (release : ReleaseInfoDownloader) (rest : ReleaseSet)
    (threads : Int) (hc : env.Create (outputFile dir release) = none)
    (hd : env.Download { Bucket := r.Bucket, Key := release.Path } = none) :
    DownloadReleases env r dir ((id, release) :: rest) threads =
      { Effects := Effect.create (outputFile dir release) ::
          Effect.download { Input := { Bucket := r.Bucket, Key := release.Path },
                            Options := [setConcurrency threads] } ::
          (DownloadReleases env r dir rest threads).Effects,
        Err := (DownloadReleases env r dir rest threads).Err } := by
  simp [DownloadReleases, hc, hd]

/-- The files a run asks to create are those of the first entries of the matched set, all of
them when the run returns no error. -/
theorem DownloadReleases_createdPaths (env : Environment) (r : S3ReleaseSource)
    (dir : String) (matched : ReleaseSet) (threads : Int) :
    (DownloadReleases env r dir matched threads).createdPaths <+:
        matched.map (fun e => outputFile dir e.2) ∧
      ((DownloadReleases env r dir matched threads).Err = none →
        (DownloadReleases env r dir matched threads).createdPaths =
          matched.map (fun e => outputFile dir e.2)) := by
  induction matched with
  | nil => simp [DownloadReleases, DownloadOutcome.createdPaths]
  | cons e rest ih =>
    obtain ⟨id, release⟩ := e
    cases hc : env.Create (outputFile dir release) with
    | some cause =>
      rw [DownloadReleases_create_error env r dir id release rest threads cause hc]
      simp [DownloadOutcome.createdPaths, List.prefix_cons_inj]
    | none =>
      cases hd : env.Download { Bucket := r.Bucket, Key := release.Path } with
      | some cause =>
        rw [DownloadReleases_download_error env r dir id release rest threads cause hc hd]
        simp [DownloadOutcome.createdPaths, List.prefix_cons_inj]
      | none =>
        rw [DownloadReleases_step env r dir id release rest threads hc hd]
        simp only [DownloadOutcome.createdPaths] at ih
        simp only [DownloadOutcome.createdPaths, List.filterMap_cons, List.map_cons,
          List.prefix_cons_inj, List.cons.injEq, true_and]
        exact ih

/-- The download calls of a run are those of the first entries of the matched set, all of
them when the run returns no error, each with the one concurrency option. -/
theorem DownloadReleases_downloadCalls (env : Environment) (r : S3ReleaseSource)
    (dir : String) (matched : ReleaseSet) (threads : Int) :
    ((DownloadReleases env r dir matched threads).Err = none →
        (DownloadReleases env r dir matched threads).downloadCalls.map (fun c => c.Input) =
          matched.map (fun e => { Bucket := r.Bucket, Key := e.2.Path })) ∧
      ∀ call ∈ (DownloadReleases env r dir matched threads).downloadCalls,
        call.Options = [setConcurrency threads] := by
  induction matched with
  | nil => simp [DownloadReleases, DownloadOutcome.downloadCalls]
  | cons e rest ih =>
    obtain ⟨id, release⟩ := e
    cases hc : env.Create (outputFile dir release) with
    | some cause =>
      rw [DownloadReleases_create_error env r dir id release rest threads cause hc]
      simp [DownloadOutcome.downloadCalls]
    | none =>
      cases hd : env.Download { Bucket := r.Bucket, Key := release.Path } with
      | some cause =>
        rw [DownloadReleases_download_error env r dir id release rest threads cause hc hd]
        simp [DownloadOutcome.downloadCalls]
      | none =>
        rw [DownloadReleases_step env r dir id release rest threads hc hd]
        simp only [DownloadOutcome.downloadCalls] at ih
        simp only [DownloadOutcome.downloadCalls, List.filterMap_cons, List.map_cons,
          List.cons.injEq, true_and, List.mem_cons, forall_eq_or_imp]
        exact ih

/-- C7: the output files `DownloadReleases` asks to create are, in order, those of the first
entries of the matched set (of all entries when it returns no error), each the destination
directory joined with `<name>-<version>.tgz` for a BuiltRelease and with
`<name>-<version>-<stemcellOS>-<stemcellVersion>.tgz` for a CompiledRelease, whatever the
entry's Path. -/
theorem download_file_names (env : Environment) (r : S3ReleaseSource) (dir : String)
    (matched : ReleaseSet) (threads : Int) :
    (DownloadReleases env r dir matched threads).createdPaths <+:
        matched.map (fun e => dir ++ "/" ++ localFileName e.2) ∧
    ((DownloadReleases env r dir matched threads).Err = none →
      (DownloadReleases env r dir matched threads).createdPaths =
        matched.map (fun e => dir ++ "/" ++ localFileName e.2)) ∧
    (∀ id path, localFileName (ReleaseInfoDownloader.built { ID := id, Path := path }) =
      id.Name ++ "-" ++ id.Version ++ ".tgz") ∧
    (∀ id os version path, localFileName (ReleaseInfoDownloader.compiled
        { ID := id, StemcellOS := os, StemcellVersion := version, Path := path }) =
      id.Name ++ "-" ++ id.Version ++ "-" ++ os ++ "-" ++ version ++ ".tgz") :=
  ⟨(DownloadReleases_createdPaths env r dir matched threads).1,
    (DownloadReleases_createdPaths env r dir matched threads).2,
    fun _ _ => rfl, fun _ _ _ _ => rfl⟩

/-- The test "downloads the appropriate versions of releases listed in matchedS3Objects" of
the compiled source: the two files are named after name, version and stemcell. -/
theorem download_file_names_witness :
    (DownloadReleases workingEnvironment downloadTestSource "/tmp/releases"
        matchedCompiledObjects 7).createdPaths =
      ["/tmp/releases/uaa-1.2.3-ubuntu-trusty-1234.tgz",
       "/tmp/releases/bpm-1.2.3-ubuntu-trusty-1234.tgz"] :=
  (download_file_names workingEnvironment downloadTestSource "/tmp/releases"
    matchedCompiledObjects 7).2.1 rfl

/-- C8: a `DownloadReleases` that returns no error on a matched set of N entries makes exactly
N download calls, one per entry in order, for the source's Bucket and the entry's Path as key;
each call carries exactly one option, which sets the downloader's concurrency to the given
number of threads when that is positive and to `s3manager.DefaultDownloadConcurrency`
otherwise. -/
theorem download_calls_and_concurrency (env : Environment) (r : S3ReleaseSource)
    (dir : String) (matched : ReleaseSet) (threads : Int)
    (hok : (DownloadReleases env r dir matched threads).Err = none) :
    (DownloadReleases env r dir matched threads).downloadCalls.length = matched.length ∧
    (DownloadReleases env r dir matched threads).downloadCalls.map (fun c => c.Input) =
      matched.map (fun e => { Bucket := r.Bucket, Key := e.2.Path }) ∧
    ∀ call ∈ (DownloadReleases env r dir matched threads).downloadCalls,
      ∃ option, call.Options = [option] ∧
        ∀ dl, (option dl).Concurrency =
          if threads > 0 then threads else DefaultDownloadConcurrency := by
  have hcalls := (DownloadReleases_downloadCalls env r dir matched threads).1 hok
  refine ⟨?_, hcalls, ?_⟩
  · have hlen := congrArg List.length hcalls
    simpa using hlen
  · intro call hcall
    refine ⟨setConcurrency threads,
      (DownloadReleases_downloadCalls env r dir matched threads).2 call hcall, ?_⟩
    intro dl
    unfold setConcurrency
    by_cases ht : threads > 0 <;> simp [ht]

/-- The tests "when number of threads is not specified": two calls, each with the default
concurrency. -/
theorem download_calls_and_concurrency_witness :
    (DownloadReleases workingEnvironment downloadTestSource "/tmp/releases"
        matchedBuiltObjects 0).downloadCalls.length = 2 ∧
    (DownloadReleases workingEnvironment downloadTestSource "/tmp/releases"
        matchedBuiltObjects 0).downloadCalls.map (fun c => c.Input) =
      [{ Bucket := "some-bucket", Key := "some-uaa-key" },
       { Bucket := "some-bucket", Key := "some-bpm-key" }] ∧
    ∀ call ∈ (DownloadReleases workingEnvironment downloadTestSource "/tmp/releases"
        matchedBuiltObjects 0).downloadCalls,
      ∃ option, call.Options = [option] ∧
        ∀ dl, (option dl).Concurrency = if (0 : Int) > 0 then 0 else DefaultDownloadConcurrency :=
  download_calls_and_concurrency workingEnvironment downloadTestSource "/tmp/releases"
    matchedBuiltObjects 0 rfl

/-- C9: for every destination directory and number of threads, `DownloadReleases` on an empty
matched set has no effect at all, so it makes no download call, and returns no error. -/
theorem download_empty_matched (env : Environment) (r : S3ReleaseSource) (dir : String)
    (threads : Int) :
    (DownloadReleases env r dir [] threads).downloadCalls = [] ∧
    (DownloadReleases env r dir [] threads).Effects = [] ∧
    (DownloadReleases env r dir [] threads).Err = none :=
  ⟨rfl, rfl, rfl⟩

/-- C10: when no file can be created in the destination directory, `DownloadReleases` on a
non-empty matched set returns an error whose text contains the directory path; it asked to
create the output file of the first entry only, and made no download call. -/
theorem download_create_failure (env : Environment) (r : S3ReleaseSource) (dir : String)
    (matched : ReleaseSet) (threads : Int) (hne : matched ≠ [])
    (hdir : ∀ name, env.Create (dir ++ "/" ++ name) ≠ none) :
    ∃ msg, (DownloadReleases env r dir matched threads).Err = some msg ∧
      containsSubstring msg dir ∧
      (DownloadReleases env r dir matched threads).createdPaths =
        (matched.take 1).map (fun e => dir ++ "/" ++ localFileName e.2) ∧
      (DownloadReleases env r dir matched threads).downloadCalls = [] := by
  cases matched with
  | nil => exact absurd rfl hne
  | cons e rest =>
    obtain ⟨id, release⟩ := e
    cases hc : env.Create (outputFile dir release) with
    | none => exact absurd hc (hdir (localFileName release))
    | some cause =>
      rw [DownloadReleases_create_error env r dir id release rest threads cause hc]
      refine ⟨_, rfl, ?_, ?_, ?_⟩
      · unfold containsSubstring createFileError outputFile
        simp only [String.data_append]
        exact ⟨"failed to create file ".data,
          "/".data ++ (localFileName release).data ++ ": ".data ++ cause.data,
          by simp [List.append_assoc]⟩
      · simp [DownloadOutcome.createdPaths, outputFile]
      · simp [DownloadOutcome.downloadCalls]

/-- The tests "when a file can't be created": the error names `/non-existent-folder`. -/
theorem download_create_failure_witness :
    ∃ msg, (DownloadReleases noDirectoryEnvironment downloadTestSource "/non-existent-folder"
        matchedBuiltObjects 0).Err = some msg ∧
      containsSubstring msg "/non-existent-folder" ∧
      (DownloadReleases noDirectoryEnvironment downloadTestSource "/non-existent-folder"
        matchedBuiltObjects 0).createdPaths =
        (matchedBuiltObjects.take 1).map
          (fun e => "/non-existent-folder" ++ "/" ++ localFileName e.2) ∧
      (DownloadReleases noDirectoryEnvironment downloadTestSource "/non-existent-folder"
        matchedBuiltObjects 0).downloadCalls = [] :=
  download_create_failure noDirectoryEnvironment downloadTestSource "/non-existent-folder"
    matchedBuiltObjects 0 (by decide)
    (by intro name; simp [noDirectoryEnvironment])

/-- C11: when the transfers of the first entries of the matched set succeed and the transfer of
the next entry fails with cause text E, `DownloadReleases` returns the error
"failed to download file, " followed by E and a newline, and it stops there: the files created
and the download calls are those of the entries up to the failing one, none of a later
entry. -/
theorem download_transfer_failure (env : Environment) (r : S3ReleaseSource) (dir : String)
    (done : ReleaseSet) (e : ReleaseID × ReleaseInfoDownloader) (rest : ReleaseSet)
    (threads : Int) (cause : String)
    (hdone : ∀ x ∈ done, env.Create (outputFile dir x.2) = none ∧
      env.Download { Bucket := r.Bucket, Key := x.2.Path } = none)
    (hcreate : env.Create (outputFile dir e.2) = none)
    (hfail : env.Download { Bucket := r.Bucket, Key := e.2.Path } = some cause) :
    (DownloadReleases env r dir (done ++ e :: rest) threads).Err =
        some ("failed to download file, " ++ cause ++ "\n") ∧
    (DownloadReleases env r dir (done ++ e :: rest) threads).createdPaths =
        (done ++ [e]).map (fun x => outputFile dir x.2) ∧
    (DownloadReleases env r dir (done ++ e :: rest) threads).downloadCalls.map
        (fun c => c.Input) =
        (done ++ [e]).map (fun x => { Bucket := r.Bucket, Key := x.2.Path }) := by
  induction done with
  | nil =>
    obtain ⟨id, release⟩ := e
    rw [List.nil_append,
      DownloadReleases_download_error env r dir id release rest threads cause hcreate hfail]
    simp [DownloadOutcome.createdPaths, DownloadOutcome.downloadCalls, downloadFileError]
  | cons x xs ih =>
    obtain ⟨id, release⟩ := x
    have hx := hdone (id, release) (List.mem_cons_self _ _)
    have ih' := ih (fun y hy => hdone y (List.mem_cons_of_mem _ hy))
    rw [List.cons_append, DownloadReleases_step env r dir id release _ threads hx.1 hx.2]
    simp only [DownloadOutcome.createdPaths, DownloadOutcome.downloadCalls] at ih'
    simp only [DownloadOutcome.createdPaths, DownloadOutcome.downloadCalls,
      List.filterMap_cons, List.map_cons, List.cons_append, List.cons.injEq, true_and]
    exact ih'

/-- The tests "when a file can't be downloaded": the error text for the cause
"503 Service Unavailable", after one download call. -/
theorem download_transfer_failure_witness :
    (DownloadReleases unavailableEnvironment downloadTestSource "/tmp/releases"
        matchedBuiltObjects 0).Err =
      some "failed to download file, 503 Service Unavailable\n" ∧
    (DownloadReleases unavailableEnvironment downloadTestSource "/tmp/releases"
        matchedBuiltObjects 0).downloadCalls.length = 1 :=
  ⟨(download_transfer_failure unavailableEnvironment downloadTestSource "/tmp/releases" []
      _ _ 0 "503 Service Unavailable" (by simp) rfl rfl).1,
    by decide⟩

/-! ### The resolver -/

theorem ReleaseSet.get?_of_mem_keys (s : ReleaseSet) (id : ReleaseID) (h : id ∈ s.keys) :
    ∃ v, s.get? id = some v := by
  induction s with
  | nil => simp [ReleaseSet.keys] at h
  | cons p rest ih =>
    obtain ⟨k, w⟩ := p
    by_cases hk : k = id
    · exact ⟨w, by simp [ReleaseSet.get?, hk]⟩
    · have hrest : id ∈ ReleaseSet.keys rest := by
        simp only [ReleaseSet.keys, List.map_cons, List.mem_cons] at h
        rcases h with h | h
        · exact absurd h.symm hk
        · exact h
      obtain ⟨v, hv⟩ := ih hrest
      exact ⟨v, by simp [ReleaseSet.get?, hk, hv]⟩

theorem mergeMatches_get? (matched found : ReleaseSet) (id : ReleaseID)
    (v : ReleaseInfoDownloader) (h : matched.get? id = some v) :
    (mergeMatches matched found).get? id = some v := by
  unfold mergeMatches
  induction found generalizing matched with
  | nil => simpa using h
  | cons e rest ih =>
    simp only [List.foldl_cons]
    apply ih
    cases he : ReleaseSet.get? matched e.1 with
    | some w => simpa [he] using h
    | none =>
      simp only [he]
      have hne : e.1 ≠ id := by
        intro heq
        rw [heq, h] at he
        cases he
      rw [ReleaseSet.get?_set_ne matched e.1 id e.2 hne]
      exact h

theorem mergeMatches_keys (matched found : ReleaseSet) (id : ReleaseID) :
    id ∈ (mergeMatches matched found).keys ↔ id ∈ matched.keys ∨ id ∈ found.keys := by
  unfold mergeMatches
  induction found generalizing matched with
  | nil => simp [ReleaseSet.keys]
  | cons e rest ih =>
    simp only [List.foldl_cons]
    rw [ih]
    have hkeys : id ∈ ReleaseSet.keys (e :: rest) ↔ id = e.1 ∨ id ∈ ReleaseSet.keys rest := by
      simp [ReleaseSet.keys]
    rw [hkeys]
    cases he : ReleaseSet.get? matched e.1 with
    | some w =>
      have hmem := ReleaseSet.mem_keys_of_get? matched e.1 w he
      simp only
      constructor
      · rintro (h | h)
        · exact Or.inl h
        · exact Or.inr (Or.inr h)
      · rintro (h | h | h)
        · exact Or.inl h
        · exact Or.inl (h ▸ hmem)
        · exact Or.inr h
    | none =>
      simp only
      rw [ReleaseSet.mem_keys_set]
      tauto

theorem removeMatched_removeMatched (desired m1 m2 : ReleaseSet)
    (hsub : ∀ id ∈ m1.keys, id ∈ m2.keys) :
    removeMatched (removeMatched desired m1) m2 = removeMatched desired m2 := by
  unfold removeMatched
  rw [List.filter_filter]
  apply List.filter_congr
  intro e _
  by_cases h2 : e.1 ∈ m2.keys
  · simp [h2]
  · have h1 : e.1 ∉ m1.keys := fun h => h2 (hsub _ h)
    simp [h1, h2]

theorem mem_keys_removeMatched (desired matched : ReleaseSet) (id : ReleaseID) :
    id ∈ (removeMatched desired matched).keys ↔ id ∈ desired.keys ∧ id ∉ matched.keys := by
  unfold removeMatched ReleaseSet.keys
  simp only [List.mem_map, List.mem_filter, decide_eq_true_eq]
  constructor
  · rintro ⟨e, ⟨he, hn⟩, rfl⟩
    exact ⟨⟨e, he, rfl⟩, hn⟩
  · rintro ⟨⟨e, he, rfl⟩, hn⟩
    exact ⟨e, ⟨he, hn⟩, rfl⟩

theorem resolveFrom_invariant (desired : ReleaseSet) (stemcell : Stemcell)
    (sources : List Locate)
    (hcontract : ∀ source ∈ sources, ∀ queried found,
      source queried stemcell = Except.ok found → ∀ id ∈ found.keys, id ∈ queried.keys)
    (st res : Resolution) (hst : ResolutionInvariant desired st)
    (h : resolveFrom sources stemcell st = Except.ok res) :
    ResolutionInvariant desired res := by
  induction sources generalizing st with
  | nil =>
    simp only [resolveFrom, Except.ok.injEq] at h
    exact h ▸ hst
  | cons source rest ih =>
    unfold resolveFrom at h
    by_cases hempty : st.remaining.isEmpty = true
    · simp only [hempty, if_true, Except.ok.injEq] at h
      exact h ▸ hst
    · simp only [hempty] at h
      cases hsrc : source st.remaining stemcell with
      | error err => simp [hsrc] at h
      | ok found =>
        simp only [hsrc] at h
        refine ih (fun s hs => hcontract s (List.mem_cons_of_mem _ hs)) _ ?_ h
        obtain ⟨hrem, hkeys, hq⟩ := hst
        have hfound := hcontract source (List.mem_cons_self _ _) _ _ hsrc
        refine ⟨?_, ?_, ?_⟩
        · show removeMatched st.remaining (mergeMatches st.matched found) =
            removeMatched desired (mergeMatches st.matched found)
          rw [hrem]
          exact removeMatched_removeMatched desired st.matched _
            (fun id hid => (mergeMatches_keys _ _ _).2 (Or.inl hid))
        · intro id hid
          rcases (mergeMatches_keys _ _ _).1 hid with hm | hf
          · exact hkeys id hm
          · have := hfound id hf
            rw [hrem] at this
            exact ((mem_keys_removeMatched _ _ _).1 this).1
        · intro q hqmem
          simp only [List.mem_append, List.mem_singleton] at hqmem
          rcases hqmem with hqmem | hqmem
          · obtain ⟨h1, h2⟩ := hq q hqmem
            exact ⟨h1, fun id v hv => mergeMatches_get? _ _ _ _ (h2 id v hv)⟩
          · subst hqmem
            exact ⟨hrem, fun id v hv => mergeMatches_get? _ _ _ _ hv⟩

/-- C12: in a resolution pass over sources that return only releases they were asked for,
every source is queried with the desired set minus the ReleaseIDs matched before it; an entry
that was in the matched set at a query is in the final matched set with the same value (a
lower-priority source never replaces it); and at the end the remaining set is the desired set
minus the matched IDs, so that the matched IDs and the remaining IDs are disjoint and together
are the IDs of the desired set. -/
theorem resolve_partitions_desired (sources : List Locate) (desired : ReleaseSet)
    (stemcell : Stemcell) (res : Resolution)
    (hcontract : ∀ source ∈ sources, ∀ queried found,
      source queried stemcell = Except.ok found → ∀ id ∈ found.keys, id ∈ queried.keys)
    (h : resolve sources desired stemcell = Except.ok res) :
    (∀ q ∈ res.queries, q.queried = removeMatched desired q.matchedBefore ∧
      ∀ id v, q.matchedBefore.get? id = some v → res.matched.get? id = some v) ∧
    res.remaining = removeMatched desired res.matched ∧
    (∀ id, id ∈ desired.keys ↔ id ∈ res.matched.keys ∨ id ∈ res.remaining.keys) ∧
    (∀ id, ¬ (id ∈ res.matched.keys ∧ id ∈ res.remaining.keys)) := by
  have hinit : ResolutionInvariant desired
      { matched := [], remaining := desired, queries := [] } := by
    refine ⟨?_, ?_, ?_⟩
    · simp [removeMatched, ReleaseSet.keys]
    · intro id hid
      simp [ReleaseSet.keys] at hid
    · intro q hq
      cases hq
  obtain ⟨hrem, hkeys, hq⟩ := resolveFrom_invariant desired stemcell sources hcontract _ res
    hinit h
  refine ⟨hq, hrem, ?_, ?_⟩
  · intro id
    rw [hrem, mem_keys_removeMatched]
    constructor
    · intro hd
      by_cases hm : id ∈ res.matched.keys
      · exact Or.inl hm
      · exact Or.inr ⟨hd, hm⟩
    · rintro (hm | hr)
      · exact hkeys id hm
      · exact hr.1
  · intro id ⟨hm, hr⟩
    rw [hrem, mem_keys_removeMatched] at hr
    exact hr.2 hm

/-- The compiled S3 source returns only releases of the set it was asked for. -/
theorem compiled_locate_contract (r : S3ReleaseSource) (queried found : ReleaseSet)
    (stemcell : Stemcell)
    (h : S3CompiledReleaseSource.GetMatchedReleases r queried stemcell = Except.ok found) :
    ∀ id ∈ found.keys, id ∈ queried.keys := by
  obtain ⟨_, _, hrs⟩ := (compiled_ok_iff r queried stemcell found).1 h
  intro id hid
  obtain ⟨v, hv⟩ := ReleaseSet.get?_of_mem_keys found id hid
  have hmem : (id, v) ∈ found := by
    clear hrs h
    induction found with
    | nil => simp [ReleaseSet.get?] at hv
    | cons p rest ih =>
      obtain ⟨k, w⟩ := p
      by_cases hk : k = id
      · simp only [ReleaseSet.get?, hk, if_true, Option.some.injEq] at hv
        simp [hk, hv]
      · simp only [ReleaseSet.get?, hk, if_false] at hv
        have hrest : id ∈ ReleaseSet.keys rest := ReleaseSet.mem_keys_of_get? rest id v hv
        exact List.mem_cons_of_mem _ (ih hrest hv)
  rw [hrs] at hmem
  obtain ⟨key, _, hc⟩ := recordStep_entries _ _ _ hmem
  obtain ⟨c, _, hd, _, _, hx⟩ := (compiledCandidate_some _ _ _ _ _).1 hc
  simp only [Prod.mk.injEq] at hx
  rw [hx.1]
  exact hd

/-- The built S3 source returns only releases of the set it was asked for. -/
theorem built_locate_contract (r : S3ReleaseSource) (queried found : ReleaseSet)
    (stemcell : Stemcell)
    (h : S3BuiltReleaseSource.GetMatchedReleases r queried stemcell = Except.ok found) :
    ∀ id ∈ found.keys, id ∈ queried.keys := by
  obtain ⟨_, _, hrs⟩ := (built_ok_iff r queried stemcell found).1 h
  intro id hid
  obtain ⟨v, hv⟩ := ReleaseSet.get?_of_mem_keys found id hid
  have hmem : (id, v) ∈ found := by
    clear hrs h
    induction found with
    | nil => simp [ReleaseSet.get?] at hv
    | cons p rest ih =>
      obtain ⟨k, w⟩ := p
      by_cases hk : k = id
      · simp only [ReleaseSet.get?, hk, if_true, Option.some.injEq] at hv
        simp [hk, hv]
      · simp only [ReleaseSet.get?, hk, if_false] at hv
        have hrest : id ∈ ReleaseSet.keys rest := ReleaseSet.mem_keys_of_get? rest id v hv
        exact List.mem_cons_of_mem _ (ih hrest hv)
  rw [hrs] at hmem
  obtain ⟨key, _, hc⟩ := recordStep_entries _ _ _ hmem
  obtain ⟨b, _, hd, hx⟩ := (builtCandidate_some _ _ _ _).1 hc
  simp only [Prod.mk.injEq] at hx
  rw [hx.1]
  exact hd

/-- A pass over the compiled and the built S3 source of the tests for `bpm` and `uaa`: `bpm`
is matched by the compiled source, `uaa` remains, and the built source is asked for `uaa`
only. -/
theorem resolve_partitions_desired_witness :
    testResolution.remaining = removeMatched twoDesiredReleases testResolution.matched ∧
    testResolution.matched.keys = [bpmReleaseID] ∧
    testResolution.queries.map (fun q => q.queried.keys) =
      [[bpmReleaseID, { Name := "uaa", Version := "1.2.3" }],
       [{ Name := "uaa", Version := "1.2.3" }]] :=
  ⟨(resolve_partitions_desired testSources twoDesiredReleases desiredStemcell testResolution
      (by
        intro source hsource queried found hfound
        simp only [testSources, List.mem_cons, List.mem_singleton, List.not_mem_nil,
          or_false] at hsource
        rcases hsource with hs | hs
        · subst hs
          exact compiled_locate_contract _ _ _ _ hfound
        · subst hs
          exact built_locate_contract _ _ _ _ hfound)
      rfl).2.1,
    by decide, by decide⟩

/-! ### Quoted texts -/

/-- A text of printable runes, none of them a double quote or a backslash, is quoted as it is,
between double quotes. -/
theorem goQuote_plain (s : String)
    (h : ∀ c ∈ s.data, IsPrint isPrint c = true ∧ c ≠ '"' ∧ c ≠ '\\') :
    goQuote isPrint s = "\"" ++ s ++ "\"" := by
  have hflat : ∀ cs : List Char,
      (∀ c ∈ cs, IsPrint isPrint c = true ∧ c ≠ '"' ∧ c ≠ '\\') →
      cs.flatMap (appendEscapedRune isPrint '"') = cs := by
    intro cs
    induction cs with
    | nil => intro _; rfl
    | cons c rest ih =>
      intro hall
      obtain ⟨hprint, hquote, hslash⟩ := hall c (List.mem_cons_self _ _)
      have hc : appendEscapedRune isPrint '"' c = [c] := by
        unfold appendEscapedRune
        rw [if_neg (by simp [hquote, hslash]), if_pos hprint]
      rw [List.flatMap_cons, hc, ih (fun d hd => hall d (List.mem_cons_of_mem _ hd))]
      rfl
  unfold goQuote
  rw [hflat s.data h]
  apply String.ext
  simp [String.data_append]

/-! ### `releaseType` and release versions -/

@[simp]
theorem withPrerelease_major (v : semver.Version) (pre : String) :
    (v.withPrerelease pre).major = v.major := rfl

@[simp]
theorem withPrerelease_minor (v : semver.Version) (pre : String) :
    (v.withPrerelease pre).minor = v.minor := rfl

@[simp]
theorem withPrerelease_patch (v : semver.Version) (pre : String) :
    (v.withPrerelease pre).patch = v.patch := rfl

@[simp]
theorem withPrerelease_pre (v : semver.Version) (pre : String) :
    (v.withPrerelease pre).pre = pre := rfl

@[simp]
theorem withPrerelease_metadata (v : semver.Version) (pre : String) :
    (v.withPrerelease pre).metadata = v.metadata := rfl

/-- The text of a version does not show its original text. -/
theorem withPrerelease_str (v : semver.Version) (pre : String) :
    (v.withPrerelease pre).str = semver.Version.str { v with pre := pre } := rfl

/-- C13: for the window "ga", `releaseType` is "Major Release" when minor and patch are both
0, "Minor Release" when minor is not 0 and patch is 0, and for a patch other than 0 it is
"Security Release" with the security-fix flag and "Maintenance Release" without it; the flag
does not change the type of a major or minor release. -/
theorem releaseType_ga (includesSecurityFix : Bool) (v : releaseVersion) :
    releaseType "ga" includesSecurityFix v =
      (if v.semver.patch = 0 then
        (if v.semver.minor = 0 then "Major Release" else "Minor Release")
      else if includesSecurityFix = true then "Security Release" else "Maintenance Release") ∧
    (v.semver.patch = 0 → releaseType "ga" true v = releaseType "ga" false v) := by
  have hmain : ∀ f : Bool, releaseType "ga" f v =
      (if v.semver.patch = 0 then
        (if v.semver.minor = 0 then "Major Release" else "Minor Release")
      else if f = true then "Security Release" else "Maintenance Release") := by
    intro f
    unfold releaseType releaseVersion.IsMajor releaseVersion.IsMinor
    by_cases hp : v.semver.patch = 0 <;> by_cases hm : v.semver.minor = 0 <;>
      cases f <;> simp [hp, hm]
  refine ⟨hmain _, ?_⟩
  intro hp
  rw [hmain true, hmain false]
  simp [hp]

/-- The GA test for the major release 2.0.0: the security-fix flag does not change the release
type. -/
theorem releaseType_ga_witness :
    releaseType "ga" true { semver := ⟨2, 0, 0, "", "", "2.0.0"⟩, window := "ga", prereleaseVersion := 0 } =
      releaseType "ga" false
        { semver := ⟨2, 0, 0, "", "", "2.0.0"⟩, window := "ga", prereleaseVersion := 0 } :=
  (releaseType_ga true { semver := ⟨2, 0, 0, "", "", "2.0.0"⟩, window := "ga", prereleaseVersion := 0 }).2
    rfl

/-- C14: for the windows "alpha", "beta" and "rc", `releaseType` is "Alpha Release",
"Beta Release" and "Release Candidate", for every version and either value of the security-fix
flag. -/
theorem releaseType_pre_ga (includesSecurityFix : Bool) (v : releaseVersion) :
    releaseType "alpha" includesSecurityFix v = "Alpha Release" ∧
    releaseType "beta" includesSecurityFix v = "Beta Release" ∧
    releaseType "rc" includesSecurityFix v = "Release Candidate" := by
  refine ⟨?_, ?_, ?_⟩ <;> simp [releaseType]

/-- No release is found when no release has a version that parses and satisfies the
constraint. -/
theorem FindLatest_eq_none (rs : List Release) (constraint : semver.Constraints)
    (h : ∀ r ∈ rs, ∀ v, semver.NewVersion r.Version = Except.ok v →
      semver.Constraints.Check constraint v = false) :
    releaseSet.FindLatest rs constraint = none := by
  have hfilter : rs.filter (satisfiesConstraint constraint) = [] := by
    rw [List.filter_eq_nil_iff]
    intro r hr
    unfold satisfiesConstraint
    cases hv : semver.NewVersion r.Version with
    | error e => simp
    | ok v => simp [h r hr v hv]
  unfold releaseSet.FindLatest
  rw [hfilter]
  rfl

/-- Setting the prerelease number of a version that is not GA succeeds when the new prerelease
text is valid. -/
theorem SetPrereleaseVersion_ok (rv : releaseVersion) (n : Int) (hga : rv.IsGA = false)
    (hvalid : semver.validIdentifiers (rv.window ++ "." ++ toString n).data = true) :
    rv.SetPrereleaseVersion isPrint n =
      Except.ok { semver := rv.semver.withPrerelease (rv.window ++ "." ++ toString n),
                  window := rv.window, prereleaseVersion := n } := by
  unfold releaseVersion.SetPrereleaseVersion semver.Version.SetPrerelease
  rw [hga, hvalid]
  simp

/-- The prerelease constraint of a version that is not GA, for a window that is a valid
prerelease text. -/
theorem PrereleaseVersionsConstraint_ok (rv : releaseVersion) (hga : rv.IsGA = false)
    (hvalid : semver.validIdentifiers rv.window.data = true) :
    rv.PrereleaseVersionsConstraint isPrint =
      Except.ok
        [{ op := semver.Operator.greaterThanEqual,
           con := semver.constraintVersion rv.semver.major rv.semver.minor rv.semver.patch
                    (rv.window ++ ".0") },
         { op := semver.Operator.lessThanEqual,
           con := semver.constraintVersion rv.semver.major rv.semver.minor rv.semver.patch
                    (rv.window ++ ".9999") }] := by
  unfold releaseVersion.PrereleaseVersionsConstraint
  rw [hga, hvalid]
  simp

/-! ### The Pivnet services -/

theorem findMatchingOSL_eq_find? (productFiles : List ProductFile) (version : releaseVersion) :
    findMatchingOSL productFiles version =
      productFiles.find? (fun f => decide (f.FileType = "Open Source License" ∧
        f.FileVersion = toString version.semver.major ++ "." ++ toString version.semver.minor)) := by
  induction productFiles with
  | nil => rfl
  | cons file rest ih =>
    unfold findMatchingOSL
    rw [List.find?_cons]
    by_cases h : file.FileType = oslFileType ∧ file.FileVersion = version.MajorAndMinor
    · have h' : decide (file.FileType = "Open Source License" ∧ file.FileVersion =
          toString version.semver.major ++ "." ++ toString version.semver.minor) = true :=
        decide_eq_true h
      rw [if_pos h, h']
    · have h' : decide (file.FileType = "Open Source License" ∧ file.FileVersion =
          toString version.semver.major ++ "." ++ toString version.semver.minor) = false :=
        decide_eq_false h
      rw [if_neg h, h']
      exact ih

/-- C19: for a GA version `attachLicenseFile` lists the product files of the slug and takes the
first file whose FileType is "Open Source License" and whose FileVersion is `M.m`: it makes, after
the listing, exactly one AddToRelease call with the slug, the release ID and the ID of that
file, and returns the name of the file when the call succeeds; when no file satisfies both
conditions it returns the error "required license file doesn't exist on Pivnet" after the
listing alone; for a version that is not GA it calls no service. -/
theorem attachLicenseFile_first_license {σ : Type} (pivnet : PivnetServices σ) (slug : String)
    (releaseID : Int) (version : releaseVersion) (s : Session σ) :
    (version.IsGA = false →
      attachLicenseFile pivnet slug releaseID version s = (Except.ok "", s)) ∧
    (version.IsGA = true → ∀ productFiles,
      (pivnet.productFilesList slug s.state).1 = Except.ok productFiles →
      (∀ file, productFiles.find? (fun f => decide (f.FileType = "Open Source License" ∧
            f.FileVersion = toString version.semver.major ++ "." ++
              toString version.semver.minor)) = some file →
        (attachLicenseFile pivnet slug releaseID version s).2.calls =
          s.calls ++ [PivnetCall.productFilesList slug,
            PivnetCall.productFilesAddToRelease slug releaseID file.ID] ∧
        ((pivnet.productFilesAddToRelease slug releaseID file.ID
            (pivnet.productFilesList slug s.state).2).1 = none →
          (attachLicenseFile pivnet slug releaseID version s).1 = Except.ok file.Name)) ∧
      (productFiles.find? (fun f => decide (f.FileType = "Open Source License" ∧
            f.FileVersion = toString version.semver.major ++ "." ++
              toString version.semver.minor)) = none →
        (attachLicenseFile pivnet slug releaseID version s).1 =
          Except.error "required license file doesn't exist on Pivnet" ∧
        (attachLicenseFile pivnet slug releaseID version s).2.calls =
          s.calls ++ [PivnetCall.productFilesList slug])) := by
  constructor
  · intro hga
    simp [attachLicenseFile, hga]
  · intro hga productFiles hlist
    constructor
    · intro file hfind
      rw [← findMatchingOSL_eq_find?] at hfind
      constructor
      · simp [attachLicenseFile, hga, hlist, hfind]
        cases hadd : (pivnet.productFilesAddToRelease slug releaseID file.ID
            (pivnet.productFilesList slug s.state).2).1 <;> simp
      · intro hadd
        simp [attachLicenseFile, hga, hlist, hfind, hadd]
    · intro hfind
      rw [← findMatchingOSL_eq_find?] at hfind
      simp [attachLicenseFile, hga, hlist, hfind]

/-- The tests "adds the appropriate OSL file" for GA 2.0.0 and "does not add a file to the
release" for the alpha window. -/
theorem attachLicenseFile_first_license_witness :
    ((attachLicenseFile (testPivnet []) "elastic-runtime" 123
        { semver := ⟨2, 0, 0, "", "", "2.0.0"⟩, window := "ga", prereleaseVersion := 0 }
        newSession).2.calls =
      [] ++ [PivnetCall.productFilesList "elastic-runtime",
        PivnetCall.productFilesAddToRelease "elastic-runtime" 123 42] ∧
      (attachLicenseFile (testPivnet []) "elastic-runtime" 123
        { semver := ⟨2, 0, 0, "", "", "2.0.0"⟩, window := "ga", prereleaseVersion := 0 }
        newSession).1 = Except.ok "PCF Pivotal Application Service v2.0 OSL") ∧
    attachLicenseFile (testPivnet []) "elastic-runtime" 123
        { semver := ⟨2, 0, 0, "alpha.1", "", "2.0.0-alpha.1"⟩, window := "alpha", prereleaseVersion := 1 }
        newSession = (Except.ok "", newSession) :=
  ⟨⟨(((attachLicenseFile_first_license (testPivnet []) "elastic-runtime" 123
        { semver := ⟨2, 0, 0, "", "", "2.0.0"⟩, window := "ga", prereleaseVersion := 0 }
        newSession).2 rfl testProductFiles rfl).1
        { ID := 42, Name := "PCF Pivotal Application Service v2.0 OSL", FileVersion := "2.0",
          FileType := "Open Source License" } (by decide)).1,
      (((attachLicenseFile_first_license (testPivnet []) "elastic-runtime" 123
        { semver := ⟨2, 0, 0, "", "", "2.0.0"⟩, window := "ga", prereleaseVersion := 0 }
        newSession).2 rfl testProductFiles rfl).1
        { ID := 42, Name := "PCF Pivotal Application Service v2.0 OSL", FileVersion := "2.0",
          FileType := "Open Source License" } (by decide)).2 rfl⟩,
    (attachLicenseFile_first_license (testPivnet []) "elastic-runtime" 123
        { semver := ⟨2, 0, 0, "alpha.1", "", "2.0.0-alpha.1"⟩, window := "alpha", prereleaseVersion := 1 }
        newSession).1 rfl⟩

/-- The inner loop of `addUserGroups` adds the first group with the name, and finds none when
no group has the name. -/
theorem addUserGroup_eq {σ : Type} (pivnet : PivnetServices σ) (slug : String) (releaseID : Int)
    (name : String) (groups : List UserGroup) (s : Session σ) :
    addUserGroup pivnet slug releaseID name groups s =
      (groups.find? (fun g => decide (g.Name = name))).map (fun g =>
        ((pivnet.userGroupsAddToRelease slug releaseID g.ID s.state).1,
          { state := (pivnet.userGroupsAddToRelease slug releaseID g.ID s.state).2,
            calls := s.calls ++ [PivnetCall.userGroupsAddToRelease slug releaseID g.ID] })) := by
  induction groups with
  | nil => rfl
  | cons g rest ih =>
    unfold addUserGroup
    rw [List.find?_cons]
    by_cases h : g.Name = name
    · rw [if_pos h, decide_eq_true h]
      rfl
    · rw [if_neg h, decide_eq_false h]
      exact ih

theorem find?_name_eq_none (groups : List UserGroup) (name : String) :
    groups.find? (fun g => decide (g.Name = name)) = none ↔ ¬ ∃ g ∈ groups, g.Name = name := by
  rw [List.find?_eq_none]
  constructor
  · rintro h ⟨g, hg, hname⟩
    exact h g hg (decide_eq_true hname)
  · intro h g hg hdec
    exact h ⟨g, hg, of_decide_eq_true hdec⟩

/-- The outer loop of `addUserGroups` when every AddToRelease call succeeds. -/
theorem addUserGroupsLoop_spec {σ : Type} (pivnet : PivnetServices σ) (slug : String)
    (releaseID : Int) (groups : List UserGroup)
    (hadd : ∀ slug releaseID groupID state,
      (pivnet.userGroupsAddToRelease slug releaseID groupID state).1 = none)
    (names : List String) (s : Session σ) :
    ((addUserGroupsLoop isPrint pivnet slug releaseID groups names s).1 = none ↔
      ∀ name ∈ names, ∃ g ∈ groups, g.Name = name) ∧
    ((addUserGroupsLoop isPrint pivnet slug releaseID groups names s).1 = none →
      (addUserGroupsLoop isPrint pivnet slug releaseID groups names s).2.calls =
        s.calls ++ names.filterMap (fun name =>
          (groups.find? (fun g => decide (g.Name = name))).map (fun g =>
            PivnetCall.userGroupsAddToRelease slug releaseID g.ID))) ∧
    (∀ done name rest, names = done ++ name :: rest →
      (∀ n ∈ done, ∃ g ∈ groups, g.Name = n) → (¬ ∃ g ∈ groups, g.Name = name) →
      (addUserGroupsLoop isPrint pivnet slug releaseID groups names s).1 =
        some ("no matching user group " ++ goQuote isPrint name ++ " on Pivnet")) := by
  induction names generalizing s with
  | nil =>
    refine ⟨?_, ?_, ?_⟩
    · simp [addUserGroupsLoop]
    · simp [addUserGroupsLoop]
    · intro done name rest h
      cases done <;> cases h
  | cons name names ih =>
    cases hfind : groups.find? (fun g => decide (g.Name = name)) with
    | none =>
      have hno := (find?_name_eq_none groups name).1 hfind
      have hloop : addUserGroupsLoop isPrint pivnet slug releaseID groups (name :: names) s =
          (some ("no matching user group " ++ goQuote isPrint name ++ " on Pivnet"), s) := by
        unfold addUserGroupsLoop
        rw [addUserGroup_eq, hfind]
        rfl
      rw [hloop]
      refine ⟨?_, ?_, ?_⟩
      · constructor
        · intro h; cases h
        · intro h
          exact absurd (h name (List.mem_cons_self _ _)) hno
      · intro h; cases h
      · intro done name' rest h hdone hmiss
        cases done with
        | nil =>
          simp only [List.nil_append, List.cons.injEq] at h
          rw [h.1]
        | cons d ds =>
          simp only [List.cons_append, List.cons.injEq] at h
          exact absurd (hdone d (List.mem_cons_self _ _)) (h.1 ▸ hno)
    | some g =>
      have hg : g ∈ groups ∧ g.Name = name := by
        have h1 := List.find?_some hfind
        exact ⟨List.mem_of_find?_eq_some hfind, of_decide_eq_true h1⟩
      have hloop : addUserGroupsLoop isPrint pivnet slug releaseID groups (name :: names) s =
          addUserGroupsLoop isPrint pivnet slug releaseID groups names
            { state := (pivnet.userGroupsAddToRelease slug releaseID g.ID s.state).2,
              calls := s.calls ++ [PivnetCall.userGroupsAddToRelease slug releaseID g.ID] } := by
        conv => lhs; unfold addUserGroupsLoop
        rw [addUserGroup_eq, hfind]
        simp only [Option.map_some', hadd]
      rw [hloop]
      obtain ⟨ih1, ih2, ih3⟩ := ih
        { state := (pivnet.userGroupsAddToRelease slug releaseID g.ID s.state).2,
          calls := s.calls ++ [PivnetCall.userGroupsAddToRelease slug releaseID g.ID] }
      refine ⟨?_, ?_, ?_⟩
      · rw [ih1]
        constructor
        · intro h n hn
          rcases List.mem_cons.1 hn with hn | hn
          · exact ⟨g, hg.1, hg.2.trans hn.symm⟩
          · exact h n hn
        · intro h n hn
          exact h n (List.mem_cons_of_mem _ hn)
      · intro h
        rw [ih2 h]
        simp [List.filterMap_cons, hfind, List.append_assoc]
      · intro done name' rest h hdone hmiss
        cases done with
        | nil =>
          simp only [List.nil_append, List.cons.injEq] at h
          exact absurd ⟨g, hg.1, hg.2.trans h.1⟩ hmiss
        | cons d ds =>
          simp only [List.cons_append, List.cons.injEq] at h
          exact ih3 ds name' rest h.2 (fun n hn => hdone n (List.mem_cons_of_mem _ hn)) hmiss

/-- C20: for a version that is not GA, when the user groups are listed and every AddToRelease
call succeeds, `addUserGroups` returns no error iff every name of the Kilnfile's
`pre_ga_user_groups` is the Name of some listed group; then its calls are the listing followed
by one AddToRelease call per name, in Kilnfile order, with the Kilnfile's slug, the ID of the
release and the ID of the first listed group with that name; the first name without a group
gives the error `no matching user group "<name>" on Pivnet`, the name quoted as by `%q`: as it
is between double quotes when its runes are printable and none is a double quote or a
backslash. For a GA version no service is called. -/
theorem addUserGroups_matches_names {σ : Type} (pivnet : PivnetServices σ)
    (rv : releaseVersion) (release : Release) (kilnfile : Kilnfile) (s : Session σ) :
    (rv.IsGA = true → addUserGroups isPrint pivnet rv release kilnfile s = (none, s)) ∧
    (rv.IsGA = false → ∀ groups, (pivnet.userGroupsList s.state).1 = Except.ok groups →
      (∀ slug releaseID groupID state,
        (pivnet.userGroupsAddToRelease slug releaseID groupID state).1 = none) →
      ((addUserGroups isPrint pivnet rv release kilnfile s).1 = none ↔
        ∀ name ∈ kilnfile.PreGaUserGroups, ∃ g ∈ groups, g.Name = name) ∧
      ((addUserGroups isPrint pivnet rv release kilnfile s).1 = none →
        (addUserGroups isPrint pivnet rv release kilnfile s).2.calls =
          s.calls ++ PivnetCall.userGroupsList ::
            kilnfile.PreGaUserGroups.filterMap (fun name =>
              (groups.find? (fun g => decide (g.Name = name))).map (fun g =>
                PivnetCall.userGroupsAddToRelease kilnfile.Slug release.ID g.ID)) ∧
        (kilnfile.PreGaUserGroups.filterMap (fun name =>
              (groups.find? (fun g => decide (g.Name = name))).map (fun g =>
                PivnetCall.userGroupsAddToRelease kilnfile.Slug release.ID g.ID))).length =
          kilnfile.PreGaUserGroups.length) ∧
      (∀ done name rest, kilnfile.PreGaUserGroups = done ++ name :: rest →
        (∀ n ∈ done, ∃ g ∈ groups, g.Name = n) → (¬ ∃ g ∈ groups, g.Name = name) →
        (addUserGroups isPrint pivnet rv release kilnfile s).1 =
          some ("no matching user group " ++ goQuote isPrint name ++ " on Pivnet") ∧
        ((∀ c ∈ name.data, IsPrint isPrint c = true ∧ c ≠ '"' ∧ c ≠ '\\') →
          (addUserGroups isPrint pivnet rv release kilnfile s).1 =
            some ("no matching user group \"" ++ name ++ "\" on Pivnet")))) := by
  constructor
  · intro hga
    simp [addUserGroups, hga]
  · intro hga groups hlist hadd
    have hrun : addUserGroups isPrint pivnet rv release kilnfile s =
        addUserGroupsLoop isPrint pivnet kilnfile.Slug release.ID groups kilnfile.PreGaUserGroups
          { state := (pivnet.userGroupsList s.state).2,
            calls := s.calls ++ [PivnetCall.userGroupsList] } := by
      simp [addUserGroups, hga, hlist]
    rw [hrun]
    obtain ⟨h1, h2, h3⟩ := addUserGroupsLoop_spec pivnet kilnfile.Slug release.ID groups hadd
      kilnfile.PreGaUserGroups
      { state := (pivnet.userGroupsList s.state).2,
        calls := s.calls ++ [PivnetCall.userGroupsList] }
    refine ⟨h1, ?_, ?_⟩
    swap
    · intro done name rest hsplit hdone hmissing
      have herr := h3 done name rest hsplit hdone hmissing
      refine ⟨herr, ?_⟩
      intro hplain
      rw [herr, goQuote_plain name hplain]
      simp only [String.append_assoc]
      rw [← String.append_assoc]
      rfl
    intro hnone
    constructor
    · rw [h2 hnone]
      simp [List.append_assoc]
    · have hlen : ∀ names : List String, (∀ name ∈ names, ∃ g ∈ groups, g.Name = name) →
          (names.filterMap (fun name =>
            (groups.find? (fun g => decide (g.Name = name))).map (fun g =>
              PivnetCall.userGroupsAddToRelease kilnfile.Slug release.ID g.ID))).length =
            names.length := by
        intro names
        induction names with
        | nil => intro _; rfl
        | cons n ns ih =>
          intro hall
          obtain ⟨g, hg, hname⟩ := hall n (List.mem_cons_self _ _)
          cases hfind : groups.find? (fun g => decide (g.Name = n)) with
          | none => exact absurd ⟨g, hg, hname⟩ ((find?_name_eq_none groups n).1 hfind)
          | some g' =>
            simp only [List.filterMap_cons, hfind, Option.map_some', List.length_cons]
            rw [ih (fun m hm => hall m (List.mem_cons_of_mem _ hm))]
      exact hlen _ (h1.1 hnone)

/-- The tests "adds the pre-GA user groups to the release" (two calls, for the groups 123 and
456) and "one of the required user groups doesn't exist" (the error names the group), a name
with the rune U+00A0, which is not printable and is written by its number, and a GA publish,
which calls no service. -/
theorem addUserGroups_matches_names_witness :
    (addUserGroups testPrintable (testPivnet []) rcReleaseVersion (releaseOnPivnet 123 "" "")
        testKilnfile newSession).2.calls =
      [] ++ PivnetCall.userGroupsList ::
        [PivnetCall.userGroupsAddToRelease "elastic-runtime" 123 123,
         PivnetCall.userGroupsAddToRelease "elastic-runtime" 123 456] ∧
    (addUserGroups testPrintable (testPivnet []) rcReleaseVersion (releaseOnPivnet 123 "" "")
        missingGroupKilnfile newSession).1 =
      some ("no matching user group " ++ goQuote testPrintable "No such group" ++
        " on Pivnet") ∧
    (addUserGroups testPrintable (testPivnet []) rcReleaseVersion (releaseOnPivnet 123 "" "")
        missingGroupKilnfile newSession).1 =
      some "no matching user group \"No such group\" on Pivnet" ∧
    (addUserGroups testPrintable (testPivnet []) rcReleaseVersion (releaseOnPivnet 123 "" "")
        { Slug := "elastic-runtime", PreGaUserGroups := ["PCF\u00a0R&D"] } newSession).1 =
      some "no matching user group \"PCF\\u00a0R&D\" on Pivnet" ∧
    addUserGroups testPrintable (testPivnet []) gaReleaseVersion (releaseOnPivnet 123 "" "")
        testKilnfile newSession = (none, newSession) :=
  ⟨(((addUserGroups_matches_names (testPivnet []) rcReleaseVersion (releaseOnPivnet 123 "" "")
        testKilnfile newSession).2 rfl testUserGroups rfl (fun _ _ _ _ => rfl)).2.1 rfl).1,
    (((@addUserGroups_matches_names testPrintable Unit (testPivnet []) rcReleaseVersion
        (releaseOnPivnet 123 "" "") missingGroupKilnfile newSession).2 rfl testUserGroups rfl
        (fun _ _ _ _ => rfl)).2.2 ["PCF R&D"] "No such group" [] rfl (by decide)
        (by decide)).1,
    (((@addUserGroups_matches_names testPrintable Unit (testPivnet []) rcReleaseVersion
        (releaseOnPivnet 123 "" "") missingGroupKilnfile newSession).2 rfl testUserGroups rfl
        (fun _ _ _ _ => rfl)).2.2 ["PCF R&D"] "No such group" [] rfl (by decide)
        (by decide)).2 (by decide),
    rfl,
    (addUserGroups_matches_names (testPivnet []) gaReleaseVersion (releaseOnPivnet 123 "" "")
        testKilnfile newSession).1 rfl⟩

/-! ### End of General Support dates -/

/-! ### Sorting and `FindLatest` -/

theorem mem_insertFromRight {α : Type} (less : α → α → Bool) (x y : α) (l : List α) :
    y ∈ insertFromRight less x l ↔ y = x ∨ y ∈ l := by
  induction l with
  | nil => simp [insertFromRight]
  | cons z zs ih =>
    unfold insertFromRight
    by_cases h : less x z = true
    · simp only [h, if_true, List.mem_cons, ih]
      tauto
    · have hxz : less x z = false := by simpa using h
      simp [hxz]

theorem insertFromRight_pairwise {α : Type} (less : α → α → Bool) (x : α) (l : List α)
    (hasymm : ∀ y ∈ l, less x y = true → less y x = false)
    (htrans : ∀ y ∈ l, ∀ z ∈ l, less x y = false → less y z = false → less x z = false)
    (hsorted : l.Pairwise (fun a b => less a b = false)) :
    (insertFromRight less x l).Pairwise (fun a b => less a b = false) := by
  induction l with
  | nil => simp [insertFromRight]
  | cons y ys ih =>
    unfold insertFromRight
    have hy := List.pairwise_cons.1 hsorted
    by_cases h : less x y = true
    · simp only [h, if_true]
      refine List.pairwise_cons.2 ⟨?_, ?_⟩
      · intro z hz
        rcases (mem_insertFromRight less x z ys).1 hz with hz | hz
        · rw [hz]
          exact hasymm y (List.mem_cons_self _ _) h
        · exact hy.1 z hz
      · exact ih (fun z hz => hasymm z (List.mem_cons_of_mem _ hz))
          (fun a ha b hb => htrans a (List.mem_cons_of_mem _ ha) b (List.mem_cons_of_mem _ hb))
          hy.2
    · have hxy : less x y = false := by simpa using h
      simp only [h, if_false]
      refine List.pairwise_cons.2 ⟨?_, hsorted⟩
      intro z hz
      rcases List.mem_cons.1 hz with hz | hz
      · rw [hz]; exact hxy
      · exact htrans y (List.mem_cons_self _ _) z (List.mem_cons_of_mem _ hz) hxy (hy.1 z hz)

/-- Sorting a slice whose elements the comparison orders consistently keeps its elements and
puts them in descending order. -/
theorem sortSliceDescending_sorted {α : Type} (less : α → α → Bool) (l : List α)
    (hasymm : ∀ a ∈ l, ∀ b ∈ l, less a b = true → less b a = false)
    (htrans : ∀ a ∈ l, ∀ b ∈ l, ∀ c ∈ l, less a b = false → less b c = false →
      less a c = false) :
    (∀ y, y ∈ sortSliceDescending less l ↔ y ∈ l) ∧
    (sortSliceDescending less l).Pairwise (fun a b => less a b = false) := by
  have hgen : ∀ (rest acc : List α), (∀ y ∈ rest, y ∈ l) → (∀ y ∈ acc, y ∈ l) →
      acc.Pairwise (fun a b => less a b = false) →
      (∀ y, y ∈ rest.foldl (fun sorted x => insertFromRight less x sorted) acc ↔
        y ∈ acc ∨ y ∈ rest) ∧
      (rest.foldl (fun sorted x => insertFromRight less x sorted) acc).Pairwise
        (fun a b => less a b = false) := by
    intro rest
    induction rest with
    | nil =>
      intro acc _ _ hsorted
      exact ⟨fun y => by simp, hsorted⟩
    | cons x xs ih =>
      intro acc hrest hacc hsorted
      have hx : x ∈ l := hrest x (List.mem_cons_self _ _)
      have hacc' : ∀ y ∈ insertFromRight less x acc, y ∈ l := by
        intro y hy
        rcases (mem_insertFromRight less x y acc).1 hy with hy | hy
        · rw [hy]; exact hx
        · exact hacc y hy
      obtain ⟨h1, h2⟩ := ih (insertFromRight less x acc)
        (fun y hy => hrest y (List.mem_cons_of_mem _ hy)) hacc'
        (insertFromRight_pairwise less x acc
          (fun y hy => hasymm x hx y (hacc y hy))
          (fun y hy z hz => htrans x hx y (hacc y hy) z (hacc z hz)) hsorted)
      refine ⟨?_, h2⟩
      intro y
      rw [List.foldl_cons, h1, mem_insertFromRight, List.mem_cons]
      tauto
  obtain ⟨h1, h2⟩ := hgen l [] (fun _ h => h) (fun _ h => by cases h) List.Pairwise.nil
  refine ⟨?_, h2⟩
  intro y
  unfold sortSliceDescending
  rw [h1]
  simp

/-- The release `FindLatest` returns, when the comparison orders the matching releases
consistently: none when no release matches, else a matching release that is less than no other
matching release. -/
theorem FindLatest_spec (rs : List Release) (constraint : semver.Constraints)
    (hasymm : ∀ a ∈ rs, ∀ b ∈ rs, satisfiesConstraint constraint a = true →
      satisfiesConstraint constraint b = true → releaseLess a b = true → releaseLess b a = false)
    (htrans : ∀ a ∈ rs, ∀ b ∈ rs, ∀ c ∈ rs, satisfiesConstraint constraint a = true →
      satisfiesConstraint constraint b = true → satisfiesConstraint constraint c = true →
      releaseLess a b = false → releaseLess b c = false → releaseLess a c = false)
    (hsome : ∃ r ∈ rs, satisfiesConstraint constraint r = true) :
    ∃ latest, releaseSet.FindLatest rs constraint = some latest ∧ latest ∈ rs ∧
      satisfiesConstraint constraint latest = true ∧
      ∀ r ∈ rs, satisfiesConstraint constraint r = true → releaseLess latest r = false := by
  obtain ⟨hmem, hsorted⟩ := sortSliceDescending_sorted releaseLess
    (rs.filter (satisfiesConstraint constraint))
    (fun a ha b hb => hasymm a (List.mem_filter.1 ha).1 b (List.mem_filter.1 hb).1
      (List.mem_filter.1 ha).2 (List.mem_filter.1 hb).2)
    (fun a ha b hb c hc => htrans a (List.mem_filter.1 ha).1 b (List.mem_filter.1 hb).1
      c (List.mem_filter.1 hc).1 (List.mem_filter.1 ha).2 (List.mem_filter.1 hb).2
      (List.mem_filter.1 hc).2)
  unfold releaseSet.FindLatest
  cases hsort : sortSliceDescending releaseLess (rs.filter (satisfiesConstraint constraint)) with
  | nil =>
    obtain ⟨r, hr, hsat⟩ := hsome
    have : r ∈ sortSliceDescending releaseLess (rs.filter (satisfiesConstraint constraint)) :=
      (hmem r).2 (List.mem_filter.2 ⟨hr, hsat⟩)
    rw [hsort] at this
    cases this
  | cons latest rest =>
    rw [hsort] at hsorted hmem
    have hlatest := List.mem_filter.1 ((hmem latest).1 (List.mem_cons_self _ _))
    refine ⟨latest, rfl, hlatest.1, hlatest.2, ?_⟩
    intro r hr hsat
    have hr' : r ∈ latest :: rest := (hmem r).2 (List.mem_filter.2 ⟨hr, hsat⟩)
    rcases List.mem_cons.1 hr' with hr' | hr'
    · rw [hr']
      cases hless : releaseLess latest latest with
      | false => rfl
      | true =>
        have := hasymm latest hlatest.1 latest hlatest.1 hlatest.2 hlatest.2 hless
        rw [hless] at this
        cases this
    · exact (List.pairwise_cons.1 hsorted).1 r hr'

/-- Among versions without prerelease, `LessThan` is the order of the three numbers. -/
theorem LessThan_of_no_prerelease (v1 v2 : semver.Version) (h1 : v1.pre = "") (h2 : v2.pre = "") :
    v1.LessThan v2 = true ↔
      v1.major < v2.major ∨ (v1.major = v2.major ∧
        (v1.minor < v2.minor ∨ (v1.minor = v2.minor ∧ v1.patch < v2.patch))) := by
  unfold semver.Version.LessThan semver.Version.Compare semver.compareSegment
  simp only [h1, h2, and_self, if_true, decide_eq_true_eq]
  split_ifs <;> simp_all <;> omega

/-- A version that satisfies a tilde constraint without prerelease has no prerelease. -/
theorem tilde_check_no_prerelease (major minor : Nat) (v : semver.Version)
    (h : semver.Constraints.Check
      [{ op := semver.Operator.tilde, con := semver.constraintVersion major minor 0 "" }] v = true) :
    v.pre = "" := by
  unfold semver.Constraints.Check semver.Constraint.check at h
  by_cases hp : v.pre = ""
  · exact hp
  · simp [hp] at h

/-- The releases that satisfy a tilde constraint without prerelease parse to versions without
prerelease. -/
theorem satisfies_tilde (major minor : Nat) (r : Release)
    (h : satisfiesConstraint
      [{ op := semver.Operator.tilde, con := semver.constraintVersion major minor 0 "" }] r = true) :
    ∃ v, semver.NewVersion r.Version = Except.ok v ∧ v.pre = "" := by
  unfold satisfiesConstraint at h
  cases hv : semver.NewVersion r.Version with
  | error e => simp [hv] at h
  | ok v =>
    simp only [hv] at h
    exact ⟨v, rfl, tilde_check_no_prerelease major minor v h⟩

/-- A version satisfies the constraint `~M.m.0`, for `M.m` other than 0.0, exactly when it has
no prerelease, the major number `M` and the minor number `m`. -/
theorem tilde_check_iff (major minor : Nat) (hnonzero : major ≠ 0 ∨ minor ≠ 0)
    (v : semver.Version) :
    semver.Constraints.Check
      [{ op := semver.Operator.tilde, con := semver.constraintVersion major minor 0 "" }] v =
        true ↔
      v.pre = "" ∧ v.major = major ∧ v.minor = minor := by
  by_cases hp : v.pre = ""
  · have hless : v.LessThan (semver.constraintVersion major minor 0 "") = true ↔
        v.major < major ∨ (v.major = major ∧ (v.minor < minor ∨ (v.minor = minor ∧
          v.patch < 0))) :=
      LessThan_of_no_prerelease v _ hp rfl
    unfold semver.Constraints.Check semver.Constraint.check
    simp only [hp, List.all_cons, List.all_nil, Bool.and_true, ne_eq, not_true_eq_false,
      false_and, if_false, true_and]
    by_cases hlt : v.LessThan (semver.constraintVersion major minor 0 "") = true
    · rw [if_pos hlt]
      have := hless.1 hlt
      constructor
      · intro h
        cases h
      · intro h
        omega
    · rw [if_neg hlt]
      have hnot : ¬ (v.major < major ∨ (v.major = major ∧ (v.minor < minor ∨
          (v.minor = minor ∧ v.patch < 0)))) := fun h => hlt (hless.2 h)
      have hzero : ¬ (major = 0 ∧ minor = 0 ∧ True) := by
        simp only [and_true]
        omega
      rw [if_neg hzero]
      by_cases h1 : v.major = major
      · by_cases h2 : v.minor = minor
        · simp [h1, h2]
        · simp [h1, h2]
      · simp [h1]
  · simp [semver.Constraints.Check, semver.Constraint.check, hp]

/-- C17: for a version that is not GA `eogsDate` returns the empty text. For a GA version
`M.m.p`, when some published release has a version that satisfies the constraint `~M.m.0`,
one of those releases has a version whose numbers (major, minor, patch, in this order) are
not below those of the version of any other of them, and `eogsDate` returns its
EndOfSupportDate when that is not empty. For `M.m` other than 0.0 the releases that satisfy
the constraint are those whose Version is a version without prerelease, with the major number
`M` and the minor number `m`. -/
theorem eogsDate_latest_patch (now : Time) (rv : releaseVersion) (releases : List Release) :
    (rv.IsGA = false → eogsDate isPrint now rv releases = Except.ok "") ∧
    (rv.IsGA = true →
      (∃ r ∈ releases, satisfiesConstraint
        [{ op := semver.Operator.tilde,
           con := semver.constraintVersion rv.semver.major rv.semver.minor 0 "" }] r = true) →
      ∃ latest ∈ releases, ∃ greatest : semver.Version,
        semver.NewVersion latest.Version = Except.ok greatest ∧
        satisfiesConstraint
          [{ op := semver.Operator.tilde,
             con := semver.constraintVersion rv.semver.major rv.semver.minor 0 "" }]
          latest = true ∧
        (∀ r ∈ releases, satisfiesConstraint
            [{ op := semver.Operator.tilde,
               con := semver.constraintVersion rv.semver.major rv.semver.minor 0 "" }]
            r = true →
          ∃ v : semver.Version, semver.NewVersion r.Version = Except.ok v ∧
            (v.major < greatest.major ∨ (v.major = greatest.major ∧
              (v.minor < greatest.minor ∨
                (v.minor = greatest.minor ∧ v.patch ≤ greatest.patch))))) ∧
        (latest.EndOfSupportDate ≠ "" →
          eogsDate isPrint now rv releases = Except.ok latest.EndOfSupportDate)) ∧
    (rv.semver.major ≠ 0 ∨ rv.semver.minor ≠ 0 →
      ∀ r : Release,
        satisfiesConstraint
          [{ op := semver.Operator.tilde,
             con := semver.constraintVersion rv.semver.major rv.semver.minor 0 "" }] r = true ↔
        ∃ v : semver.Version, semver.NewVersion r.Version = Except.ok v ∧ v.pre = "" ∧
          v.major = rv.semver.major ∧ v.minor = rv.semver.minor) := by
  refine ⟨?_, ?_, ?_⟩
  · intro hga
    simp [eogsDate, hga]
  · intro hga hsome
    have hless : ∀ a b : Release,
        satisfiesConstraint
          [⟨semver.Operator.tilde,
            semver.constraintVersion rv.semver.major rv.semver.minor 0 ""⟩] a = true →
        satisfiesConstraint
          [⟨semver.Operator.tilde,
            semver.constraintVersion rv.semver.major rv.semver.minor 0 ""⟩] b = true →
        ∃ va vb : semver.Version, (releaseLess a b = true ↔
          va.major < vb.major ∨ (va.major = vb.major ∧
            (va.minor < vb.minor ∨ (va.minor = vb.minor ∧ va.patch < vb.patch)))) ∧
          semver.NewVersion a.Version = Except.ok va ∧
          semver.NewVersion b.Version = Except.ok vb := by
      intro a b ha hb
      obtain ⟨va, hva, hpa⟩ := satisfies_tilde _ _ a ha
      obtain ⟨vb, hvb, hpb⟩ := satisfies_tilde _ _ b hb
      refine ⟨va, vb, ?_, hva, hvb⟩
      unfold releaseLess
      rw [hva, hvb]
      exact LessThan_of_no_prerelease va vb hpa hpb
    obtain ⟨latest, hfind, hmem, hsat, hmax⟩ := FindLatest_spec releases
      [⟨semver.Operator.tilde, semver.constraintVersion rv.semver.major rv.semver.minor 0 ""⟩]
      (by
        intro a _ b _ ha hb hab
        obtain ⟨va, vb, h1, hva, hvb⟩ := hless a b ha hb
        obtain ⟨vb', va', h2, hvb', hva'⟩ := hless b a hb ha
        rw [hva] at hva'
        rw [hvb] at hvb'
        cases hva'
        cases hvb'
        cases hba : releaseLess b a with
        | false => rfl
        | true =>
          have := h1.1 hab
          have := h2.1 hba
          omega)
      (by
        intro a _ b _ c _ ha hb hc hab hbc
        obtain ⟨va, vb, h1, hva, hvb⟩ := hless a b ha hb
        obtain ⟨vb', vc, h2, hvb', hvc⟩ := hless b c hb hc
        obtain ⟨va', vc', h3, hva', hvc'⟩ := hless a c ha hc
        rw [hva] at hva'
        rw [hvb] at hvb'
        rw [hvc] at hvc'
        cases hva'
        cases hvb'
        cases hvc'
        cases hac : releaseLess a c with
        | false => rfl
        | true =>
          have h1' : ¬ _ := fun h => by rw [h1.2 h] at hab; cases hab
          have h2' : ¬ _ := fun h => by rw [h2.2 h] at hbc; cases hbc
          have := h3.1 hac
          omega)
      hsome
    obtain ⟨greatest, hgreatest, _⟩ := satisfies_tilde _ _ latest hsat
    refine ⟨latest, hmem, greatest, hgreatest, hsat, ?_, ?_⟩
    · intro r hr hrsat
      obtain ⟨vl, v, hiff, hvl, hv⟩ := hless latest r hsat hrsat
      rw [hgreatest] at hvl
      cases hvl
      refine ⟨v, hv, ?_⟩
      have hnot : ¬ (greatest.major < v.major ∨ (greatest.major = v.major ∧
          (greatest.minor < v.minor ∨ (greatest.minor = v.minor ∧
            greatest.patch < v.patch)))) := by
        intro h
        have := hiff.2 h
        rw [hmax r hr hrsat] at this
        cases this
      omega
    · intro hdate
      unfold eogsDate releaseVersion.MajorMinorConstraint
      rw [hga]
      simp only [if_true]
      rw [hfind]
      simp [hdate]
  · intro hnonzero r
    unfold satisfiesConstraint
    cases hv : semver.NewVersion r.Version with
    | error e => simp
    | ok v =>
      simp only [tilde_check_iff _ _ hnonzero v, Except.ok.injEq, exists_eq_left']

/-- A publish of 2.1.6 with the patch releases 2.1.3, 2.1.5 and 2.1.4 on Pivnet, in this order,
next to releases of 2.0 and 2.2 and a release candidate of 2.1.6: the date is that of 2.1.5.
A version that is not GA has no such date. -/
theorem eogsDate_latest_patch_witness :
    (∃ latest ∈ severalPatchReleases, ∃ greatest : semver.Version,
      semver.NewVersion latest.Version = Except.ok greatest ∧
      satisfiesConstraint
        [{ op := semver.Operator.tilde, con := semver.constraintVersion 2 1 0 "" }]
        latest = true ∧
      (∀ r ∈ severalPatchReleases, satisfiesConstraint
          [{ op := semver.Operator.tilde, con := semver.constraintVersion 2 1 0 "" }]
          r = true →
        ∃ v : semver.Version, semver.NewVersion r.Version = Except.ok v ∧
          (v.major < greatest.major ∨ (v.major = greatest.major ∧
            (v.minor < greatest.minor ∨
              (v.minor = greatest.minor ∧ v.patch ≤ greatest.patch))))) ∧
      (latest.EndOfSupportDate ≠ "" →
        eogsDate testPrintable testNow gaSixthPatchVersion severalPatchReleases =
          Except.ok latest.EndOfSupportDate)) ∧
    eogsDate testPrintable testNow gaSixthPatchVersion severalPatchReleases =
      Except.ok "2019-05-05" ∧
    (releaseSet.FindLatest severalPatchReleases
      [{ op := semver.Operator.tilde, con := semver.constraintVersion 2 1 0 "" }]).map
        (fun r => r.Version) = some "2.1.5" ∧
    eogsDate testPrintable testNow rcReleaseVersion severalPatchReleases = Except.ok "" :=
  ⟨(@eogsDate_latest_patch testPrintable testNow gaSixthPatchVersion severalPatchReleases).2.1
      rfl ⟨releaseOnPivnet 3 "2.1.3" "2019-03-03", by decide, rfl⟩,
    rfl, rfl,
    (@eogsDate_latest_patch testPrintable testNow rcReleaseVersion severalPatchReleases).1 rfl⟩

/-! ### Decimal numbers in texts -/

theorem digitChar_facts : ∀ k < 10, (Nat.digitChar k).isDigit = true ∧
    (Nat.digitChar k).toNat - 48 = k ∧ Nat.digitChar k ≠ '.' ∧ Nat.digitChar k ≠ '-' ∧
    Nat.digitChar k ≠ '+' ∧ semver.isIdentifierChar (Nat.digitChar k) = true := by
  decide

theorem toDigitsCore_all (P : Char → Prop) (hP : ∀ k < 10, P (Nat.digitChar k)) (fuel n : Nat)
    (ds : List Char) (hds : ∀ c ∈ ds, P c) : ∀ c ∈ Nat.toDigitsCore 10 fuel n ds, P c := by
  induction fuel generalizing n ds with
  | zero => simpa [Nat.toDigitsCore] using hds
  | succ fuel ih =>
    have hcons : ∀ c ∈ Nat.digitChar (n % 10) :: ds, P c := by
      intro c hc
      rcases List.mem_cons.1 hc with hc | hc
      · rw [hc]; exact hP _ (Nat.mod_lt _ (by decide))
      · exact hds c hc
    unfold Nat.toDigitsCore
    by_cases h : n / 10 = 0
    · simpa [h] using hcons
    · simp only [h, if_false]
      exact ih (n / 10) _ hcons

theorem toDigitsCore_ne_nil (fuel n : Nat) (ds : List Char) (hfuel : 0 < fuel) :
    Nat.toDigitsCore 10 fuel n ds ≠ [] := by
  induction fuel generalizing n ds with
  | zero => exact absurd hfuel (by decide)
  | succ fuel ih =>
    unfold Nat.toDigitsCore
    by_cases h : n / 10 = 0
    · simp [h]
    · simp only [h, if_false]
      cases fuel with
      | zero => simp [Nat.toDigitsCore]
      | succ f => exact ih (n / 10) _ (Nat.succ_pos _)

theorem foldDigits_toDigitsCore (fuel n : Nat) (ds : List Char) (hfuel : n < fuel) :
    foldDigits 0 (Nat.toDigitsCore 10 fuel n ds) = foldDigits n ds := by
  induction fuel generalizing n ds with
  | zero => exact absurd hfuel (Nat.not_lt_zero _)
  | succ fuel ih =>
    have hd := (digitChar_facts (n % 10) (Nat.mod_lt _ (by decide))).2.1
    have hcons : ∀ acc : Nat, foldDigits acc (Nat.digitChar (n % 10) :: ds) =
        foldDigits (acc * 10 + n % 10) ds := by
      intro acc
      show foldDigits (acc * 10 + ((Nat.digitChar (n % 10)).toNat - 48)) ds = _
      rw [hd]
    show foldDigits 0 (if n / 10 = 0 then Nat.digitChar (n % 10) :: ds
      else Nat.toDigitsCore 10 fuel (n / 10) (Nat.digitChar (n % 10) :: ds)) = foldDigits n ds
    by_cases h : n / 10 = 0
    · rw [if_pos h, hcons]
      congr 1
      omega
    · rw [if_neg h, ih (n / 10) _ (by omega), hcons]
      congr 1
      omega

/-- The decimal text of a number: its characters are decimal digits, and it is read back as the
number. -/
theorem toString_nat_digits (n : Nat) :
    (toString n).data ≠ [] ∧ (∀ c ∈ (toString n).data, c.isDigit = true) ∧
    (∀ c ∈ (toString n).data, c ≠ '.' ∧ c ≠ '-' ∧ c ≠ '+' ∧
      semver.isIdentifierChar c = true) ∧
    parseDigits (toString n).data = some n := by
  have hdata : (toString n).data = Nat.toDigitsCore 10 (n + 1) n [] := rfl
  rw [hdata]
  have hne := toDigitsCore_ne_nil (n + 1) n [] (Nat.succ_pos _)
  have hdig : ∀ c ∈ Nat.toDigitsCore 10 (n + 1) n [], c.isDigit = true :=
    toDigitsCore_all (fun c => c.isDigit = true) (fun k hk => (digitChar_facts k hk).1)
      (n + 1) n [] (fun c hc => by cases hc)
  refine ⟨hne, hdig, ?_, ?_⟩
  · exact toDigitsCore_all
      (fun c => c ≠ '.' ∧ c ≠ '-' ∧ c ≠ '+' ∧ semver.isIdentifierChar c = true)
      (fun k hk => (digitChar_facts k hk).2.2) (n + 1) n [] (fun c hc => by cases hc)
  · unfold parseDigits
    have hall : (Nat.toDigitsCore 10 (n + 1) n []).all Char.isDigit = true :=
      List.all_eq_true.2 hdig
    rw [if_pos ⟨hne, hall⟩, foldDigits_toDigitsCore (n + 1) n [] (Nat.lt_succ_self n)]
    rfl

theorem toString_nat_injective (a b : Nat) (h : toString a = toString b) : a = b := by
  have ha := (toString_nat_digits a).2.2.2
  have hb := (toString_nat_digits b).2.2.2
  rw [h, hb] at ha
  exact (Option.some.inj ha).symm

theorem splitSign_of_digit (c : Char) (cs : List Char) (h1 : c ≠ '-') (h2 : c ≠ '+') :
    splitSign (c :: cs) = (false, c :: cs) := by
  unfold splitSign
  split
  · rename_i heq
    simp only [List.cons.injEq] at heq
    exact absurd heq.1 h1
  · rename_i heq
    simp only [List.cons.injEq] at heq
    exact absurd heq.1 h2
  · rfl

/-- The function `strconv.ParseInt` reads the decimal text of a number below 2^63 back. -/
theorem parseInt64_toString (n : Nat) (hn : n < 2 ^ 63) :
    parseInt64 (toString n) = some (n : Int) := by
  obtain ⟨hne, _, hchars, hparse⟩ := toString_nat_digits n
  have hsign : splitSign (toString n).data = (false, (toString n).data) := by
    cases hdata : (toString n).data with
    | nil => exact absurd hdata hne
    | cons c cs =>
      have hc := hchars c (by rw [hdata]; exact List.mem_cons_self _ _)
      exact splitSign_of_digit c cs hc.2.1 hc.2.2.1
  unfold parseInt64
  rw [hsign]
  simp only [hparse]
  have h1 : -(2 : Int) ^ 63 ≤ (n : Int) := by
    have : (0 : Int) ≤ (n : Int) := Int.ofNat_nonneg n
    have : -(2 : Int) ^ 63 ≤ 0 := by norm_num
    omega
  have h2 : (n : Int) < (2 : Int) ^ 63 := by exact_mod_cast hn
  have hvalue : (if (false, (toString n).data).1 = true then -(n : Int) else (n : Int)) =
      (n : Int) := by simp
  simp only [hvalue]
  rw [if_pos ⟨h1, h2⟩]

/-! ### Splitting at dots -/

theorem splitOnChar_of_not_mem (sep : Char) (cs : List Char) (h : sep ∉ cs) :
    splitOnChar sep cs = [cs] := by
  induction cs with
  | nil => rfl
  | cons c cs ih =>
    have hc : c ≠ sep := fun hc => h (hc ▸ List.mem_cons_self _ _)
    have hcs : sep ∉ cs := fun hmem => h (List.mem_cons_of_mem _ hmem)
    unfold splitOnChar
    rw [if_neg hc, ih hcs]

theorem splitOnChar_append (sep : Char) (xs ys : List Char) (h : sep ∉ xs) :
    splitOnChar sep (xs ++ sep :: ys) = xs :: splitOnChar sep ys := by
  induction xs with
  | nil => simp [splitOnChar]
  | cons c cs ih =>
    have hc : c ≠ sep := fun hc => h (hc ▸ List.mem_cons_self _ _)
    have hcs : sep ∉ cs := fun hmem => h (List.mem_cons_of_mem _ hmem)
    rw [List.cons_append]
    conv_lhs => unfold splitOnChar
    simp only [hc, if_false, ih hcs]

/-- The prerelease text `<window>.<number>` splits into the window and the number. -/
theorem splitDots_window_number (window : String) (n : Nat) (hw : '.' ∉ window.data) :
    splitDots (window ++ "." ++ toString n) = [window, toString n] := by
  have hdigits : '.' ∉ (toString n).data := fun hmem =>
    ((toString_nat_digits n).2.2.1 '.' hmem).1 rfl
  unfold splitDots
  have hdata : (window ++ "." ++ toString n).data = window.data ++ '.' :: (toString n).data := by
    simp [String.data_append]
  rw [hdata, splitOnChar_append '.' _ _ hw, splitOnChar_of_not_mem '.' _ hdigits]
  rfl

/-! ### Prerelease numbers -/

theorem window_number_ne_empty (window : String) (n : Nat) :
    window ++ "." ++ toString n ≠ "" := by
  intro h
  have hdata := congrArg String.data h
  simp [String.data_append] at hdata

/-- The function `strconv.ParseUint` reads the decimal text of a number below 2^64 back. -/
theorem parseUint64_toString (n : Nat) (hn : n < 2 ^ 64) :
    parseUint64 (toString n) = some n := by
  unfold parseUint64
  rw [(toString_nat_digits n).2.2.2]
  simp only [hn, if_true]

/-- A text that `strconv.ParseUint` reads as a number below 2^63 is read as the same number by
`strconv.Atoi`. -/
theorem parseInt64_of_parseUint64 (s : String) (n : Nat) (h : parseUint64 s = some n)
    (hn : n < 2 ^ 63) : parseInt64 s = some (n : Int) := by
  unfold parseUint64 at h
  cases hd : parseDigits s.data with
  | none => simp [hd] at h
  | some m =>
    simp only [hd] at h
    have hmn : m = n := by
      split_ifs at h
      exact Option.some.inj h
    subst hmn
    have hdigits : s.data ≠ [] ∧ s.data.all Char.isDigit = true := by
      unfold parseDigits at hd
      by_contra hcon
      rw [if_neg hcon] at hd
      cases hd
    have hsign : splitSign s.data = (false, s.data) := by
      cases hdata : s.data with
      | nil => exact absurd hdata hdigits.1
      | cons c cs =>
        have hc : c.isDigit = true := by
          have := List.all_eq_true.1 hdigits.2 c (by rw [hdata]; exact List.mem_cons_self _ _)
          exact this
        apply splitSign_of_digit
        · intro hcm
          rw [hcm] at hc
          exact absurd hc (by decide)
        · intro hcp
          rw [hcp] at hc
          exact absurd hc (by decide)
    unfold parseInt64
    rw [hsign]
    simp only [hd]
    have h1 : -(2 : Int) ^ 63 ≤ (m : Int) := by
      have : (0 : Int) ≤ (m : Int) := Int.ofNat_nonneg m
      have : -(2 : Int) ^ 63 ≤ 0 := by norm_num
      omega
    have h2 : (m : Int) < (2 : Int) ^ 63 := by exact_mod_cast hn
    have hvalue : (if (false, s.data).1 = true then -(m : Int) else (m : Int)) = (m : Int) := by
      simp
    simp only [hvalue]
    rw [if_pos ⟨h1, h2⟩]

/-- Two prerelease texts `<window>.<number>` of the same window compare as their numbers. -/
theorem comparePrerelease_numbers (window : String) (a b : Nat) (hw : '.' ∉ window.data)
    (ha : a < 2 ^ 64) (hb : b < 2 ^ 64) :
    semver.comparePrerelease (window ++ "." ++ toString a) (window ++ "." ++ toString b) =
      if a = b then 0 else if a > b then 1 else -1 := by
  unfold semver.comparePrerelease
  rw [splitDots_window_number window a hw, splitDots_window_number window b hw]
  have hww : semver.comparePrePart window window = 0 := by
    unfold semver.comparePrePart
    rw [if_pos rfl]
  have hne : ∀ n : Nat, toString n ≠ "" := by
    intro n h
    exact (toString_nat_digits n).1 (by rw [h])
  have hpart : semver.comparePrePart (toString a) (toString b) =
      if a = b then 0 else if a > b then 1 else -1 := by
    unfold semver.comparePrePart
    by_cases hab : a = b
    · rw [hab, if_pos rfl, if_pos rfl]
    · have hstr : toString a ≠ toString b := fun h => hab (toString_nat_injective a b h)
      rw [if_neg hstr, if_neg (hne a), if_neg (hne b), parseUint64_toString a (by omega),
        parseUint64_toString b (by omega), if_neg hab]
  show (if semver.comparePrePart window window ≠ 0 then semver.comparePrePart window window
    else if semver.comparePrePart (toString a) (toString b) ≠ 0 then
      semver.comparePrePart (toString a) (toString b)
    else 0) = _
  rw [hww, hpart]
  by_cases hab : a = b
  · simp [hab]
  · by_cases hgt : a > b <;> simp [hab, hgt]

/-- Two versions of the same numbers with prerelease texts `<window>.<number>` of the same
window compare as their prerelease numbers. -/
theorem Compare_window_numbers (major minor patch : Nat) (window : String) (a b : Nat)
    (ma mb oa ob : String) (hw : '.' ∉ window.data) (ha : a < 2 ^ 64) (hb : b < 2 ^ 64) :
    semver.Version.Compare ⟨major, minor, patch, window ++ "." ++ toString a, ma, oa⟩
        ⟨major, minor, patch, window ++ "." ++ toString b, mb, ob⟩ =
      if a = b then 0 else if a > b then 1 else -1 := by
  unfold semver.Version.Compare semver.compareSegment
  simp only [Nat.lt_irrefl, gt_iff_lt, if_false, ne_eq, not_true_eq_false,
    window_number_ne_empty, false_and]
  exact comparePrerelease_numbers window a b hw ha hb

theorem window_zero (window : String) :
    window ++ ".0" = window ++ "." ++ toString 0 ∧
    window ++ ".9999" = window ++ "." ++ toString 9999 := by
  constructor <;> rw [String.append_assoc] <;> rfl

/-- A version `M.m.p-w.k` with `k` up to 9999 satisfies the prerelease constraint of `M.m.p` and
the window `w`. -/
theorem prerelease_constraint_check (major minor patch : Nat) (window : String) (k : Nat)
    (metadata original : String) (hw : '.' ∉ window.data) (hk : k ≤ 9999) :
    semver.Constraints.Check
      [{ op := semver.Operator.greaterThanEqual,
         con := semver.constraintVersion major minor patch (window ++ ".0") },
       { op := semver.Operator.lessThanEqual,
         con := semver.constraintVersion major minor patch (window ++ ".9999") }]
      ⟨major, minor, patch, window ++ "." ++ toString k, metadata, original⟩ = true := by
  rw [(window_zero window).1, (window_zero window).2]
  have h0 := Compare_window_numbers major minor patch window k 0 metadata "" original
    (semver.constraintVersion major minor patch (window ++ "." ++ toString 0)).original hw
    (by omega) (by norm_num)
  have h9 := Compare_window_numbers major minor patch window k 9999 metadata "" original
    (semver.constraintVersion major minor patch (window ++ "." ++ toString 9999)).original hw
    (by omega) (by norm_num)
  unfold semver.Constraints.Check semver.Constraint.check
  simp only [List.all_cons, List.all_nil, Bool.and_true, window_number_ne_empty, ne_eq,
    not_false_eq_true, and_false, if_false, h0, h9, Bool.and_eq_true, decide_eq_true_eq]
  constructor
  · by_cases hk0 : k = 0
    · simp [hk0]
    · have : k > 0 := Nat.pos_of_ne_zero hk0
      simp [hk0, this]
  · by_cases hk9 : k = 9999
    · simp [hk9]
    · have : ¬ k > 9999 := by omega
      simp [hk9, this]

/-- Releases with versions `M.m.p-w.a` and `M.m.p-w.b` are ordered by `a` and `b`. -/
theorem releaseLess_window_numbers (r1 r2 : Release) (major minor patch : Nat)
    (window : String) (a b : Nat) (ma mb oa ob : String) (hw : '.' ∉ window.data)
    (ha : a ≤ 9999) (hb : b ≤ 9999)
    (h1 : semver.NewVersion r1.Version =
      Except.ok ⟨major, minor, patch, window ++ "." ++ toString a, ma, oa⟩)
    (h2 : semver.NewVersion r2.Version =
      Except.ok ⟨major, minor, patch, window ++ "." ++ toString b, mb, ob⟩) :
    releaseLess r1 r2 = true ↔ a < b := by
  unfold releaseLess
  rw [h1, h2]
  simp only [semver.Version.LessThan, decide_eq_true_eq]
  rw [Compare_window_numbers major minor patch window a b ma mb oa ob hw (by omega) (by omega)]
  by_cases hab : a = b
  · simp [hab]
  · by_cases hgt : a > b
    · simp only [hab, hgt, if_false, if_true]
      constructor
      · intro h; norm_num at h
      · intro h; omega
    · simp only [hab, hgt, if_false]
      constructor
      · intro _; omega
      · intro _; norm_num

theorem wrapInt64_of_small (i : Int) (h0 : 0 ≤ i) (h1 : i < 2 ^ 63) : wrapInt64 i = i := by
  unfold wrapInt64
  have hpow : (2 : Int) ^ 64 = 2 ^ 63 + 2 ^ 63 := by norm_num
  rw [Int.emod_eq_of_lt (by omega) (by omega)]
  omega

theorem toString_int_ofNat (n : Nat) : toString ((n : Nat) : Int) = toString n := rfl

/-- The prerelease text `<window>.<number>` is valid for a valid window without dots. -/
theorem validIdentifiers_window_number (window : String) (n : Nat) (hw : '.' ∉ window.data)
    (hvalid : semver.validIdentifiers window.data = true) :
    semver.validIdentifiers (window ++ "." ++ toString n).data = true := by
  obtain ⟨hne, _, hchars, _⟩ := toString_nat_digits n
  have hdigits : '.' ∉ (toString n).data := fun hmem => (hchars '.' hmem).1 rfl
  have hdata : (window ++ "." ++ toString n).data = window.data ++ '.' :: (toString n).data := by
    simp [String.data_append]
  unfold semver.validIdentifiers at hvalid ⊢
  rw [splitOnChar_of_not_mem '.' _ hw] at hvalid
  rw [hdata, splitOnChar_append '.' _ _ hw, splitOnChar_of_not_mem '.' _ hdigits]
  simp only [List.all_cons, List.all_nil, Bool.and_true] at hvalid ⊢
  rw [hvalid, Bool.true_and, Bool.and_eq_true]
  constructor
  · cases hd : (toString n).data with
    | nil => exact absurd hd hne
    | cons c cs => rfl
  · exact List.all_eq_true.2 (fun c hc => (hchars c hc).2.2.2)

/-- The published version `M.m.p-w.k` is read back as the window `w` and the number `k`. -/
theorem ReleaseVersionFromPublishedVersion_window_number (text : String)
    (major minor patch : Nat) (window : String) (k : Nat) (metadata original : String)
    (hw : '.' ∉ window.data) (hk : k ≤ 9999)
    (hparse : semver.NewVersion text =
      Except.ok ⟨major, minor, patch, window ++ "." ++ toString k, metadata, original⟩) :
    ReleaseVersionFromPublishedVersion isPrint text =
      Except.ok { semver := ⟨major, minor, patch, window ++ "." ++ toString k, metadata,
                    original⟩,
                  window := window, prereleaseVersion := (k : Int) } := by
  unfold ReleaseVersionFromPublishedVersion
  rw [hparse]
  simp only [splitDots_window_number window k hw, List.length_cons, List.length_nil,
    ne_eq, not_true_eq_false, if_false, List.headD_cons, List.getLastD_cons,
    List.getLastD_nil, parseInt64_toString k (by omega)]

/-! ### `determineVersion` -/

/-- C16 (as amended): for a window `w` among alpha, beta and rc and the version `M.m.p`, when
every published release whose version satisfies the constraint `>= M.m.p-w.0, <= M.m.p-w.9999`
has a version `M.m.p-w.k` with `k` up to 9999, at least one such release is published, and `K`
is the largest such `k`, `determineVersion` returns `M.m.p-w.(K+1)` with the prerelease number
`K+1`, for every order of the releases. -/
theorem determineVersion_increments (releases : List Release) (rv : releaseVersion) (K : Nat)
    (hw : rv.window = "alpha" ∨ rv.window = "beta" ∨ rv.window = "rc") (hK : K ≤ 9999)
    (hform : ∀ r ∈ releases,
      satisfiesConstraint
        [{ op := semver.Operator.greaterThanEqual,
           con := semver.constraintVersion rv.semver.major rv.semver.minor rv.semver.patch
                    (rv.window ++ ".0") },
         { op := semver.Operator.lessThanEqual,
           con := semver.constraintVersion rv.semver.major rv.semver.minor rv.semver.patch
                    (rv.window ++ ".9999") }] r = true →
      ∃ k metadata, k ≤ 9999 ∧ semver.NewVersion r.Version =
        Except.ok ⟨rv.semver.major, rv.semver.minor, rv.semver.patch,
          rv.window ++ "." ++ toString k, metadata, r.Version⟩)
    (hex : ∃ r ∈ releases, ∃ metadata, semver.NewVersion r.Version =
      Except.ok ⟨rv.semver.major, rv.semver.minor, rv.semver.patch,
        rv.window ++ "." ++ toString K, metadata, r.Version⟩)
    (hmax : ∀ r ∈ releases, ∀ k metadata, k ≤ 9999 →
      semver.NewVersion r.Version =
        Except.ok ⟨rv.semver.major, rv.semver.minor, rv.semver.patch,
          rv.window ++ "." ++ toString k, metadata, r.Version⟩ → k ≤ K) :
    determineVersion isPrint releases rv =
      Except.ok { semver := ⟨rv.semver.major, rv.semver.minor, rv.semver.patch,
                    rv.window ++ "." ++ toString (K + 1), rv.semver.metadata,
                    rv.semver.originalVPrefix ++ semver.Version.str
                      { rv.semver with pre := rv.window ++ "." ++ toString (K + 1) }⟩,
                  window := rv.window, prereleaseVersion := ((K + 1 : Nat) : Int) } := by
  have hfacts : '.' ∉ rv.window.data ∧ semver.validIdentifiers rv.window.data = true ∧
      (rv.window == "ga") = false := by
    rcases hw with h | h | h <;> rw [h] <;> decide
  obtain ⟨hdot, hvalid, hga⟩ := hfacts
  have hga' : rv.IsGA = false := hga
  have hsat : ∀ r : Release, ∀ k metadata, k ≤ 9999 →
      semver.NewVersion r.Version =
        Except.ok ⟨rv.semver.major, rv.semver.minor, rv.semver.patch,
          rv.window ++ "." ++ toString k, metadata, r.Version⟩ →
      satisfiesConstraint
        [⟨semver.Operator.greaterThanEqual,
          semver.constraintVersion rv.semver.major rv.semver.minor rv.semver.patch (rv.window ++ ".0")⟩,
         ⟨semver.Operator.lessThanEqual,
          semver.constraintVersion rv.semver.major rv.semver.minor rv.semver.patch (rv.window ++ ".9999")⟩]
        r = true := by
    intro r k metadata hk hparse
    unfold satisfiesConstraint
    rw [hparse]
    exact prerelease_constraint_check _ _ _ _ k metadata _ hdot hk
  obtain ⟨r0, hr0, meta0, hparse0⟩ := hex
  obtain ⟨latest, hfind, hmem, hsatl, hgreatest⟩ := FindLatest_spec releases
    [⟨semver.Operator.greaterThanEqual,
      semver.constraintVersion rv.semver.major rv.semver.minor rv.semver.patch (rv.window ++ ".0")⟩,
     ⟨semver.Operator.lessThanEqual,
      semver.constraintVersion rv.semver.major rv.semver.minor rv.semver.patch (rv.window ++ ".9999")⟩]
    (by
      intro a ha b hb hsa hsb hab
      obtain ⟨ka, ma, hka, hpa⟩ := hform a ha hsa
      obtain ⟨kb, mb, hkb, hpb⟩ := hform b hb hsb
      have h1 := (releaseLess_window_numbers a b _ _ _ _ ka kb ma mb _ _ hdot hka hkb hpa hpb).1 hab
      cases hba : releaseLess b a with
      | false => rfl
      | true =>
        have h2 := (releaseLess_window_numbers b a _ _ _ _ kb ka mb ma _ _ hdot hkb hka hpb hpa).1
          hba
        omega)
    (by
      intro a ha b hb c hc hsa hsb hsc hab hbc
      obtain ⟨ka, ma, hka, hpa⟩ := hform a ha hsa
      obtain ⟨kb, mb, hkb, hpb⟩ := hform b hb hsb
      obtain ⟨kc, mc, hkc, hpc⟩ := hform c hc hsc
      have h1 : ¬ ka < kb := fun h => by
        rw [(releaseLess_window_numbers a b _ _ _ _ ka kb ma mb _ _ hdot hka hkb hpa hpb).2 h] at hab
        cases hab
      have h2 : ¬ kb < kc := fun h => by
        rw [(releaseLess_window_numbers b c _ _ _ _ kb kc mb mc _ _ hdot hkb hkc hpb hpc).2 h] at hbc
        cases hbc
      cases hac : releaseLess a c with
      | false => rfl
      | true =>
        have h3 := (releaseLess_window_numbers a c _ _ _ _ ka kc ma mc _ _ hdot hka hkc hpa hpc).1
          hac
        omega)
    ⟨r0, hr0, hsat r0 K meta0 hK hparse0⟩
  obtain ⟨kl, ml, hkl, hpl⟩ := hform latest hmem hsatl
  have hle : kl ≤ K := hmax latest hmem kl ml hkl hpl
  have hge : K ≤ kl := by
    have hnot := hgreatest r0 hr0 (hsat r0 K meta0 hK hparse0)
    by_contra hlt
    have hlt' : kl < K := by omega
    rw [(releaseLess_window_numbers latest r0 _ _ _ _ kl K ml meta0 _ _ hdot hkl hK hpl hparse0).2
      hlt'] at hnot
    cases hnot
  have hkl' : kl = K := by omega
  subst hkl'
  unfold determineVersion
  rw [hga', PrereleaseVersionsConstraint_ok rv hga' hvalid]
  simp only [Bool.false_eq_true, if_false]
  rw [hfind]
  simp only
  rw [ReleaseVersionFromPublishedVersion_window_number latest.Version _ _ _ _ kl ml _ hdot hkl
    hpl]
  simp only [releaseVersion.PrereleaseVersion]
  have hwrap : wrapInt64 ((kl : Int) + 1) = ((kl + 1 : Nat) : Int) := by
    rw [wrapInt64_of_small _ (by omega) (by omega)]
    rfl
  rw [hwrap, SetPrereleaseVersion_ok rv _ hga'
    (by
      rw [toString_int_ofNat]
      exact validIdentifiers_window_number rv.window (kl + 1) hdot hvalid)]
  rfl
theorem window_number_injective (window : String) (a b : Nat)
    (h : window ++ "." ++ toString a = window ++ "." ++ toString b) : a = b := by
  have hdata := congrArg String.data h
  simp only [String.data_append, List.append_assoc, List.append_cancel_left_eq] at hdata
  exact toString_nat_injective a b (String.ext hdata)

/-- The test "when previous release candidates have been published": with rc.2 and rc.1 on
Pivnet the version to publish is 2.0.0-rc.3. -/
theorem determineVersion_increments_witness :
    determineVersion testPrintable rcTestReleases rcReleaseVersion =
      Except.ok { semver := ⟨2, 0, 0, "rc.3", "", "2.0.0-rc.3"⟩, window := "rc",
                  prereleaseVersion := 3 } :=
  determineVersion_increments rcTestReleases rcReleaseVersion 2 (Or.inr (Or.inr rfl))
    (by decide)
    (by
      intro r hr hsat
      simp only [rcTestReleases, List.mem_cons, List.mem_singleton, List.not_mem_nil,
        or_false] at hr
      rcases hr with hr | hr | hr
      · subst hr
        exact absurd hsat (by decide)
      · subst hr
        exact ⟨2, "", by decide, rfl⟩
      · subst hr
        exact ⟨1, "", by decide, rfl⟩)
    ⟨releaseOnPivnet 0 "2.0.0-rc.2" "", by decide, "", rfl⟩
    (by
      intro r hr k metadata _ hparse
      simp only [rcTestReleases, List.mem_cons, List.mem_singleton, List.not_mem_nil,
        or_false] at hr
      rcases hr with hr | hr | hr
      · subst hr
        have hp : semver.NewVersion (releaseOnPivnet 123 "2.0.0-build.45" "").Version =
            Except.ok ⟨2, 0, 0, "build.45", "", "2.0.0-build.45"⟩ := rfl
        rw [hp] at hparse
        have hpre := congrArg (fun v => (semver.Version.pre v).data) (Except.ok.inj hparse)
        simp [rcReleaseVersion, String.data_append] at hpre
      · subst hr
        have hp : semver.NewVersion (releaseOnPivnet 0 "2.0.0-rc.2" "").Version =
            Except.ok ⟨2, 0, 0, "rc" ++ "." ++ toString 2, "", "2.0.0-rc.2"⟩ := rfl
        rw [hp] at hparse
        have hpre := congrArg semver.Version.pre (Except.ok.inj hparse)
        exact le_of_eq (window_number_injective "rc" 2 k hpre).symm
      · subst hr
        have hp : semver.NewVersion (releaseOnPivnet 0 "2.0.0-rc.1" "").Version =
            Except.ok ⟨2, 0, 0, "rc" ++ "." ++ toString 1, "", "2.0.0-rc.1"⟩ := rfl
        rw [hp] at hparse
        have hpre := congrArg semver.Version.pre (Except.ok.inj hparse)
        have := window_number_injective "rc" 1 k hpre
        omega)

/-- C16, counterexample: with 2.0.0-rc.10000 as the only release candidate on Pivnet,
`determineVersion` returns 2.0.0-rc.1, not 2.0.0-rc.10001: the release is outside the
constraint `<= 2.0.0-rc.9999`. -/
theorem determineVersion_beyond_bound :
    semver.NewVersion "2.0.0-rc.10000" =
      Except.ok ⟨2, 0, 0, "rc." ++ toString 10000, "", "2.0.0-rc.10000"⟩ ∧
    determineVersion testPrintable rcBeyondBoundReleases rcReleaseVersion =
      Except.ok rcReleaseVersion ∧
    rcReleaseVersion.str = "2.0.0-rc.1" :=
  ⟨rfl, rfl, rfl⟩

/-! ### `parseArgsAndSetup` -/

/-- When `parseArgsAndSetup` succeeds, the window is one of the four it accepts. -/
theorem parseArgsAndSetup_window (setup : Setup) (args : List String) (options : Options)
    (kilnfile : Kilnfile) (version : semver.Version)
    (h : parseArgsAndSetup isPrint setup args = Except.ok (options, kilnfile, version)) :
    options.Window = "ga" ∨ options.Window = "rc" ∨ options.Window = "beta" ∨
      options.Window = "alpha" := by
  unfold parseArgsAndSetup at h
  cases hparse : setup.Parse args with
  | error e => simp [hparse] at h
  | ok parsed =>
    simp only [hparse] at h
    cases hopen : setup.Open parsed.Version with
    | error e => simp [hopen] at h
    | ok versionFile =>
      simp only [hopen] at h
      cases versionFile with
      | error e => simp at h
      | ok versionBuf =>
        simp only at h
        cases hversion : semver.NewVersion (trimSpace versionBuf) with
        | error e => simp [hversion] at h
        | ok parsedVersion =>
          simp only [hversion] at h
          cases hfile : setup.Open parsed.Kilnfile with
          | error e => simp [hfile] at h
          | ok file =>
            simp only [hfile] at h
            cases hdecode : setup.Decode file with
            | error e => simp [hdecode] at h
            | ok decoded =>
              simp only [hdecode] at h
              by_cases hwindow : parsed.Window ≠ "ga" ∧ parsed.Window ≠ "rc" ∧
                  parsed.Window ≠ "beta" ∧ parsed.Window ≠ "alpha"
              · rw [if_pos hwindow] at h
                cases h
              · rw [if_neg hwindow] at h
                have hopt : parsed = options := by
                  have := Except.ok.inj h
                  exact (Prod.mk.inj this).1
                rw [← hopt]
                by_cases h1 : parsed.Window = "ga"
                · exact Or.inl h1
                · by_cases h2 : parsed.Window = "rc"
                  · exact Or.inr (Or.inl h2)
                  · by_cases h3 : parsed.Window = "beta"
                    · exact Or.inr (Or.inr (Or.inl h3))
                    · by_cases h4 : parsed.Window = "alpha"
                      · exact Or.inr (Or.inr (Or.inr h4))
                      · exact absurd ⟨h1, h2, h3, h4⟩ hwindow

/-- The result of `parseArgsAndSetup` once the arguments, the version file and the Kilnfile are
read: the window decides. -/
theorem parseArgsAndSetup_eq (setup : Setup) (args : List String) (options : Options)
    (versionBuf : String) (version : semver.Version) (file : Except String String)
    (kilnfile : Kilnfile)
    (hparse : setup.Parse args = Except.ok options)
    (hopen : setup.Open options.Version = Except.ok (Except.ok versionBuf))
    (hversion : semver.NewVersion (trimSpace versionBuf) = Except.ok version)
    (hfile : setup.Open options.Kilnfile = Except.ok file)
    (hdecode : setup.Decode file = Except.ok kilnfile) :
    parseArgsAndSetup isPrint setup args =
      if options.Window ≠ "ga" ∧ options.Window ≠ "rc" ∧ options.Window ≠ "beta" ∧
          options.Window ≠ "alpha" then
        Except.error ("unknown window: " ++ goQuote isPrint options.Window)
      else Except.ok (options, kilnfile, version) := by
  unfold parseArgsAndSetup
  simp only [hparse, hopen, hversion, hfile, hdecode]

/-- C22: when the arguments parse, the version file is read and holds a version, and the
Kilnfile is read and decoded, `parseArgsAndSetup` succeeds iff the window is one of "ga", "rc",
"beta" and "alpha"; for any other window it returns the error `unknown window: "<window>"`,
the window quoted as by `%q` (as it is between double quotes when its runes are printable and
none is a double quote or a backslash), and `Execute` returns that error without a call of a
Pivnet service. -/
theorem unknown_window_is_error (setup : Setup) (args : List String) (options : Options)
    (versionBuf : String) (version : semver.Version) (file : Except String String)
    (kilnfile : Kilnfile)
    (hparse : setup.Parse args = Except.ok options)
    (hopen : setup.Open options.Version = Except.ok (Except.ok versionBuf))
    (hversion : semver.NewVersion (trimSpace versionBuf) = Except.ok version)
    (hfile : setup.Open options.Kilnfile = Except.ok file)
    (hdecode : setup.Decode file = Except.ok kilnfile) :
    ((∃ result, parseArgsAndSetup isPrint setup args = Except.ok result) ↔
      options.Window ∈ ["ga", "rc", "beta", "alpha"]) ∧
    (options.Window ∈ ["ga", "rc", "beta", "alpha"] →
      parseArgsAndSetup isPrint setup args = Except.ok (options, kilnfile, version)) ∧
    (options.Window ∉ ["ga", "rc", "beta", "alpha"] →
      parseArgsAndSetup isPrint setup args =
        Except.error ("unknown window: " ++ goQuote isPrint options.Window) ∧
      ((∀ c ∈ options.Window.data, IsPrint isPrint c = true ∧ c ≠ '"' ∧ c ≠ '\\') →
        parseArgsAndSetup isPrint setup args =
          Except.error ("unknown window: \"" ++ options.Window ++ "\"")) ∧
      ∀ (σ : Type) (pivnet : PivnetServices σ) (now : Time) (s : Session σ),
        Execute isPrint setup pivnet now args s =
          (some ("unknown window: " ++ goQuote isPrint options.Window), s)) := by
  have heq := @parseArgsAndSetup_eq isPrint setup args options versionBuf version file kilnfile
    hparse hopen hversion hfile hdecode
  have hmem : options.Window ∈ ["ga", "rc", "beta", "alpha"] ↔
      ¬ (options.Window ≠ "ga" ∧ options.Window ≠ "rc" ∧ options.Window ≠ "beta" ∧
          options.Window ≠ "alpha") := by
    simp only [List.mem_cons, List.mem_singleton, List.not_mem_nil, or_false]
    tauto
  refine ⟨?_, ?_, ?_⟩
  · constructor
    · rintro ⟨result, hresult⟩
      rw [hmem]
      intro hnot
      rw [heq, if_pos hnot] at hresult
      cases hresult
    · intro h
      rw [heq, if_neg (hmem.1 h)]
      exact ⟨_, rfl⟩
  · intro h
    rw [heq, if_neg (hmem.1 h)]
  · intro h
    have hnot : options.Window ≠ "ga" ∧ options.Window ≠ "rc" ∧ options.Window ≠ "beta" ∧
        options.Window ≠ "alpha" := by
      by_contra hcon
      exact h (hmem.2 hcon)
    have herr : parseArgsAndSetup isPrint setup args =
        Except.error ("unknown window: " ++ goQuote isPrint options.Window) := by
      rw [heq, if_pos hnot]
    refine ⟨herr, ?_, ?_⟩
    · intro hplain
      rw [herr, goQuote_plain options.Window hplain]
      simp only [String.append_assoc]
      rw [← String.append_assoc]
      rfl
    · intro σ pivnet now s
      unfold Execute
      rw [herr]

/-- The test "the an unknown window is provided", and the window `rc` followed by the rune
U+00A0, which is not printable and is written by its number. -/
theorem unknown_window_is_error_witness :
    parseArgsAndSetup testPrintable (testSetup "2.8.0-build.111") ["--window", "nosuchwindow"] =
      Except.error "unknown window: \"nosuchwindow\"" ∧
    parseArgsAndSetup testPrintable (testSetup "2.8.0-build.111") ["--window", "rc\u00a0"] =
      Except.error "unknown window: \"rc\\u00a0\"" ∧
    Execute testPrintable (testSetup "2.8.0-build.111")
        (errorTestPivnet [releaseOnPivnet 0 "2.8.0-build.111" ""] (Except.ok []) none) testNow
        ["--window", "nosuchwindow"] newSession =
      (some "unknown window: \"nosuchwindow\"", newSession) :=
  ⟨((unknown_window_is_error (testSetup "2.8.0-build.111") ["--window", "nosuchwindow"]
      (testOptions "nosuchwindow") "2.8.0-build.111" someVersion
      (Except.ok "slug: elastic-runtime") testKilnfile rfl rfl rfl rfl rfl).2.2
      (by decide)).2.1 (by decide),
    ((@unknown_window_is_error testPrintable (testSetup "2.8.0-build.111")
      ["--window", "rc\u00a0"] (testOptions "rc\u00a0") "2.8.0-build.111" someVersion
      (Except.ok "slug: elastic-runtime") testKilnfile rfl rfl rfl rfl rfl).2.2
      (by decide)).1,
    ((unknown_window_is_error (testSetup "2.8.0-build.111") ["--window", "nosuchwindow"]
      (testOptions "nosuchwindow") "2.8.0-build.111" someVersion
      (Except.ok "slug: elastic-runtime") testKilnfile rfl rfl rfl rfl rfl).2.2
      (by decide)).2.2 Unit _ testNow newSession⟩

/-! ### `releaseSet.Find` and the release to update -/

theorem Find_eq_ok_iff (rs : List Release) (version : String) (r : Release) :
    releaseSet.Find rs version = Except.ok r ↔
      ∃ before after, rs = before ++ r :: after ∧ r.Version = version ∧
        ∀ x ∈ before, x.Version ≠ version := by
  induction rs with
  | nil => simp [releaseSet.Find]
  | cons x xs ih =>
    unfold releaseSet.Find
    by_cases hx : x.Version = version
    · rw [if_pos hx]
      constructor
      · intro h
        have hxr : x = r := Except.ok.inj h
        subst hxr
        exact ⟨[], xs, rfl, hx, fun _ h => by cases h⟩
      · rintro ⟨before, after, hsplit, _, hbefore⟩
        cases before with
        | nil =>
          simp only [List.nil_append, List.cons.injEq] at hsplit
          rw [hsplit.1]
        | cons b bs =>
          simp only [List.cons_append, List.cons.injEq] at hsplit
          exact absurd (hsplit.1 ▸ hx) (hbefore b (List.mem_cons_self _ _))
    · rw [if_neg hx, ih]
      constructor
      · rintro ⟨before, after, hsplit, hr, hbefore⟩
        refine ⟨x :: before, after, by rw [hsplit]; rfl, hr, ?_⟩
        intro y hy
        rcases List.mem_cons.1 hy with hy | hy
        · rw [hy]; exact hx
        · exact hbefore y hy
      · rintro ⟨before, after, hsplit, hr, hbefore⟩
        cases before with
        | nil =>
          simp only [List.nil_append, List.cons.injEq] at hsplit
          exact absurd (hsplit.1 ▸ hr) hx
        | cons b bs =>
          simp only [List.cons_append, List.cons.injEq] at hsplit
          exact ⟨bs, after, hsplit.2, hr, fun y hy => hbefore y (List.mem_cons_of_mem _ hy)⟩

theorem Find_eq_error_iff (rs : List Release) (version : String) :
    (∀ r ∈ rs, r.Version ≠ version) ↔
      releaseSet.Find rs version =
        Except.error ("release with version " ++ version ++ " not found") := by
  induction rs with
  | nil => simp [releaseSet.Find]
  | cons x xs ih =>
    unfold releaseSet.Find
    by_cases hx : x.Version = version
    · rw [if_pos hx]
      constructor
      · intro h
        exact absurd hx (h x (List.mem_cons_self _ _))
      · intro h
        cases h
    · rw [if_neg hx, ← ih]
      simp [hx]

/-- The release version of a build version in a window that `parseArgsAndSetup` accepts. -/
theorem ReleaseVersionFromBuildVersion_accepted (buildVersion : semver.Version)
    (window : String)
    (hwindow : window = "ga" ∨ window = "rc" ∨ window = "beta" ∨ window = "alpha") :
    ReleaseVersionFromBuildVersion isPrint buildVersion window =
      Except.ok
        { semver :=
            if window = "ga" then buildVersion.withPrerelease ""
            else (buildVersion.withPrerelease "").withPrerelease (window ++ ".1"),
          window := window, prereleaseVersion := if window = "ga" then 0 else 1 } := by
  rcases hwindow with h | h | h | h <;> subst h <;> rfl

/-! ### `releaseType` in the accepted windows -/

/-- C30: for the windows "ga", "rc", "beta" and "alpha", every version and either value of the
security-fix flag, `releaseType` is not "Developer Release"; no version is both a major and a
minor release; and the window of options that `parseArgsAndSetup` returns is one of the four, so
that `Execute` never computes the release type "Developer Release". -/
theorem releaseType_never_developer (includesSecurityFix : Bool) (v : releaseVersion) :
    (∀ window ∈ ["ga", "rc", "beta", "alpha"],
      releaseType window includesSecurityFix v ≠ "Developer Release") ∧
    ¬ (v.IsMajor = true ∧ v.IsMinor = true) ∧
    (∀ (setup : Setup) (args : List String) (options : Options) (kilnfile : Kilnfile)
      (buildVersion : semver.Version),
      parseArgsAndSetup isPrint setup args = Except.ok (options, kilnfile, buildVersion) →
      releaseType options.Window includesSecurityFix v ≠ "Developer Release") := by
  have hfour : ∀ window, window = "ga" ∨ window = "rc" ∨ window = "beta" ∨ window = "alpha" →
      releaseType window includesSecurityFix v ≠ "Developer Release" := by
    intro window hwindow
    rcases hwindow with h | h | h | h <;> subst h
    · unfold releaseType
      simp only [String.reduceEq, if_false, if_true]
      split_ifs <;> decide
    · simp [releaseType]
    · simp [releaseType]
    · simp [releaseType]
  refine ⟨?_, ?_, ?_⟩
  · intro window hwindow
    simp only [List.mem_cons, List.mem_singleton, List.not_mem_nil, or_false] at hwindow
    exact hfour window hwindow
  · unfold releaseVersion.IsMajor releaseVersion.IsMinor
    by_cases h : v.semver.minor = 0 <;> simp [h]
  · intro setup args options kilnfile buildVersion hsetup
    exact hfour _ (parseArgsAndSetup_window setup args options kilnfile buildVersion hsetup)

/-- The options of the test arguments with the window "ga" pass `parseArgsAndSetup`, and the
release type is not "Developer Release". -/
theorem releaseType_never_developer_witness :
    releaseType (testOptions "ga").Window true gaReleaseVersion ≠ "Developer Release" :=
  (@releaseType_never_developer testPrintable true gaReleaseVersion).2.2 (testSetup "2.8.0-build.111")
    ["--window", "ga"] (testOptions "ga") testKilnfile someVersion rfl

/-! ### The calls of `Update` -/

theorem updateCalls_append (xs ys : List PivnetCall) :
    updateCalls (xs ++ ys) = updateCalls xs ++ updateCalls ys := by
  unfold updateCalls
  rw [List.filterMap_append]

theorem attachLicenseFile_updateCalls {σ : Type} (pivnet : PivnetServices σ) (slug : String)
    (releaseID : Int) (version : releaseVersion) (s : Session σ) :
    updateCalls (attachLicenseFile pivnet slug releaseID version s).2.calls =
      updateCalls s.calls := by
  unfold attachLicenseFile
  cases hga : version.IsGA with
  | false => simp
  | true =>
    simp only [if_true]
    cases hlist : (pivnet.productFilesList slug s.state).1 with
    | error err => simp [updateCalls_append, updateCalls, PivnetCall.updateArgs]
    | ok productFiles =>
      simp only
      cases hfind : findMatchingOSL productFiles version with
      | none => simp [updateCalls_append, updateCalls, PivnetCall.updateArgs]
      | some productFile =>
        simp only
        cases hadd : (pivnet.productFilesAddToRelease slug releaseID productFile.ID
            (pivnet.productFilesList slug s.state).2).1 <;>
          simp [updateCalls_append, updateCalls, PivnetCall.updateArgs]

theorem addUserGroup_updateCalls {σ : Type} (pivnet : PivnetServices σ) (slug : String)
    (releaseID : Int) (name : String) (groups : List UserGroup) (s : Session σ)
    (result : Option String × Session σ)
    (h : addUserGroup pivnet slug releaseID name groups s = some result) :
    updateCalls result.2.calls = updateCalls s.calls := by
  induction groups with
  | nil => simp [addUserGroup] at h
  | cons g gs ih =>
    unfold addUserGroup at h
    by_cases hg : g.Name = name
    · rw [if_pos hg] at h
      simp only [Option.some.injEq] at h
      rw [← h]
      simp [updateCalls_append, updateCalls, PivnetCall.updateArgs]
    · rw [if_neg hg] at h
      exact ih h

theorem addUserGroupsLoop_updateCalls {σ : Type} (pivnet : PivnetServices σ) (slug : String)
    (releaseID : Int) (groups : List UserGroup) (names : List String) (s : Session σ) :
    updateCalls (addUserGroupsLoop isPrint pivnet slug releaseID groups names s).2.calls =
      updateCalls s.calls := by
  induction names generalizing s with
  | nil => simp [addUserGroupsLoop]
  | cons name names ih =>
    unfold addUserGroupsLoop
    cases hadd : addUserGroup pivnet slug releaseID name groups s with
    | none => simp
    | some result =>
      obtain ⟨err, s1⟩ := result
      have hcalls := addUserGroup_updateCalls pivnet slug releaseID name groups s _ hadd
      cases err with
      | none =>
        simp only
        rw [ih s1]
        exact hcalls
      | some e =>
        simp only
        exact hcalls

theorem addUserGroups_updateCalls {σ : Type} (pivnet : PivnetServices σ) (rv : releaseVersion)
    (release : Release) (kilnfile : Kilnfile) (s : Session σ) :
    updateCalls (addUserGroups isPrint pivnet rv release kilnfile s).2.calls = updateCalls s.calls := by
  unfold addUserGroups
  cases hga : rv.IsGA with
  | true => simp
  | false =>
    simp only [Bool.false_eq_true, if_false]
    cases hlist : (pivnet.userGroupsList s.state).1 with
    | error err => simp [updateCalls_append, updateCalls, PivnetCall.updateArgs]
    | ok groups =>
      simp only
      rw [addUserGroupsLoop_updateCalls]
      simp [updateCalls_append, updateCalls, PivnetCall.updateArgs]

/-- The release version made of a build version keeps the window. -/
theorem ReleaseVersionFromBuildVersion_window (buildVersion : semver.Version) (window : String)
    (rv : releaseVersion)
    (h : ReleaseVersionFromBuildVersion isPrint buildVersion window = Except.ok rv) :
    rv.window = window := by
  unfold ReleaseVersionFromBuildVersion semver.Version.SetPrerelease at h
  simp only [String.length_empty, gt_iff_lt, lt_self_iff_false, false_and, if_false] at h
  by_cases hga : window = "ga"
  · simp only [hga, ne_eq, not_true_eq_false, if_false] at h
    rw [← Except.ok.inj h, hga]
  · simp only [ne_eq, hga, not_false_eq_true, if_true] at h
    unfold releaseVersion.SetPrereleaseVersion at h
    have hnotga : releaseVersion.IsGA
        { semver := (buildVersion.withPrerelease ""), window := window,
          prereleaseVersion := 0 } = false := by
      simp [releaseVersion.IsGA, hga]
    rw [hnotga] at h
    simp only [Bool.false_eq_true, if_false] at h
    cases hset : semver.Version.SetPrerelease (buildVersion.withPrerelease "")
        (window ++ "." ++ toString (1 : Int)) with
    | error e => simp [hset] at h
    | ok v =>
      simp only [hset] at h
      rw [← Except.ok.inj h]

/-- The calls of `Update` that `updateReleaseOnPivnet` makes: none, or one for the release found
by the text of the build version, with the five fields set. -/
theorem updateReleaseOnPivnet_updateCalls {σ : Type} (pivnet : PivnetServices σ) (now : Time)
    (options : Options) (kilnfile : Kilnfile) (buildVersion : semver.Version)
    (s : Session σ) :
    updateCalls (updateReleaseOnPivnet isPrint pivnet now options kilnfile buildVersion s).2.calls =
        updateCalls s.calls ∨
    ∃ rv releases release versionToPublish endOfSupportDate,
      ReleaseVersionFromBuildVersion isPrint buildVersion options.Window = Except.ok rv ∧
      (pivnet.releasesList kilnfile.Slug s.state).1 = Except.ok releases ∧
      releaseSet.Find releases buildVersion.str = Except.ok release ∧
      determineVersion isPrint releases rv = Except.ok versionToPublish ∧
      (∃ name, (attachLicenseFile pivnet kilnfile.Slug release.ID versionToPublish
        { state := (pivnet.releasesList kilnfile.Slug s.state).2,
          calls := s.calls ++ [PivnetCall.releasesList kilnfile.Slug] }).1 = Except.ok name) ∧
      eogsDate isPrint now rv releases = Except.ok endOfSupportDate ∧
      updateCalls (updateReleaseOnPivnet isPrint pivnet now options kilnfile buildVersion s).2.calls =
        updateCalls s.calls ++
          [(kilnfile.Slug,
            { ID := release.ID, Version := versionToPublish.str,
              ReleaseType := releaseType options.Window options.IncludesSecurityFix rv,
              ReleaseDate := now.Format, EndOfSupportDate := endOfSupportDate,
              Availability :=
                if rv.IsGA then "All Users" else "Selected User Groups Only" })] := by
  unfold updateReleaseOnPivnet
  cases hrv : ReleaseVersionFromBuildVersion isPrint buildVersion options.Window with
  | error err =>
    left
    simp only [hrv]
  | ok rv =>
    simp only [hrv]
    cases hlist : (pivnet.releasesList kilnfile.Slug s.state).1 with
    | error err =>
      left
      simp [updateCalls_append, updateCalls, PivnetCall.updateArgs]
    | ok releases =>
      simp only
      cases hfind : releaseSet.Find releases buildVersion.str with
      | error err =>
        left
        simp [updateCalls_append, updateCalls, PivnetCall.updateArgs]
      | ok release =>
        simp only
        cases hdet : determineVersion isPrint releases rv with
        | error err =>
          left
          simp [updateCalls_append, updateCalls, PivnetCall.updateArgs]
        | ok versionToPublish =>
          simp only
          have hattachCalls := attachLicenseFile_updateCalls pivnet kilnfile.Slug release.ID
            versionToPublish
            { state := (pivnet.releasesList kilnfile.Slug s.state).2,
              calls := s.calls ++ [PivnetCall.releasesList kilnfile.Slug] }
          have hlistCalls : updateCalls (s.calls ++ [PivnetCall.releasesList kilnfile.Slug]) =
              updateCalls s.calls := by
            simp [updateCalls_append, updateCalls, PivnetCall.updateArgs]
          simp only [hlistCalls] at hattachCalls
          cases hattach : (attachLicenseFile pivnet kilnfile.Slug release.ID versionToPublish
              { state := (pivnet.releasesList kilnfile.Slug s.state).2,
                calls := s.calls ++ [PivnetCall.releasesList kilnfile.Slug] }).1 with
          | error err =>
            left
            simp only
            exact hattachCalls
          | ok licenseFileName =>
            simp only
            cases heogs : eogsDate isPrint now rv releases with
            | error err =>
              left
              simp only
              exact hattachCalls
            | ok endOfSupportDate =>
              right
              refine ⟨rv, releases, release, versionToPublish, endOfSupportDate,
                by first | exact hrv | rfl, by first | exact hlist | rfl, hfind, hdet,
                ⟨licenseFileName, hattach⟩, heogs, ?_⟩
              simp only
              unfold updateRelease
              simp only
              cases hupdate : (pivnet.releasesUpdate kilnfile.Slug
                  { ID := release.ID, Version := versionToPublish.str,
                    ReleaseType := releaseType options.Window options.IncludesSecurityFix rv,
                    ReleaseDate := now.Format, EndOfSupportDate := endOfSupportDate,
                    Availability :=
                      if rv.IsGA = true then "All Users" else "Selected User Groups Only" }
                  (attachLicenseFile pivnet kilnfile.Slug release.ID versionToPublish
                    { state := (pivnet.releasesList kilnfile.Slug s.state).2,
                      calls := s.calls ++ [PivnetCall.releasesList kilnfile.Slug] }).2.state).1 with
              | error err =>
                simp only
                rw [updateCalls_append, hattachCalls]
                rfl
              | ok updatedRelease =>
                simp only
                rw [addUserGroups_updateCalls, updateCalls_append, hattachCalls]
                rfl

theorem updateReleaseOnPivnet_attach_error {σ : Type} (pivnet : PivnetServices σ) (now : Time)
    (options : Options) (kilnfile : Kilnfile) (buildVersion : semver.Version) (s : Session σ)
    (rv : releaseVersion) (releases : List Release) (release : Release)
    (versionToPublish : releaseVersion) (err : String)
    (hrv : ReleaseVersionFromBuildVersion isPrint buildVersion options.Window = Except.ok rv)
    (hlist : (pivnet.releasesList kilnfile.Slug s.state).1 = Except.ok releases)
    (hfind : releaseSet.Find releases buildVersion.str = Except.ok release)
    (hdet : determineVersion isPrint releases rv = Except.ok versionToPublish)
    (hattach : (attachLicenseFile pivnet kilnfile.Slug release.ID versionToPublish
      { state := (pivnet.releasesList kilnfile.Slug s.state).2,
        calls := s.calls ++ [PivnetCall.releasesList kilnfile.Slug] }).1 = Except.error err) :
    updateReleaseOnPivnet isPrint pivnet now options kilnfile buildVersion s =
      (some err, (attachLicenseFile pivnet kilnfile.Slug release.ID versionToPublish
        { state := (pivnet.releasesList kilnfile.Slug s.state).2,
          calls := s.calls ++ [PivnetCall.releasesList kilnfile.Slug] }).2) := by
  unfold updateReleaseOnPivnet
  simp only [hrv, hlist, hfind, hdet, hattach]

theorem updateReleaseOnPivnet_eogs_error {σ : Type} (pivnet : PivnetServices σ) (now : Time)
    (options : Options) (kilnfile : Kilnfile) (buildVersion : semver.Version) (s : Session σ)
    (rv : releaseVersion) (releases : List Release) (release : Release)
    (versionToPublish : releaseVersion) (licenseFileName err : String)
    (hrv : ReleaseVersionFromBuildVersion isPrint buildVersion options.Window = Except.ok rv)
    (hlist : (pivnet.releasesList kilnfile.Slug s.state).1 = Except.ok releases)
    (hfind : releaseSet.Find releases buildVersion.str = Except.ok release)
    (hdet : determineVersion isPrint releases rv = Except.ok versionToPublish)
    (hattach : (attachLicenseFile pivnet kilnfile.Slug release.ID versionToPublish
      { state := (pivnet.releasesList kilnfile.Slug s.state).2,
        calls := s.calls ++ [PivnetCall.releasesList kilnfile.Slug] }).1 =
      Except.ok licenseFileName)
    (heogs : eogsDate isPrint now rv releases = Except.error err) :
    updateReleaseOnPivnet isPrint pivnet now options kilnfile buildVersion s =
      (some err, (attachLicenseFile pivnet kilnfile.Slug release.ID versionToPublish
        { state := (pivnet.releasesList kilnfile.Slug s.state).2,
          calls := s.calls ++ [PivnetCall.releasesList kilnfile.Slug] }).2) := by
  unfold updateReleaseOnPivnet
  simp only [hrv, hlist, hfind, hdet, hattach, heogs]

theorem updateCalls_after_attach {σ : Type} (pivnet : PivnetServices σ) (slug : String)
    (releaseID : Int) (version : releaseVersion) (s : Session σ) (state : σ) :
    updateCalls (attachLicenseFile pivnet slug releaseID version
      { state := state, calls := s.calls ++ [PivnetCall.releasesList slug] }).2.calls =
      updateCalls s.calls := by
  rw [attachLicenseFile_updateCalls]
  simp [updateCalls_append, updateCalls, PivnetCall.updateArgs]

/-- C21 (as amended): in a GA publish whose release to update is found, `Execute` returns the
underlying error and makes no call of `Update` when the listing of the product files fails
(its error), when no listed file is the license of the version ("required license file doesn't
exist on Pivnet"), when adding the license file to the release fails (its error), and when
the latest published release within `~M.m.0` has an empty End of General Support date (the
error that names that release). In the first two cases the calls made are the two listings
alone; in the third the call of `AddToRelease` that failed follows them; in the fourth the
call of `AddToRelease` for the license file follows them and has succeeded. -/
theorem update_not_called_on_failure {σ : Type} (setup : Setup) (pivnet : PivnetServices σ)
    (now : Time) (args : List String) (s : Session σ) (options : Options)
    (kilnfile : Kilnfile) (buildVersion : semver.Version) (releases : List Release)
    (release : Release)
    (hsetup : parseArgsAndSetup isPrint setup args = Except.ok (options, kilnfile, buildVersion))
    (hwindow : options.Window = "ga")
    (hlist : (pivnet.releasesList kilnfile.Slug s.state).1 = Except.ok releases)
    (hfind : releaseSet.Find releases buildVersion.str = Except.ok release) :
    (∀ err, (pivnet.productFilesList kilnfile.Slug
        (pivnet.releasesList kilnfile.Slug s.state).2).1 = Except.error err →
      (Execute isPrint setup pivnet now args s).1 = some err ∧
      (Execute isPrint setup pivnet now args s).2.calls =
        s.calls ++ [PivnetCall.releasesList kilnfile.Slug,
          PivnetCall.productFilesList kilnfile.Slug] ∧
      updateCalls (Execute isPrint setup pivnet now args s).2.calls = updateCalls s.calls) ∧
    (∀ productFiles, (pivnet.productFilesList kilnfile.Slug
        (pivnet.releasesList kilnfile.Slug s.state).2).1 = Except.ok productFiles →
      findMatchingOSL productFiles
        { semver := buildVersion.withPrerelease "", window := "ga",
          prereleaseVersion := 0 } = none →
      (Execute isPrint setup pivnet now args s).1 =
        some "required license file doesn't exist on Pivnet" ∧
      (Execute isPrint setup pivnet now args s).2.calls =
        s.calls ++ [PivnetCall.releasesList kilnfile.Slug,
          PivnetCall.productFilesList kilnfile.Slug] ∧
      updateCalls (Execute isPrint setup pivnet now args s).2.calls = updateCalls s.calls) ∧
    (∀ productFiles productFile err, (pivnet.productFilesList kilnfile.Slug
        (pivnet.releasesList kilnfile.Slug s.state).2).1 = Except.ok productFiles →
      findMatchingOSL productFiles
        { semver := buildVersion.withPrerelease "", window := "ga",
          prereleaseVersion := 0 } = some productFile →
      (pivnet.productFilesAddToRelease kilnfile.Slug release.ID productFile.ID
        (pivnet.productFilesList kilnfile.Slug
          (pivnet.releasesList kilnfile.Slug s.state).2).2).1 = some err →
      (Execute isPrint setup pivnet now args s).1 = some err ∧
      (Execute isPrint setup pivnet now args s).2.calls =
        s.calls ++ [PivnetCall.releasesList kilnfile.Slug,
          PivnetCall.productFilesList kilnfile.Slug,
          PivnetCall.productFilesAddToRelease kilnfile.Slug release.ID productFile.ID] ∧
      updateCalls (Execute isPrint setup pivnet now args s).2.calls = updateCalls s.calls) ∧
    (∀ productFiles productFile previous, (pivnet.productFilesList kilnfile.Slug
        (pivnet.releasesList kilnfile.Slug s.state).2).1 = Except.ok productFiles →
      findMatchingOSL productFiles
        { semver := buildVersion.withPrerelease "", window := "ga",
          prereleaseVersion := 0 } = some productFile →
      (pivnet.productFilesAddToRelease kilnfile.Slug release.ID productFile.ID
        (pivnet.productFilesList kilnfile.Slug
          (pivnet.releasesList kilnfile.Slug s.state).2).2).1 = none →
      releaseSet.FindLatest releases
        [{ op := semver.Operator.tilde,
           con := semver.constraintVersion buildVersion.major buildVersion.minor 0 "" }] =
        some previous →
      previous.EndOfSupportDate = "" →
      (Execute isPrint setup pivnet now args s).1 =
        some ("previously published release " ++ goQuote isPrint previous.Version ++
          " does not have an End of General Support date") ∧
      (Execute isPrint setup pivnet now args s).2.calls =
        s.calls ++ [PivnetCall.releasesList kilnfile.Slug,
          PivnetCall.productFilesList kilnfile.Slug,
          PivnetCall.productFilesAddToRelease kilnfile.Slug release.ID productFile.ID] ∧
      updateCalls (Execute isPrint setup pivnet now args s).2.calls = updateCalls s.calls) := by
  have hrv : ReleaseVersionFromBuildVersion isPrint buildVersion options.Window =
      Except.ok { semver := buildVersion.withPrerelease "", window := "ga",
                  prereleaseVersion := 0 } := by
    rw [hwindow]
    rfl
  have hdet : determineVersion isPrint releases
      { semver := buildVersion.withPrerelease "", window := "ga", prereleaseVersion := 0 } =
      Except.ok { semver := buildVersion.withPrerelease "", window := "ga",
                  prereleaseVersion := 0 } := by
    simp [determineVersion, releaseVersion.IsGA]
  have hexec : Execute isPrint setup pivnet now args s =
      updateReleaseOnPivnet isPrint pivnet now options kilnfile buildVersion s := by
    unfold Execute
    rw [hsetup]
  rw [hexec]
  have hfail : ∀ err, (attachLicenseFile pivnet kilnfile.Slug release.ID
        { semver := buildVersion.withPrerelease "", window := "ga", prereleaseVersion := 0 }
        { state := (pivnet.releasesList kilnfile.Slug s.state).2,
          calls := s.calls ++ [PivnetCall.releasesList kilnfile.Slug] }).1 =
        Except.error err →
      updateReleaseOnPivnet isPrint pivnet now options kilnfile buildVersion s =
        (some err, (attachLicenseFile pivnet kilnfile.Slug release.ID
          { semver := buildVersion.withPrerelease "", window := "ga", prereleaseVersion := 0 }
          { state := (pivnet.releasesList kilnfile.Slug s.state).2,
            calls := s.calls ++ [PivnetCall.releasesList kilnfile.Slug] }).2) := by
    intro err hattach
    exact updateReleaseOnPivnet_attach_error pivnet now options kilnfile buildVersion s _
      releases release _ err hrv hlist hfind hdet hattach
  refine ⟨?_, ?_, ?_, ?_⟩
  · intro err hfiles
    rw [hfail err (by simp [attachLicenseFile, releaseVersion.IsGA, hfiles])]
    refine ⟨rfl, ?_, updateCalls_after_attach pivnet kilnfile.Slug release.ID _ s _⟩
    simp [attachLicenseFile, releaseVersion.IsGA, hfiles]
  · intro productFiles hfiles hnone
    rw [hfail "required license file doesn't exist on Pivnet"
      (by simp [attachLicenseFile, releaseVersion.IsGA, hfiles, hnone])]
    refine ⟨rfl, ?_, updateCalls_after_attach pivnet kilnfile.Slug release.ID _ s _⟩
    simp [attachLicenseFile, releaseVersion.IsGA, hfiles, hnone]
  · intro productFiles productFile err hfiles hsome hadd
    rw [hfail err (by simp [attachLicenseFile, releaseVersion.IsGA, hfiles, hsome, hadd])]
    refine ⟨rfl, ?_, updateCalls_after_attach pivnet kilnfile.Slug release.ID _ s _⟩
    simp [attachLicenseFile, releaseVersion.IsGA, hfiles, hsome, hadd]
  · intro productFiles productFile previous hfiles hsome hadd hlatest hempty
    have heogs : eogsDate isPrint now
        { semver := buildVersion.withPrerelease "", window := "ga", prereleaseVersion := 0 }
        releases =
        Except.error ("previously published release " ++ goQuote isPrint previous.Version ++
          " does not have an End of General Support date") := by
      simp [eogsDate, releaseVersion.IsGA, releaseVersion.MajorMinorConstraint, hlatest,
        hempty]
    have hattach : (attachLicenseFile pivnet kilnfile.Slug release.ID
        { semver := buildVersion.withPrerelease "", window := "ga", prereleaseVersion := 0 }
        { state := (pivnet.releasesList kilnfile.Slug s.state).2,
          calls := s.calls ++ [PivnetCall.releasesList kilnfile.Slug] }).1 =
        Except.ok productFile.Name := by
      simp [attachLicenseFile, releaseVersion.IsGA, hfiles, hsome, hadd]
    rw [updateReleaseOnPivnet_eogs_error pivnet now options kilnfile buildVersion s _
      releases release _ productFile.Name _ hrv hlist hfind hdet hattach heogs]
    refine ⟨rfl, ?_, updateCalls_after_attach pivnet kilnfile.Slug release.ID _ s _⟩
    simp [attachLicenseFile, releaseVersion.IsGA, hfiles, hsome, hadd]

/-- The tests "there is an error fetching product files from Pivnet" and "the previous release
on PivNet does not have an EOGS date". -/
theorem update_not_called_on_failure_witness :
    ((Execute testPrintable (testSetup "2.8.0-build.111")
        (errorTestPivnet [releaseOnPivnet 0 "2.8.0-build.111" ""]
          (Except.error "bad stuff happened") none)
        testNow ["--window", "ga"] newSession).1 = some "bad stuff happened" ∧
      (Execute testPrintable (testSetup "2.8.0-build.111")
        (errorTestPivnet [releaseOnPivnet 0 "2.8.0-build.111" ""]
          (Except.error "bad stuff happened") none)
        testNow ["--window", "ga"] newSession).2.calls =
        newSession.calls ++ [PivnetCall.releasesList "elastic-runtime",
          PivnetCall.productFilesList "elastic-runtime"] ∧
      updateCalls (Execute testPrintable (testSetup "2.8.0-build.111")
        (errorTestPivnet [releaseOnPivnet 0 "2.8.0-build.111" ""]
          (Except.error "bad stuff happened") none)
        testNow ["--window", "ga"] newSession).2.calls = updateCalls newSession.calls) ∧
    ((Execute testPrintable (testSetup "2.9.1-build.111")
        (errorTestPivnet noEogsReleases (Except.ok [licenseFile "2.9"]) none)
        testNow ["--window", "ga"] newSession).1 =
        some ("previously published release " ++ goQuote testPrintable "2.9.0" ++
          " does not have an End of General Support date") ∧
      (Execute testPrintable (testSetup "2.9.1-build.111")
        (errorTestPivnet noEogsReleases (Except.ok [licenseFile "2.9"]) none)
        testNow ["--window", "ga"] newSession).2.calls =
        newSession.calls ++ [PivnetCall.releasesList "elastic-runtime",
          PivnetCall.productFilesList "elastic-runtime",
          PivnetCall.productFilesAddToRelease "elastic-runtime" 99 42] ∧
      updateCalls (Execute testPrintable (testSetup "2.9.1-build.111")
        (errorTestPivnet noEogsReleases (Except.ok [licenseFile "2.9"]) none)
        testNow ["--window", "ga"] newSession).2.calls = updateCalls newSession.calls) :=
  ⟨(update_not_called_on_failure (testSetup "2.8.0-build.111")
      (errorTestPivnet [releaseOnPivnet 0 "2.8.0-build.111" ""]
        (Except.error "bad stuff happened") none)
      testNow ["--window", "ga"] newSession (testOptions "ga") testKilnfile someVersion
      [releaseOnPivnet 0 "2.8.0-build.111" ""] (releaseOnPivnet 0 "2.8.0-build.111" "")
      rfl rfl rfl rfl).1 "bad stuff happened" rfl,
    (update_not_called_on_failure (testSetup "2.9.1-build.111")
      (errorTestPivnet noEogsReleases (Except.ok [licenseFile "2.9"]) none)
      testNow ["--window", "ga"] newSession (testOptions "ga") testKilnfile
      ⟨2, 9, 1, "build.111", "", "2.9.1-build.111"⟩ noEogsReleases
      (releaseOnPivnet 99 "2.9.1-build.111" "") rfl rfl rfl rfl).2.2.2 [licenseFile "2.9"]
      (licenseFile "2.9") (releaseOnPivnet 0 "2.9.0" "") rfl rfl rfl rfl rfl⟩

/-- C21, counterexample: in the test "the previous release on PivNet does not have an EOGS
date" `Execute` fails with the error that names the release 2.9.0, after the license file 42
has been added to the release 99 by a call of `AddToRelease` that succeeded: the release is
not left as it was. -/
theorem license_attached_before_failure :
    Execute testPrintable (testSetup "2.9.1-build.111")
        (errorTestPivnet noEogsReleases (Except.ok [licenseFile "2.9"]) none)
        testNow ["--window", "ga"] newSession =
      (some "previously published release \"2.9.0\" does not have an End of General Support date",
        { state := (),
          calls := [PivnetCall.releasesList "elastic-runtime",
            PivnetCall.productFilesList "elastic-runtime",
            PivnetCall.productFilesAddToRelease "elastic-runtime" 99 42] }) ∧
    ((errorTestPivnet noEogsReleases (Except.ok [licenseFile "2.9"]) none).productFilesAddToRelease
      "elastic-runtime" 99 42 ()).1 = none :=
  ⟨rfl, rfl⟩

/-! ### The release that `Execute` updates -/

/-- C24: `releaseSet.Find` returns the first release of the list whose Version is the text
asked for, and the error `release with version <v> not found` iff no release of the list has
that Version. `Execute` asks for the text of the build version, its prerelease included: when
no listed release has it, `Execute` returns that error after the listing alone; when some
listed release has it, a call of `Update` that `Execute` makes is its only one and is for the
first such release, whose ID the release passed has. -/
theorem Find_first_match (rs : List Release) (version : String) :
    (∀ r, releaseSet.Find rs version = Except.ok r ↔
      ∃ before after, rs = before ++ r :: after ∧ r.Version = version ∧
        ∀ x ∈ before, x.Version ≠ version) ∧
    (releaseSet.Find rs version =
        Except.error ("release with version " ++ version ++ " not found") ↔
      ∀ r ∈ rs, r.Version ≠ version) ∧
    (∀ (σ : Type) (setup : Setup) (pivnet : PivnetServices σ) (now : Time)
      (args : List String) (s : Session σ) (options : Options) (kilnfile : Kilnfile)
      (buildVersion : semver.Version),
      parseArgsAndSetup isPrint setup args = Except.ok (options, kilnfile, buildVersion) →
      (pivnet.releasesList kilnfile.Slug s.state).1 = Except.ok rs →
      (∀ r ∈ rs, r.Version ≠ buildVersion.str) →
      Execute isPrint setup pivnet now args s =
        (some ("release with version " ++ buildVersion.str ++ " not found"),
         { state := (pivnet.releasesList kilnfile.Slug s.state).2,
           calls := s.calls ++ [PivnetCall.releasesList kilnfile.Slug] })) ∧
    (∀ (σ : Type) (setup : Setup) (pivnet : PivnetServices σ) (now : Time)
      (args : List String) (s : Session σ) (options : Options) (kilnfile : Kilnfile)
      (buildVersion : semver.Version) (before after : List Release) (found : Release),
      parseArgsAndSetup isPrint setup args = Except.ok (options, kilnfile, buildVersion) →
      (pivnet.releasesList kilnfile.Slug s.state).1 = Except.ok rs →
      rs = before ++ found :: after → found.Version = buildVersion.str →
      (∀ x ∈ before, x.Version ≠ buildVersion.str) →
      updateCalls (Execute isPrint setup pivnet now args s).2.calls = updateCalls s.calls ∨
      ∃ release,
        updateCalls (Execute isPrint setup pivnet now args s).2.calls =
          updateCalls s.calls ++ [(kilnfile.Slug, release)] ∧
        release.ID = found.ID) := by
  refine ⟨fun r => Find_eq_ok_iff rs version r, (Find_eq_error_iff rs version).symm, ?_, ?_⟩
  · intro σ setup pivnet now args s options kilnfile buildVersion hsetup hlist hnone
    have hwindow := parseArgsAndSetup_window setup args options kilnfile buildVersion hsetup
    unfold Execute
    rw [hsetup]
    simp only
    unfold updateReleaseOnPivnet
    simp only [ReleaseVersionFromBuildVersion_accepted buildVersion options.Window hwindow,
      hlist, (Find_eq_error_iff rs buildVersion.str).1 hnone]
  · intro σ setup pivnet now args s options kilnfile buildVersion before after found hsetup
      hlist hsplit hversion hbefore
    have hfound : releaseSet.Find rs buildVersion.str = Except.ok found :=
      (Find_eq_ok_iff rs buildVersion.str found).2 ⟨before, after, hsplit, hversion, hbefore⟩
    have hexec : Execute isPrint setup pivnet now args s =
        updateReleaseOnPivnet isPrint pivnet now options kilnfile buildVersion s := by
      unfold Execute
      rw [hsetup]
    rw [hexec]
    rcases updateReleaseOnPivnet_updateCalls pivnet now options kilnfile buildVersion s with
      h | ⟨rv, listed, release, versionToPublish, endOfSupportDate, _, hlisted, hfind, _, _,
        _, hcalls⟩
    · exact Or.inl h
    · right
      rw [hlist] at hlisted
      cases hlisted
      rw [hfound] at hfind
      cases hfind
      exact ⟨_, hcalls, rfl⟩

/-- The test "the release to be updated is not found": the build version is 2.8.0-build.111
and Pivnet lists 1.2.3-build.1 only. And a publish of the build 2.8.0-build.111 in the window
"rc" when Pivnet lists the release 2.8.0 and, with the IDs 99 and 100, two releases
2.8.0-build.111: the one call of `Update` is for the release 99. -/
theorem Find_first_match_witness :
    Execute testPrintable (testSetup "2.8.0-build.111")
        (errorTestPivnet [releaseOnPivnet 0 "1.2.3-build.1" ""] (Except.ok []) none) testNow
        ["--window", "ga"] newSession =
      (some "release with version 2.8.0-build.111 not found",
       { state := (), calls := [PivnetCall.releasesList "elastic-runtime"] }) ∧
    (updateCalls (Execute testPrintable (testSetup "2.8.0-build.111")
        (errorTestPivnet twoBuildReleases (Except.ok []) none) testNow ["--window", "rc"]
        newSession).2.calls = updateCalls newSession.calls ∨
      ∃ release,
        updateCalls (Execute testPrintable (testSetup "2.8.0-build.111")
          (errorTestPivnet twoBuildReleases (Except.ok []) none) testNow ["--window", "rc"]
          newSession).2.calls = updateCalls newSession.calls ++ [("elastic-runtime", release)] ∧
        release.ID = (releaseOnPivnet 99 "2.8.0-build.111" "").ID) ∧
    updateCalls (Execute testPrintable (testSetup "2.8.0-build.111")
        (errorTestPivnet twoBuildReleases (Except.ok []) none) testNow ["--window", "rc"]
        newSession).2.calls =
      [("elastic-runtime",
        { ID := 99, Version := "2.8.0-rc.1", ReleaseType := "Release Candidate",
          ReleaseDate := "2016-05-04", EndOfSupportDate := "",
          Availability := "Selected User Groups Only" })] :=
  ⟨(@Find_first_match testPrintable [releaseOnPivnet 0 "1.2.3-build.1" ""] "").2.2.1 Unit
      (testSetup "2.8.0-build.111")
      (errorTestPivnet [releaseOnPivnet 0 "1.2.3-build.1" ""] (Except.ok []) none) testNow
      ["--window", "ga"] newSession (testOptions "ga") testKilnfile someVersion rfl rfl
      (by decide),
    (@Find_first_match testPrintable twoBuildReleases "").2.2.2 Unit
      (testSetup "2.8.0-build.111") (errorTestPivnet twoBuildReleases (Except.ok []) none)
      testNow ["--window", "rc"] newSession (testOptions "rc") testKilnfile someVersion
      [releaseOnPivnet 1 "2.8.0" ""] [releaseOnPivnet 100 "2.8.0-build.111" ""]
      (releaseOnPivnet 99 "2.8.0-build.111" "") rfl rfl rfl rfl (by decide),
    rfl⟩

/-! ### The release passed to `Update` -/

/-- C25: `Execute` makes at most one call of `Update`; the release passed to it has the
Availability "All Users" when the window is "ga" and "Selected User Groups Only" for any
other window, and its ReleaseDate is the date of `Now()` as YYYY-MM-DD. -/
theorem update_availability_and_date {σ : Type} (setup : Setup) (pivnet : PivnetServices σ)
    (now : Time) (args : List String) (s : Session σ) (options : Options)
    (kilnfile : Kilnfile) (buildVersion : semver.Version)
    (hsetup : parseArgsAndSetup isPrint setup args = Except.ok (options, kilnfile, buildVersion)) :
    updateCalls (Execute isPrint setup pivnet now args s).2.calls = updateCalls s.calls ∨
    ∃ release,
      updateCalls (Execute isPrint setup pivnet now args s).2.calls =
        updateCalls s.calls ++ [(kilnfile.Slug, release)] ∧
      (release.Availability = "All Users" ↔ options.Window = "ga") ∧
      (options.Window ≠ "ga" → release.Availability = "Selected User Groups Only") ∧
      release.ReleaseDate = now.Format := by
  have hexec : Execute isPrint setup pivnet now args s =
      updateReleaseOnPivnet isPrint pivnet now options kilnfile buildVersion s := by
    unfold Execute
    rw [hsetup]
  rw [hexec]
  rcases updateReleaseOnPivnet_updateCalls pivnet now options kilnfile buildVersion s with
    h | ⟨rv, releases, release, versionToPublish, endOfSupportDate, hrv, _, _, _, _, _, hcalls⟩
  · exact Or.inl h
  · right
    have hw := ReleaseVersionFromBuildVersion_window buildVersion options.Window rv hrv
    have hga : rv.IsGA = true ↔ options.Window = "ga" := by
      unfold releaseVersion.IsGA
      rw [hw]
      simp
    refine ⟨_, hcalls, ?_, ?_, rfl⟩
    · by_cases h : options.Window = "ga"
      · simp [hga.2 h, h]
      · have hnot : rv.IsGA = false := by
          cases hx : rv.IsGA with
          | false => rfl
          | true => exact absurd (hga.1 hx) h
        simp [hnot, h]
    · intro h
      have hnot : rv.IsGA = false := by
        cases hx : rv.IsGA with
        | false => rfl
        | true => exact absurd (hga.1 hx) h
      simp [hnot]

/-- The build 2.8.0-build.111 published in the window "rc" on 2016-05-04: the one call of
`Update` has the Availability "Selected User Groups Only" and the ReleaseDate 2016-05-04; in
the window "ga" the Availability is "All Users". -/
theorem update_availability_and_date_witness :
    (updateCalls (Execute testPrintable (testSetup "2.8.0-build.111") invalidVersionPivnet testNow
        ["--window", "rc"] newSession).2.calls = updateCalls newSession.calls ∨
      ∃ release,
        updateCalls (Execute testPrintable (testSetup "2.8.0-build.111") invalidVersionPivnet testNow
          ["--window", "rc"] newSession).2.calls =
          updateCalls newSession.calls ++ [(testKilnfile.Slug, release)] ∧
        (release.Availability = "All Users" ↔ (testOptions "rc").Window = "ga") ∧
        ((testOptions "rc").Window ≠ "ga" →
          release.Availability = "Selected User Groups Only") ∧
        release.ReleaseDate = testNow.Format) ∧
    updateCalls (Execute testPrintable (testSetup "2.8.0-build.111") invalidVersionPivnet testNow
        ["--window", "rc"] newSession).2.calls =
      [("elastic-runtime",
        { ID := 0, Version := "2.8.0-rc.1", ReleaseType := "Release Candidate",
          ReleaseDate := "2016-05-04", EndOfSupportDate := "",
          Availability := "Selected User Groups Only" })] ∧
    updateCalls (Execute testPrintable (testSetup "2.8.0-build.111") invalidVersionPivnet testNow
        ["--window", "ga"] newSession).2.calls =
      [("elastic-runtime",
        { ID := 0, Version := "2.8.0", ReleaseType := "Minor Release",
          ReleaseDate := "2016-05-04", EndOfSupportDate := "2017-02-28",
          Availability := "All Users" })] :=
  ⟨update_availability_and_date (testSetup "2.8.0-build.111") invalidVersionPivnet testNow
      ["--window", "rc"] newSession (testOptions "rc") testKilnfile someVersion rfl,
    rfl, rfl⟩

/-! ### The End of General Support date of a first release -/

set_option maxRecDepth 100000 in
/-- C18, at the failing input: published at 2016-05-05 03:02:01 in the window "ga", with the
build release alone on Pivnet, `eogsDate` returns 2017-02-28, the last day of the ninth month
after May 2016, and that is the End of General Support date of the release that `Execute`
passes to `Update`, while 300 days after the publish time it is 2017-03-01. At the time of
the test, 2016-05-04 03:02:01, the two dates are the same, 2017-02-28. -/
theorem eogsDate_not_300_days :
    eogsDate testPrintable dayAfterTestNow gaReleaseVersion
        [releaseOnPivnet 123 "2.0.0-build.45" ""] = Except.ok "2017-02-28" ∧
    (updateCalls (Execute testPrintable (testSetup "2.0.0-build.45")
        (testPivnet [releaseOnPivnet 123 "2.0.0-build.45" ""]) dayAfterTestNow
        ["--window", "ga"] newSession).2.calls).map (fun call => call.2.EndOfSupportDate) =
      ["2017-02-28"] ∧
    (dayAfterTestNow.Add (300 * 24 * 3600)).Format = "2017-03-01" ∧
    eogsDate testPrintable testNow gaReleaseVersion
        [releaseOnPivnet 123 "2.0.0-build.45" ""] = Except.ok "2017-02-28" ∧
    (testNow.Add (300 * 24 * 3600)).Format = "2017-02-28" := by
  refine ⟨rfl, rfl, ?_, rfl, ?_⟩ <;> rfl

/-! ### The version that `Execute` publishes -/

/-- C15: for a build version `M.m.p-<prerelease>` without build metadata,
`ReleaseVersionFromBuildVersion` gives for the window "ga" the release version with the text
`M.m.p`, no prerelease and the prerelease number 0, which `determineVersion` returns unchanged
whatever is published; for the windows "alpha", "beta" and "rc" it gives the release version
with the text `M.m.p-w.1` and the prerelease number 1, which `determineVersion` returns
unchanged when no published release has a version within the prerelease constraint of the
window. When `Execute` calls `Update` in these cases, it is once, and the Version of the
release passed is that text. -/
theorem releaseVersion_from_build {σ : Type} (buildVersion : semver.Version)
    (window : String) (releases : List Release) (setup : Setup) (pivnet : PivnetServices σ)
    (now : Time) (args : List String) (s : Session σ) (options : Options)
    (kilnfile : Kilnfile) (hmeta : buildVersion.metadata = "") :
    (ReleaseVersionFromBuildVersion isPrint buildVersion "ga" =
        Except.ok { semver := buildVersion.withPrerelease "", window := "ga",
                    prereleaseVersion := 0 } ∧
      (buildVersion.withPrerelease "").pre = "" ∧
      releaseVersion.str { semver := buildVersion.withPrerelease "", window := "ga",
                           prereleaseVersion := 0 } =
        toString buildVersion.major ++ "." ++ toString buildVersion.minor ++ "." ++
          toString buildVersion.patch ∧
      determineVersion isPrint releases
          { semver := buildVersion.withPrerelease "", window := "ga",
            prereleaseVersion := 0 } =
        Except.ok { semver := buildVersion.withPrerelease "", window := "ga",
                    prereleaseVersion := 0 }) ∧
    (window = "alpha" ∨ window = "beta" ∨ window = "rc" →
      ReleaseVersionFromBuildVersion isPrint buildVersion window =
        Except.ok { semver := (buildVersion.withPrerelease "").withPrerelease (window ++ ".1"),
                    window := window, prereleaseVersion := 1 } ∧
      releaseVersion.str
          { semver := (buildVersion.withPrerelease "").withPrerelease (window ++ ".1"),
            window := window, prereleaseVersion := 1 } =
        toString buildVersion.major ++ "." ++ toString buildVersion.minor ++ "." ++
          toString buildVersion.patch ++ "-" ++ window ++ ".1" ∧
      ((∀ r ∈ releases, ∀ v, semver.NewVersion r.Version = Except.ok v →
          semver.Constraints.Check
            [{ op := semver.Operator.greaterThanEqual,
               con := semver.constraintVersion buildVersion.major buildVersion.minor
                        buildVersion.patch (window ++ ".0") },
             { op := semver.Operator.lessThanEqual,
               con := semver.constraintVersion buildVersion.major buildVersion.minor
                        buildVersion.patch (window ++ ".9999") }] v = false) →
        determineVersion isPrint releases
            { semver := (buildVersion.withPrerelease "").withPrerelease (window ++ ".1"),
              window := window, prereleaseVersion := 1 } =
          Except.ok
            { semver := (buildVersion.withPrerelease "").withPrerelease (window ++ ".1"),
              window := window, prereleaseVersion := 1 })) ∧
    (parseArgsAndSetup isPrint setup args = Except.ok (options, kilnfile, buildVersion) →
      (pivnet.releasesList kilnfile.Slug s.state).1 = Except.ok releases →
      (options.Window ≠ "ga" →
        ∀ r ∈ releases, ∀ v, semver.NewVersion r.Version = Except.ok v →
          semver.Constraints.Check
            [{ op := semver.Operator.greaterThanEqual,
               con := semver.constraintVersion buildVersion.major buildVersion.minor
                        buildVersion.patch (options.Window ++ ".0") },
             { op := semver.Operator.lessThanEqual,
               con := semver.constraintVersion buildVersion.major buildVersion.minor
                        buildVersion.patch (options.Window ++ ".9999") }] v = false) →
      updateCalls (Execute isPrint setup pivnet now args s).2.calls = updateCalls s.calls ∨
      ∃ release,
        updateCalls (Execute isPrint setup pivnet now args s).2.calls =
          updateCalls s.calls ++ [(kilnfile.Slug, release)] ∧
        release.Version =
          toString buildVersion.major ++ "." ++ toString buildVersion.minor ++ "." ++
            toString buildVersion.patch ++
            (if options.Window = "ga" then "" else "-" ++ options.Window ++ ".1")) := by
  have hgaPart : ReleaseVersionFromBuildVersion isPrint buildVersion "ga" =
        Except.ok { semver := buildVersion.withPrerelease "", window := "ga",
                    prereleaseVersion := 0 } ∧
      releaseVersion.str { semver := buildVersion.withPrerelease "", window := "ga",
                           prereleaseVersion := 0 } =
        toString buildVersion.major ++ "." ++ toString buildVersion.minor ++ "." ++
          toString buildVersion.patch ∧
      determineVersion isPrint releases
          { semver := buildVersion.withPrerelease "", window := "ga",
            prereleaseVersion := 0 } =
        Except.ok { semver := buildVersion.withPrerelease "", window := "ga",
                    prereleaseVersion := 0 } := by
    refine ⟨rfl, ?_, ?_⟩
    · simp [releaseVersion.str, withPrerelease_str, semver.Version.str, hmeta]
    · simp [determineVersion, releaseVersion.IsGA]
  have hprePart : ∀ w : String, (w = "alpha" ∨ w = "beta" ∨ w = "rc") →
      ReleaseVersionFromBuildVersion isPrint buildVersion w =
        Except.ok { semver := (buildVersion.withPrerelease "").withPrerelease (w ++ ".1"),
                    window := w, prereleaseVersion := 1 } ∧
      releaseVersion.str
          { semver := (buildVersion.withPrerelease "").withPrerelease (w ++ ".1"),
            window := w, prereleaseVersion := 1 } =
        toString buildVersion.major ++ "." ++ toString buildVersion.minor ++ "." ++
          toString buildVersion.patch ++ "-" ++ w ++ ".1" ∧
      ((∀ r ∈ releases, ∀ v, semver.NewVersion r.Version = Except.ok v →
          semver.Constraints.Check
            [{ op := semver.Operator.greaterThanEqual,
               con := semver.constraintVersion buildVersion.major buildVersion.minor
                        buildVersion.patch (w ++ ".0") },
             { op := semver.Operator.lessThanEqual,
               con := semver.constraintVersion buildVersion.major buildVersion.minor
                        buildVersion.patch (w ++ ".9999") }] v = false) →
        determineVersion isPrint releases
            { semver := (buildVersion.withPrerelease "").withPrerelease (w ++ ".1"),
              window := w, prereleaseVersion := 1 } =
          Except.ok
            { semver := (buildVersion.withPrerelease "").withPrerelease (w ++ ".1"),
              window := w, prereleaseVersion := 1 }) := by
    intro w hw
    have hfacts : semver.validIdentifiers w.data = true ∧
        (w == "ga") = false ∧ w ++ ".1" ≠ "" := by
      rcases hw with hw | hw | hw <;> subst hw <;> decide
    obtain ⟨hv1, hga, hne⟩ := hfacts
    refine ⟨?_, ?_, ?_⟩
    · have h := @ReleaseVersionFromBuildVersion_accepted isPrint buildVersion w
        (by rcases hw with hw | hw | hw <;> simp [hw])
      have hnot : w ≠ "ga" := by
        rcases hw with hw | hw | hw <;> subst hw <;> decide
      rw [h]
      simp [hnot]
    · simp [releaseVersion.str, withPrerelease_str, semver.Version.str, hne, hmeta,
        String.append_assoc]
    · intro hnone
      unfold determineVersion
      have hga2 : releaseVersion.IsGA
          ⟨(buildVersion.withPrerelease "").withPrerelease (w ++ ".1"), w, 1⟩ = false := hga
      rw [hga2, PrereleaseVersionsConstraint_ok _ hga2 hv1]
      simp only [Bool.false_eq_true, if_false, withPrerelease_major, withPrerelease_minor,
        withPrerelease_patch]
      rw [FindLatest_eq_none releases _ hnone]
  refine ⟨⟨hgaPart.1, rfl, hgaPart.2.1, hgaPart.2.2⟩, hprePart window, ?_⟩
  intro hsetup hlist hnone
  have hexec : Execute isPrint setup pivnet now args s =
      updateReleaseOnPivnet isPrint pivnet now options kilnfile buildVersion s := by
    unfold Execute
    rw [hsetup]
  rw [hexec]
  have hwin := parseArgsAndSetup_window setup args options kilnfile buildVersion hsetup
  rcases updateReleaseOnPivnet_updateCalls pivnet now options kilnfile buildVersion s with
    h | ⟨rv, listed, release, versionToPublish, endOfSupportDate, hrv, hlisted, _, hdet, _, _,
      hcalls⟩
  · exact Or.inl h
  · right
    rw [hlist] at hlisted
    cases hlisted
    refine ⟨_, hcalls, ?_⟩
    show versionToPublish.str = _
    by_cases hga : options.Window = "ga"
    · rw [hga, hgaPart.1] at hrv
      cases hrv
      rw [hgaPart.2.2] at hdet
      cases hdet
      rw [if_pos hga, hgaPart.2.1]
      simp
    · have hw : options.Window = "alpha" ∨ options.Window = "beta" ∨
          options.Window = "rc" := by
        rcases hwin with h | h | h | h
        · exact absurd h hga
        · exact Or.inr (Or.inr h)
        · exact Or.inr (Or.inl h)
        · exact Or.inl h
      obtain ⟨hbuild, hstr, hsame⟩ := hprePart options.Window hw
      rw [hbuild] at hrv
      cases hrv
      rw [hsame (hnone hga)] at hdet
      cases hdet
      rw [if_neg hga, hstr]
      simp [String.append_assoc]

/-- The alpha test: the build version 2.0.0-build.45 gives 2.0.0-alpha.1, and that is the
Version of the release that `Execute` passes to `Update` when Pivnet holds the build release
only. -/
theorem releaseVersion_from_build_witness :
    ReleaseVersionFromBuildVersion testPrintable ⟨2, 0, 0, "build.45", "", "2.0.0-build.45"⟩
        "alpha" =
      Except.ok { semver := ⟨2, 0, 0, "alpha.1", "", "2.0.0-alpha.1"⟩, window := "alpha",
                  prereleaseVersion := 1 } ∧
    (updateCalls (Execute testPrintable (testSetup "2.0.0-build.45")
        (testPivnet [releaseOnPivnet 123 "2.0.0-build.45" ""]) testNow ["--window", "alpha"]
        newSession).2.calls = updateCalls newSession.calls ∨
      ∃ release,
        updateCalls (Execute testPrintable (testSetup "2.0.0-build.45")
          (testPivnet [releaseOnPivnet 123 "2.0.0-build.45" ""]) testNow ["--window", "alpha"]
          newSession).2.calls = updateCalls newSession.calls ++ [("elastic-runtime", release)] ∧
        release.Version = "2.0.0-alpha.1") ∧
    (updateCalls (Execute testPrintable (testSetup "2.0.0-build.45")
        (testPivnet [releaseOnPivnet 123 "2.0.0-build.45" ""]) testNow ["--window", "alpha"]
        newSession).2.calls).map (fun call => call.2.Version) = ["2.0.0-alpha.1"] :=
  ⟨((@releaseVersion_from_build testPrintable Unit ⟨2, 0, 0, "build.45", "", "2.0.0-build.45"⟩
      "alpha" [releaseOnPivnet 123 "2.0.0-build.45" ""] (testSetup "2.0.0-build.45")
      (testPivnet [releaseOnPivnet 123 "2.0.0-build.45" ""]) testNow ["--window", "alpha"]
      newSession (testOptions "alpha") testKilnfile rfl).2.1 (Or.inl rfl)).1,
    (@releaseVersion_from_build testPrintable Unit ⟨2, 0, 0, "build.45", "", "2.0.0-build.45"⟩
      "alpha" [releaseOnPivnet 123 "2.0.0-build.45" ""] (testSetup "2.0.0-build.45")
      (testPivnet [releaseOnPivnet 123 "2.0.0-build.45" ""]) testNow ["--window", "alpha"]
      newSession (testOptions "alpha") testKilnfile rfl).2.2 rfl rfl
      (by
        intro _ r hr v hv
        rw [List.mem_singleton] at hr
        subst hr
        have hparse : semver.NewVersion (releaseOnPivnet 123 "2.0.0-build.45" "").Version =
            Except.ok ⟨2, 0, 0, "build.45", "", "2.0.0-build.45"⟩ := rfl
        rw [hparse] at hv
        cases hv
        decide),
    rfl⟩

/-! ### `FindLatest` for any constraint -/

theorem mem_sortSliceDescending {α : Type} (less : α → α → Bool) (l : List α) (y : α) :
    y ∈ sortSliceDescending less l ↔ y ∈ l := by
  have hgen : ∀ (rest acc : List α),
      y ∈ rest.foldl (fun sorted x => insertFromRight less x sorted) acc ↔
        y ∈ acc ∨ y ∈ rest := by
    intro rest
    induction rest with
    | nil => intro acc; simp
    | cons x xs ih =>
      intro acc
      rw [List.foldl_cons, ih, mem_insertFromRight, List.mem_cons]
      tauto
  unfold sortSliceDescending
  rw [hgen]
  simp

theorem FindLatest_eq_none_iff (rs : List Release) (constraint : semver.Constraints) :
    releaseSet.FindLatest rs constraint = none ↔
      ∀ r ∈ rs, satisfiesConstraint constraint r = false := by
  unfold releaseSet.FindLatest
  rw [List.head?_eq_none_iff]
  constructor
  · intro h r hr
    cases hsat : satisfiesConstraint constraint r with
    | false => rfl
    | true =>
      have : r ∈ sortSliceDescending releaseLess (rs.filter (satisfiesConstraint constraint)) :=
        (mem_sortSliceDescending _ _ _).2 (List.mem_filter.2 ⟨hr, hsat⟩)
      rw [h] at this
      cases this
  · intro h
    have hfilter : rs.filter (satisfiesConstraint constraint) = [] := by
      rw [List.filter_eq_nil_iff]
      intro r hr
      rw [h r hr]
      simp
    rw [hfilter]
    rfl

theorem FindLatest_mem (rs : List Release) (constraint : semver.Constraints)
    (latest : Release) (h : releaseSet.FindLatest rs constraint = some latest) :
    latest ∈ rs ∧ satisfiesConstraint constraint latest = true := by
  unfold releaseSet.FindLatest at h
  have hmem : latest ∈
      sortSliceDescending releaseLess (rs.filter (satisfiesConstraint constraint)) :=
    List.mem_of_mem_head? h
  exact List.mem_filter.1 ((mem_sortSliceDescending _ _ _).1 hmem)

/-- The release `sort.Slice` puts last has the greatest key, for a comparison that follows a
key: an element of a smaller key is less, and a less element has no greater key. -/
theorem sortSliceDescending_head_max {α : Type} (less : α → α → Bool) (key : α → Int)
    (l : List α)
    (hless : ∀ a ∈ l, ∀ b ∈ l, less a b = true → key a ≤ key b)
    (hkey : ∀ a ∈ l, ∀ b ∈ l, key a < key b → less a b = true)
    (x : α) (hx : (sortSliceDescending less l).head? = some x) :
    ∀ y ∈ l, key y ≤ key x := by
  have hinsert : ∀ (a : α) (acc : List α), a ∈ l → (∀ z ∈ acc, z ∈ l) →
      (∀ top, acc.head? = some top → ∀ z ∈ acc, key z ≤ key top) →
      ∀ top, (insertFromRight less a acc).head? = some top →
        ∀ z ∈ insertFromRight less a acc, key z ≤ key top := by
    intro a acc ha hacc hmax top htop z hz
    cases acc with
    | nil =>
      simp only [insertFromRight, List.head?_cons, Option.some.injEq] at htop
      simp only [insertFromRight, List.mem_singleton] at hz
      rw [hz, htop]
    | cons b bs =>
      have hb : b ∈ l := hacc b (List.mem_cons_self _ _)
      have hbmax := hmax b rfl
      rcases (mem_insertFromRight less a z (b :: bs)).1 hz with hza | hzb
      · unfold insertFromRight at htop
        by_cases hab : less a b = true
        · rw [if_pos hab] at htop
          simp only [List.head?_cons, Option.some.injEq] at htop
          rw [hza, ← htop]
          exact hless a ha b hb hab
        · rw [if_neg hab] at htop
          simp only [List.head?_cons, Option.some.injEq] at htop
          rw [hza, htop]
      · unfold insertFromRight at htop
        by_cases hab : less a b = true
        · rw [if_pos hab] at htop
          simp only [List.head?_cons, Option.some.injEq] at htop
          rw [← htop]
          exact hbmax z hzb
        · rw [if_neg hab] at htop
          simp only [List.head?_cons, Option.some.injEq] at htop
          rw [← htop]
          have hba : key b ≤ key a := by
            by_contra hlt
            exact hab (hkey a ha b hb (by omega))
          exact le_trans (hbmax z hzb) hba
  have hgen : ∀ (rest acc : List α), (∀ z ∈ rest, z ∈ l) → (∀ z ∈ acc, z ∈ l) →
      (∀ top, acc.head? = some top → ∀ z ∈ acc, key z ≤ key top) →
      ∀ top, (rest.foldl (fun sorted a => insertFromRight less a sorted) acc).head? =
        some top →
        ∀ z ∈ rest.foldl (fun sorted a => insertFromRight less a sorted) acc,
          key z ≤ key top := by
    intro rest
    induction rest with
    | nil =>
      intro acc _ _ hmax top htop z hz
      exact hmax top htop z hz
    | cons a as ih =>
      intro acc hrest hacc hmax
      rw [List.foldl_cons]
      have ha : a ∈ l := hrest a (List.mem_cons_self _ _)
      apply ih (insertFromRight less a acc)
        (fun z hz => hrest z (List.mem_cons_of_mem _ hz))
      · intro z hz
        rcases (mem_insertFromRight less a z acc).1 hz with h | h
        · rw [h]; exact ha
        · exact hacc z h
      · exact hinsert a acc ha hacc hmax
  intro y hy
  have hmem : y ∈ sortSliceDescending less l := (mem_sortSliceDescending less l y).2 hy
  exact hgen l [] (fun _ h => h) (fun _ h => by cases h) (fun _ h => by cases h) x hx y hmem

/-- The test of `FindLatest` holds of a release iff its Version is a version that satisfies
the constraint. -/
theorem satisfiesConstraint_iff (constraint : semver.Constraints) (r : Release) :
    satisfiesConstraint constraint r = true ↔
      ∃ v, semver.NewVersion r.Version = Except.ok v ∧
        semver.Constraints.Check constraint v = true := by
  unfold satisfiesConstraint
  cases hv : semver.NewVersion r.Version with
  | error e => simp
  | ok v => simp

/-- When the versions that satisfy the constraint have no prerelease, the release that
`FindLatest` returns has a version whose numbers are not below those of the version of any
release that satisfies the constraint. -/
theorem FindLatest_numbers_max (rs : List Release) (constraint : semver.Constraints)
    (hpre : ∀ r ∈ rs, ∀ v, semver.NewVersion r.Version = Except.ok v →
      semver.Constraints.Check constraint v = true → v.pre = "")
    (latest : Release) (hfind : releaseSet.FindLatest rs constraint = some latest) :
    ∃ greatest : semver.Version, semver.NewVersion latest.Version = Except.ok greatest ∧
      ∀ r ∈ rs, ∀ v, semver.NewVersion r.Version = Except.ok v →
        semver.Constraints.Check constraint v = true →
        (v.major < greatest.major ∨ (v.major = greatest.major ∧
          (v.minor < greatest.minor ∨
            (v.minor = greatest.minor ∧ v.patch ≤ greatest.patch)))) := by
  have hless : ∀ a ∈ rs, ∀ b ∈ rs, satisfiesConstraint constraint a = true →
      satisfiesConstraint constraint b = true →
      ∃ va vb : semver.Version, (releaseLess a b = true ↔
        va.major < vb.major ∨ (va.major = vb.major ∧
          (va.minor < vb.minor ∨ (va.minor = vb.minor ∧ va.patch < vb.patch)))) ∧
        semver.NewVersion a.Version = Except.ok va ∧
        semver.NewVersion b.Version = Except.ok vb := by
    intro a ha b hb hsa hsb
    obtain ⟨va, hva, hca⟩ := (satisfiesConstraint_iff constraint a).1 hsa
    obtain ⟨vb, hvb, hcb⟩ := (satisfiesConstraint_iff constraint b).1 hsb
    refine ⟨va, vb, ?_, hva, hvb⟩
    unfold releaseLess
    rw [hva, hvb]
    exact LessThan_of_no_prerelease va vb (hpre a ha va hva hca) (hpre b hb vb hvb hcb)
  obtain ⟨hmem, hsat⟩ := FindLatest_mem rs constraint latest hfind
  obtain ⟨found, hfound, _, _, hmax⟩ := FindLatest_spec rs constraint
    (by
      intro a ha b hb hsa hsb hab
      obtain ⟨va, vb, h1, hva, hvb⟩ := hless a ha b hb hsa hsb
      obtain ⟨vb', va', h2, hvb', hva'⟩ := hless b hb a ha hsb hsa
      rw [hva] at hva'
      rw [hvb] at hvb'
      cases hva'
      cases hvb'
      cases hba : releaseLess b a with
      | false => rfl
      | true =>
        have := h1.1 hab
        have := h2.1 hba
        omega)
    (by
      intro a ha b hb c hc hsa hsb hsc hab hbc
      obtain ⟨va, vb, h1, hva, hvb⟩ := hless a ha b hb hsa hsb
      obtain ⟨vb', vc, h2, hvb', hvc⟩ := hless b hb c hc hsb hsc
      obtain ⟨va', vc', h3, hva', hvc'⟩ := hless a ha c hc hsa hsc
      rw [hva] at hva'
      rw [hvb] at hvb'
      rw [hvc] at hvc'
      cases hva'
      cases hvb'
      cases hvc'
      cases hac : releaseLess a c with
      | false => rfl
      | true =>
        have h1' : ¬ _ := fun h => by rw [h1.2 h] at hab; cases hab
        have h2' : ¬ _ := fun h => by rw [h2.2 h] at hbc; cases hbc
        have := h3.1 hac
        omega)
    ⟨latest, hmem, hsat⟩
  rw [hfind] at hfound
  cases hfound
  obtain ⟨greatest, hgreatest, _⟩ := (satisfiesConstraint_iff constraint latest).1 hsat
  refine ⟨greatest, hgreatest, ?_⟩
  intro r hr v hv hc
  have hrsat : satisfiesConstraint constraint r = true :=
    (satisfiesConstraint_iff constraint r).2 ⟨v, hv, hc⟩
  obtain ⟨vl, v', hiff, hvl, hv'⟩ := hless latest hmem r hr hsat hrsat
  rw [hgreatest] at hvl
  rw [hv] at hv'
  cases hvl
  cases hv'
  have hnot : ¬ (greatest.major < v.major ∨ (greatest.major = v.major ∧
      (greatest.minor < v.minor ∨ (greatest.minor = v.minor ∧
        greatest.patch < v.patch)))) := by
    intro h
    have := hiff.2 h
    rw [hmax r hr hrsat] at this
    cases this
  omega

/-- Releases with the versions `M.m.p-w.a` and `M.m.p-w.b`, for numbers that fit a `uint64`, are
ordered by `a` and `b`. -/
theorem releaseLess_numbers (r1 r2 : Release) (major minor patch : Nat)
    (window : String) (a b : Nat) (ma mb oa ob : String) (hw : '.' ∉ window.data)
    (ha : a < 2 ^ 64) (hb : b < 2 ^ 64)
    (h1 : semver.NewVersion r1.Version =
      Except.ok ⟨major, minor, patch, window ++ "." ++ toString a, ma, oa⟩)
    (h2 : semver.NewVersion r2.Version =
      Except.ok ⟨major, minor, patch, window ++ "." ++ toString b, mb, ob⟩) :
    releaseLess r1 r2 = true ↔ a < b := by
  unfold releaseLess
  rw [h1, h2]
  simp only [semver.Version.LessThan, decide_eq_true_eq]
  rw [Compare_window_numbers major minor patch window a b ma mb oa ob hw ha hb]
  by_cases hab : a = b
  · simp [hab]
  · by_cases hgt : a > b
    · simp only [hab, hgt, if_false, if_true]
      constructor
      · intro h; norm_num at h
      · intro h; omega
    · simp only [hab, hgt, if_false]
      constructor
      · intro _; omega
      · intro _; norm_num

/-- C23 (as amended): `FindLatest` skips a release whose Version is no semantic version: with or
without it the result is the same. It finds no release iff no release has a version that
parses and satisfies the constraint, and a release it finds is in the list and has a version
that satisfies the constraint. When the versions that satisfy the constraint have no
prerelease, the numbers (major, minor, patch, in this order) of the version found are not
below those of any version that satisfies the constraint. When the versions that satisfy the
constraint are `M.m.p-w.k` for one `M.m.p` and one window `w` without a dot, with numbers `k`
that fit a `uint64` and are written without zeros in front, the release found has the greatest
number `k`. -/
theorem FindLatest_latest (rs : List Release) (constraint : semver.Constraints) :
    (∀ before after r, rs = before ++ r :: after →
      (∀ v, semver.NewVersion r.Version ≠ Except.ok v) →
      releaseSet.FindLatest rs constraint = releaseSet.FindLatest (before ++ after) constraint) ∧
    (releaseSet.FindLatest rs constraint = none ↔
      ∀ r ∈ rs, ∀ v, semver.NewVersion r.Version = Except.ok v →
        semver.Constraints.Check constraint v = false) ∧
    (∀ latest, releaseSet.FindLatest rs constraint = some latest →
      latest ∈ rs ∧ ∃ v, semver.NewVersion latest.Version = Except.ok v ∧
        semver.Constraints.Check constraint v = true) ∧
    ((∀ r ∈ rs, ∀ v, semver.NewVersion r.Version = Except.ok v →
        semver.Constraints.Check constraint v = true → v.pre = "") →
      ∀ latest, releaseSet.FindLatest rs constraint = some latest →
        ∃ greatest : semver.Version, semver.NewVersion latest.Version = Except.ok greatest ∧
          ∀ r ∈ rs, ∀ v, semver.NewVersion r.Version = Except.ok v →
            semver.Constraints.Check constraint v = true →
            (v.major < greatest.major ∨ (v.major = greatest.major ∧
              (v.minor < greatest.minor ∨
                (v.minor = greatest.minor ∧ v.patch ≤ greatest.patch))))) ∧
    (∀ (major minor patch : Nat) (window : String) (number : Release → Nat),
      '.' ∉ window.data →
      (∀ r ∈ rs, ∀ v, semver.NewVersion r.Version = Except.ok v →
        semver.Constraints.Check constraint v = true →
        number r < 2 ^ 64 ∧
        v = ⟨major, minor, patch, window ++ "." ++ toString (number r), v.metadata,
          r.Version⟩) →
      ∀ latest, releaseSet.FindLatest rs constraint = some latest →
        ∀ r ∈ rs, ∀ v, semver.NewVersion r.Version = Except.ok v →
          semver.Constraints.Check constraint v = true → number r ≤ number latest) := by
  refine ⟨?_, ?_, ?_, ?_, ?_⟩
  · intro before after r hsplit hinvalid
    have hr : satisfiesConstraint constraint r = false := by
      cases h : satisfiesConstraint constraint r with
      | false => rfl
      | true =>
        obtain ⟨v, hv, _⟩ := (satisfiesConstraint_iff constraint r).1 h
        exact absurd hv (hinvalid v)
    unfold releaseSet.FindLatest
    rw [hsplit, List.filter_append, List.filter_cons, hr, List.filter_append]
    simp
  · rw [FindLatest_eq_none_iff]
    constructor
    · intro h r hr v hv
      have := h r hr
      unfold satisfiesConstraint at this
      rw [hv] at this
      exact this
    · intro h r hr
      unfold satisfiesConstraint
      cases hv : semver.NewVersion r.Version with
      | error e => rfl
      | ok v => exact h r hr v hv
  · intro latest hlatest
    obtain ⟨hmem, hs⟩ := FindLatest_mem rs constraint latest hlatest
    exact ⟨hmem, (satisfiesConstraint_iff constraint latest).1 hs⟩
  · intro hpre latest hlatest
    exact FindLatest_numbers_max rs constraint hpre latest hlatest
  · intro major minor patch window number hw hform latest hlatest r hr v hv hc
    have hparse : ∀ a ∈ rs.filter (satisfiesConstraint constraint),
        number a < 2 ^ 64 ∧ ∃ metadata, semver.NewVersion a.Version =
          Except.ok ⟨major, minor, patch, window ++ "." ++ toString (number a), metadata,
            a.Version⟩ := by
      intro a ha
      obtain ⟨hamem, hasat⟩ := List.mem_filter.1 ha
      obtain ⟨va, hva, hca⟩ := (satisfiesConstraint_iff constraint a).1 hasat
      obtain ⟨hbound, hshape⟩ := hform a hamem va hva hca
      refine ⟨hbound, va.metadata, ?_⟩
      rw [hva]
      exact congrArg Except.ok hshape
    have hmax := sortSliceDescending_head_max releaseLess (fun a => (number a : Int))
      (rs.filter (satisfiesConstraint constraint))
      (by
        intro a ha b hb hab
        obtain ⟨hna, ma, hpa⟩ := hparse a ha
        obtain ⟨hnb, mb, hpb⟩ := hparse b hb
        have := (releaseLess_numbers a b major minor patch window (number a) (number b) ma mb
          _ _ hw hna hnb hpa hpb).1 hab
        simp only [Nat.cast_le]
        omega)
      (by
        intro a ha b hb hab
        obtain ⟨hna, ma, hpa⟩ := hparse a ha
        obtain ⟨hnb, mb, hpb⟩ := hparse b hb
        simp only [Nat.cast_lt] at hab
        exact (releaseLess_numbers a b major minor patch window (number a) (number b) ma mb
          _ _ hw hna hnb hpa hpb).2 hab)
      latest hlatest r
      (List.mem_filter.2 ⟨hr, (satisfiesConstraint_iff constraint r).2 ⟨v, hv, hc⟩⟩)
    simp only [Nat.cast_le] at hmax
    exact hmax

/-- The test "a release on PivNet has an invalid version": the release whose version is no
version plays no part. Among the releases at a publish of 2.1.6, with the patch releases 2.1.3,
2.1.5 and 2.1.4 in this order, the release found for `~2.1.0` is 2.1.5; among the releases of
the rc test the release found for the rc constraint is 2.0.0-rc.2, of the greatest number. -/
theorem FindLatest_latest_witness :
    releaseSet.FindLatest
        [releaseOnPivnet 0 "2.8.0-build.111" "", releaseOnPivnet 0 "invalid version" ""]
        rcConstraint =
      releaseSet.FindLatest ([releaseOnPivnet 0 "2.8.0-build.111" ""] ++ []) rcConstraint ∧
    (∃ greatest : semver.Version,
      semver.NewVersion (releaseOnPivnet 5 "2.1.5" "2019-05-05").Version =
        Except.ok greatest ∧
      ∀ r ∈ severalPatchReleases, ∀ v, semver.NewVersion r.Version = Except.ok v →
        semver.Constraints.Check
          [{ op := semver.Operator.tilde, con := semver.constraintVersion 2 1 0 "" }] v =
            true →
        (v.major < greatest.major ∨ (v.major = greatest.major ∧
          (v.minor < greatest.minor ∨
            (v.minor = greatest.minor ∧ v.patch ≤ greatest.patch))))) ∧
    releaseSet.FindLatest severalPatchReleases
        [{ op := semver.Operator.tilde, con := semver.constraintVersion 2 1 0 "" }] =
      some (releaseOnPivnet 5 "2.1.5" "2019-05-05") ∧
    (1 : Nat) ≤ 2 ∧
    releaseSet.FindLatest rcTestReleases rcConstraint =
      some (releaseOnPivnet 0 "2.0.0-rc.2" "") :=
  ⟨(FindLatest_latest
      [releaseOnPivnet 0 "2.8.0-build.111" "", releaseOnPivnet 0 "invalid version" ""]
      rcConstraint).1 [releaseOnPivnet 0 "2.8.0-build.111" ""] []
      (releaseOnPivnet 0 "invalid version" "") rfl
      (by
        intro v hv
        have herr : semver.NewVersion (releaseOnPivnet 0 "invalid version" "").Version =
            Except.error "Invalid Semantic Version" := rfl
        rw [herr] at hv
        cases hv),
    (FindLatest_latest severalPatchReleases
      [{ op := semver.Operator.tilde, con := semver.constraintVersion 2 1 0 "" }]).2.2.2.1
      (fun _ _ v _ hc => tilde_check_no_prerelease 2 1 v hc)
      (releaseOnPivnet 5 "2.1.5" "2019-05-05") rfl,
    rfl,
    (FindLatest_latest rcTestReleases rcConstraint).2.2.2.2 2 0 0 "rc"
      (fun r => if r.Version = "2.0.0-rc.2" then 2 else 1) (by decide)
      (by
        intro r hr v hv hc
        simp only [rcTestReleases, List.mem_cons, List.mem_singleton, List.not_mem_nil,
          or_false] at hr
        rcases hr with hr | hr | hr
        · subst hr
          have hp : semver.NewVersion (releaseOnPivnet 123 "2.0.0-build.45" "").Version =
              Except.ok ⟨2, 0, 0, "build.45", "", "2.0.0-build.45"⟩ := rfl
          rw [hp] at hv
          cases hv
          exact absurd hc (by decide)
        · subst hr
          have hp : semver.NewVersion (releaseOnPivnet 0 "2.0.0-rc.2" "").Version =
              Except.ok ⟨2, 0, 0, "rc.2", "", "2.0.0-rc.2"⟩ := rfl
          rw [hp] at hv
          cases hv
          exact ⟨by decide, by decide⟩
        · subst hr
          have hp : semver.NewVersion (releaseOnPivnet 0 "2.0.0-rc.1" "").Version =
              Except.ok ⟨2, 0, 0, "rc.1", "", "2.0.0-rc.1"⟩ := rfl
          rw [hp] at hv
          cases hv
          exact ⟨by decide, by decide⟩)
      (releaseOnPivnet 0 "2.0.0-rc.2" "") rfl (releaseOnPivnet 0 "2.0.0-rc.1" "") (by decide)
      ⟨2, 0, 0, "rc.1", "", "2.0.0-rc.1"⟩ rfl (by decide),
    rfl⟩

/-- C23, counterexample: the versions 2.0.0-rc.01 and 2.0.0-rc.1 both satisfy the constraint
`>= 2.0.0-rc.0, <= 2.0.0-rc.9999`, and each is `LessThan` the other. `FindLatest` returns the
release that comes first in the list: 2.0.0-rc.01 when it is listed first, whose version is
less than that of the other release, and 2.0.0-rc.1 when the two are listed the other way
round. -/
theorem FindLatest_not_greatest :
    releaseSet.FindLatest leadingZeroReleases rcConstraint =
      some (releaseOnPivnet 1 "2.0.0-rc.01" "") ∧
    releaseSet.FindLatest leadingZeroReleases.reverse rcConstraint =
      some (releaseOnPivnet 2 "2.0.0-rc.1" "") ∧
    releaseOnPivnet 2 "2.0.0-rc.1" "" ∈ leadingZeroReleases ∧
    satisfiesConstraint rcConstraint (releaseOnPivnet 2 "2.0.0-rc.1" "") = true ∧
    semver.Version.LessThan ⟨2, 0, 0, "rc.01", "", "2.0.0-rc.01"⟩
      ⟨2, 0, 0, "rc.1", "", "2.0.0-rc.1"⟩ = true ∧
    semver.Version.LessThan ⟨2, 0, 0, "rc.1", "", "2.0.0-rc.1"⟩
      ⟨2, 0, 0, "rc.01", "", "2.0.0-rc.01"⟩ = true ∧
    semver.NewVersion "2.0.0-rc.01" = Except.ok ⟨2, 0, 0, "rc.01", "", "2.0.0-rc.01"⟩ ∧
    semver.NewVersion "2.0.0-rc.1" = Except.ok ⟨2, 0, 0, "rc.1", "", "2.0.0-rc.1"⟩ := by
  refine ⟨by decide, by decide, by decide, by decide, by decide, by decide, rfl, rfl⟩

/-! ### File names of located releases -/

theorem split_at_first (sep : Char) (xs xs' ys ys' : List Char) (h1 : sep ∉ xs)
    (h2 : sep ∉ xs') (h : xs ++ sep :: ys = xs' ++ sep :: ys') : xs = xs' ∧ ys = ys' := by
  induction xs generalizing xs' with
  | nil =>
    cases xs' with
    | nil => simpa using h
    | cons c cs =>
      simp only [List.nil_append, List.cons_append, List.cons.injEq] at h
      exact absurd (h.1 ▸ List.mem_cons_self _ _) h2
  | cons x xs ih =>
    cases xs' with
    | nil =>
      simp only [List.nil_append, List.cons_append, List.cons.injEq] at h
      exact absurd (h.1 ▸ List.mem_cons_self _ _) h1
    | cons c cs =>
      simp only [List.cons_append, List.cons.injEq] at h
      obtain ⟨hxs, hys⟩ := ih cs (fun hm => h1 (List.mem_cons_of_mem _ hm))
        (fun hm => h2 (List.mem_cons_of_mem _ hm)) h.2
      exact ⟨by rw [h.1, hxs], hys⟩

theorem split_at_last (sep : Char) (xs xs' ys ys' : List Char) (h1 : sep ∉ ys)
    (h2 : sep ∉ ys') (h : xs ++ sep :: ys = xs' ++ sep :: ys') : xs = xs' ∧ ys = ys' := by
  have hrev := congrArg List.reverse h
  simp only [List.reverse_append, List.reverse_cons, List.append_assoc, List.singleton_append]
    at hrev
  obtain ⟨hys, hxs⟩ := split_at_first sep ys.reverse ys'.reverse xs.reverse xs'.reverse
    (by simpa using h1) (by simpa using h2) hrev
  exact ⟨List.reverse_injective hxs, List.reverse_injective hys⟩

theorem hyphenFree_iff (s : String) : hyphenFree s = true ↔ '-' ∉ s.data := by
  unfold hyphenFree
  simp

theorem localFileName_built_data (b : BuiltRelease) :
    (localFileName (ReleaseInfoDownloader.built b)).data =
      b.ID.Name.data ++ '-' :: (b.ID.Version.data ++ ".tgz".data) := by
  simp [localFileName, String.data_append]

theorem localFileName_compiled_data (c : CompiledRelease) :
    (localFileName (ReleaseInfoDownloader.compiled c)).data =
      c.ID.Name.data ++ '-' :: (c.ID.Version.data ++ '-' :: (c.StemcellOS.data ++
        '-' :: (c.StemcellVersion.data ++ ".tgz".data))) := by
  simp [localFileName, String.data_append]

theorem ReleaseID_eq_of_data (a b : ReleaseID) (hn : a.Name.data = b.Name.data)
    (hv : a.Version.data = b.Version.data) : a = b := by
  cases a
  cases b
  simp only [ReleaseID.mk.injEq]
  exact ⟨String.ext hn, String.ext hv⟩

/-- C26 (as amended): two located releases with different ReleaseIDs have different local file
names when their names and versions hold no hyphen; and so have, when their versions hold no
hyphen, two built releases, and two compiled releases of the same stemcell. -/
theorem distinct_ids_distinct_file_names :
    (∀ a b : ReleaseInfoDownloader, a.ID ≠ b.ID →
      hyphenFree a.ID.Name = true → hyphenFree a.ID.Version = true →
      hyphenFree b.ID.Name = true → hyphenFree b.ID.Version = true →
      localFileName a ≠ localFileName b) ∧
    (∀ a b : BuiltRelease, a.ID ≠ b.ID →
      hyphenFree a.ID.Version = true → hyphenFree b.ID.Version = true →
      localFileName (ReleaseInfoDownloader.built a) ≠
        localFileName (ReleaseInfoDownloader.built b)) ∧
    (∀ a b : CompiledRelease, a.ID ≠ b.ID →
      a.StemcellOS = b.StemcellOS → a.StemcellVersion = b.StemcellVersion →
      hyphenFree a.ID.Version = true → hyphenFree b.ID.Version = true →
      localFileName (ReleaseInfoDownloader.compiled a) ≠
        localFileName (ReleaseInfoDownloader.compiled b)) := by
  have htgz : '-' ∉ ".tgz".data := by decide
  refine ⟨?_, ?_, ?_⟩
  · intro a b hid han hav hbn hbv heq
    rw [hyphenFree_iff] at han hav hbn hbv
    have hdata := congrArg String.data heq
    cases a with
    | built x =>
      cases b with
      | built y =>
        rw [localFileName_built_data, localFileName_built_data] at hdata
        obtain ⟨hn, hrest⟩ := split_at_first '-' _ _ _ _ han hbn hdata
        exact hid (ReleaseID_eq_of_data _ _ hn (List.append_cancel_right hrest))
      | compiled y =>
        rw [localFileName_built_data, localFileName_compiled_data] at hdata
        obtain ⟨_, hrest⟩ := split_at_first '-' _ _ _ _ han hbn hdata
        have hmem : '-' ∈ x.ID.Version.data ++ ".tgz".data := by
          rw [hrest]
          simp
        rcases List.mem_append.1 hmem with h | h
        · exact hav h
        · exact htgz h
    | compiled x =>
      cases b with
      | built y =>
        rw [localFileName_compiled_data, localFileName_built_data] at hdata
        obtain ⟨_, hrest⟩ := split_at_first '-' _ _ _ _ han hbn hdata
        have hmem : '-' ∈ y.ID.Version.data ++ ".tgz".data := by
          rw [← hrest]
          simp
        rcases List.mem_append.1 hmem with h | h
        · exact hbv h
        · exact htgz h
      | compiled y =>
        rw [localFileName_compiled_data, localFileName_compiled_data] at hdata
        obtain ⟨hn, hrest⟩ := split_at_first '-' _ _ _ _ han hbn hdata
        obtain ⟨hv, _⟩ := split_at_first '-' _ _ _ _ hav hbv hrest
        exact hid (ReleaseID_eq_of_data _ _ hn hv)
  · intro a b hid hav hbv heq
    rw [hyphenFree_iff] at hav hbv
    have hdata := congrArg String.data heq
    rw [localFileName_built_data, localFileName_built_data] at hdata
    have h1 : '-' ∉ a.ID.Version.data ++ ".tgz".data := by
      intro hmem
      rcases List.mem_append.1 hmem with h | h
      · exact hav h
      · exact htgz h
    have h2 : '-' ∉ b.ID.Version.data ++ ".tgz".data := by
      intro hmem
      rcases List.mem_append.1 hmem with h | h
      · exact hbv h
      · exact htgz h
    obtain ⟨hn, hrest⟩ := split_at_last '-' _ _ _ _ h1 h2 hdata
    exact hid (ReleaseID_eq_of_data _ _ hn (List.append_cancel_right hrest))
  · intro a b hid hos hsv hav hbv heq
    rw [hyphenFree_iff] at hav hbv
    have hdata := congrArg String.data heq
    rw [localFileName_compiled_data, localFileName_compiled_data, hos, hsv] at hdata
    have hassoc : ∀ (n v rest : List Char),
        n ++ '-' :: (v ++ '-' :: rest) = (n ++ '-' :: v) ++ '-' :: rest := by
      intro n v rest
      simp
    rw [hassoc a.ID.Name.data a.ID.Version.data, hassoc b.ID.Name.data b.ID.Version.data]
      at hdata
    have hcancel := List.append_cancel_right hdata
    obtain ⟨hn, hv⟩ := split_at_last '-' _ _ _ _ hav hbv hcancel
    exact hid (ReleaseID_eq_of_data _ _ hn hv)

/-- The two compiled releases of the download test, `uaa` and `bpm` for the same stemcell, are
written to different files. -/
theorem distinct_ids_distinct_file_names_witness :
    localFileName (ReleaseInfoDownloader.compiled
        { ID := { Name := "uaa", Version := "1.2.3" }, StemcellOS := "ubuntu-trusty",
          StemcellVersion := "1234", Path := "some-uaa-key" }) ≠
      localFileName (ReleaseInfoDownloader.compiled
        { ID := { Name := "bpm", Version := "1.2.3" }, StemcellOS := "ubuntu-trusty",
          StemcellVersion := "1234", Path := "some-bpm-key" }) :=
  distinct_ids_distinct_file_names.2.2
    { ID := { Name := "uaa", Version := "1.2.3" }, StemcellOS := "ubuntu-trusty",
      StemcellVersion := "1234", Path := "some-uaa-key" }
    { ID := { Name := "bpm", Version := "1.2.3" }, StemcellOS := "ubuntu-trusty",
      StemcellVersion := "1234", Path := "some-bpm-key" }
    (by decide) rfl rfl (by decide) (by decide)

/-- C26, counterexample: the built releases with the ReleaseIDs (a-b, c) and (a, b-c) are
different and have the same local file name, a-b-c.tgz. -/
theorem same_file_name_for_distinct_ids :
    hyphenatedBuiltReleases.1.ID ≠ hyphenatedBuiltReleases.2.ID ∧
    localFileName (ReleaseInfoDownloader.built hyphenatedBuiltReleases.1) = "a-b-c.tgz" ∧
    localFileName (ReleaseInfoDownloader.built hyphenatedBuiltReleases.2) = "a-b-c.tgz" := by
  decide

/-! ### Writing a version and reading it back -/

theorem takeWhile_dropWhile_append {α : Type} (p : α → Bool) (xs ys : List α)
    (hxs : ∀ x ∈ xs, p x = true) (hys : ∀ y ∈ ys.head?, p y = false) :
    (xs ++ ys).takeWhile p = xs ∧ (xs ++ ys).dropWhile p = ys := by
  induction xs with
  | nil =>
    cases ys with
    | nil => simp
    | cons y rest =>
      have hy : p y = false := hys y (by simp)
      simp [List.takeWhile_cons, List.dropWhile_cons, hy]
  | cons x xs ih =>
    have hx : p x = true := hxs x (List.mem_cons_self _ _)
    obtain ⟨h1, h2⟩ := ih (fun z hz => hxs z (List.mem_cons_of_mem _ hz))
    simp [List.takeWhile_cons, List.dropWhile_cons, hx, h1, h2]

theorem mem_splitOnChar (sep : Char) (cs : List Char) (c : Char) (hc : c ∈ cs) :
    c = sep ∨ ∃ piece ∈ splitOnChar sep cs, c ∈ piece := by
  induction cs with
  | nil => cases hc
  | cons x xs ih =>
    unfold splitOnChar
    by_cases hx : x = sep
    · rw [if_pos hx]
      rcases List.mem_cons.1 hc with h | h
      · exact Or.inl (h.trans hx)
      · rcases ih h with h' | ⟨piece, hpiece, hmem⟩
        · exact Or.inl h'
        · exact Or.inr ⟨piece, List.mem_cons_of_mem _ hpiece, hmem⟩
    · rw [if_neg hx]
      rcases List.mem_cons.1 hc with h | h
      · right
        cases hsplit : splitOnChar sep xs with
        | nil => exact ⟨[x], by simp, by simp [h]⟩
        | cons piece pieces => exact ⟨x :: piece, by simp, by simp [h]⟩
      · rcases ih h with h' | ⟨piece, hpiece, hmem⟩
        · exact Or.inl h'
        · right
          cases hsplit : splitOnChar sep xs with
          | nil => rw [hsplit] at hpiece; cases hpiece
          | cons first pieces =>
            rw [hsplit] at hpiece
            rcases List.mem_cons.1 hpiece with hp | hp
            · exact ⟨x :: first, by simp, by rw [← hp]; exact List.mem_cons_of_mem _ hmem⟩
            · exact ⟨piece, by simp [hp], hmem⟩

/-- A valid prerelease or metadata text is not empty and holds no plus sign. -/
theorem validIdentifiers_facts (cs : List Char) (h : semver.validIdentifiers cs = true) :
    cs ≠ [] ∧ '+' ∉ cs := by
  unfold semver.validIdentifiers at h
  rw [List.all_eq_true] at h
  constructor
  · intro hnil
    rw [hnil] at h
    have := h [] (by simp [splitOnChar])
    simp at this
  · intro hmem
    rcases mem_splitOnChar '.' cs '+' hmem with hdot | ⟨piece, hpiece, hplus⟩
    · exact absurd hdot (by decide)
    · have := h piece hpiece
      simp only [Bool.and_eq_true, List.all_eq_true] at this
      have hid := this.2 '+' hplus
      exact absurd hid (by decide)

/-- The text after the three numbers of a version with the given prerelease and metadata
texts. -/
theorem parseTail_written (pre metadata : String)
    (hpre : pre = "" ∨ semver.validIdentifiers pre.data = true)
    (hmeta : metadata = "" ∨ semver.validIdentifiers metadata.data = true) :
    semver.parseTail (((if pre ≠ "" then "-" ++ pre else "") ++
        (if metadata ≠ "" then "+" ++ metadata else "")).data) = some (pre, metadata) ∧
    ∀ c ∈ (((if pre ≠ "" then "-" ++ pre else "") ++
        (if metadata ≠ "" then "+" ++ metadata else "")).data).head?, c.isDigit = false := by
  have hne : ∀ s : String, s ≠ "" ↔ s.data ≠ [] := by
    intro s
    constructor
    · intro h hd
      exact h (String.ext hd)
    · intro h hs
      rw [hs] at h
      exact h rfl
  by_cases hp : pre = ""
  · subst hp
    by_cases hm : metadata = ""
    · subst hm
      exact ⟨rfl, by decide⟩
    · have hvalid : semver.validIdentifiers metadata.data = true := by
        rcases hmeta with h | h
        · exact absurd h hm
        · exact h
      have hdata : (((if ("" : String) ≠ "" then "-" ++ "" else "") ++
          (if metadata ≠ "" then "+" ++ metadata else "")).data) = '+' :: metadata.data := by
        simp [hm, String.data_append]
      rw [hdata]
      refine ⟨?_, ?_⟩
      · unfold semver.parseTail
        simp [hvalid]
      · intro c hc
        simp only [List.head?_cons, Option.mem_def, Option.some.injEq] at hc
        rw [← hc]
        decide
  · have hvalid : semver.validIdentifiers pre.data = true := by
      rcases hpre with h | h
      · exact absurd h hp
      · exact h
    have hplus := (validIdentifiers_facts pre.data hvalid).2
    by_cases hm : metadata = ""
    · subst hm
      have hdata : (((if pre ≠ "" then "-" ++ pre else "") ++
          (if ("" : String) ≠ "" then "+" ++ "" else "")).data) = '-' :: pre.data := by
        simp [hp, String.data_append]
      rw [hdata]
      have htd := takeWhile_dropWhile_append (fun c => decide (c ≠ '+')) pre.data []
        (fun x hx => by
          simp only [ne_eq, decide_not, Bool.not_eq_true', decide_eq_false_iff_not]
          intro hxp
          exact hplus (hxp ▸ hx))
        (fun y hy => by simp at hy)
      rw [List.append_nil] at htd
      refine ⟨?_, ?_⟩
      · unfold semver.parseTail
        simp only [htd.1, htd.2, hvalid]
        simp
      · intro c hc
        simp only [List.head?_cons, Option.mem_def, Option.some.injEq] at hc
        rw [← hc]
        decide
    · have hvalidm : semver.validIdentifiers metadata.data = true := by
        rcases hmeta with h | h
        · exact absurd h hm
        · exact h
      have hdata : (((if pre ≠ "" then "-" ++ pre else "") ++
          (if metadata ≠ "" then "+" ++ metadata else "")).data) =
          '-' :: (pre.data ++ '+' :: metadata.data) := by
        simp [hp, hm, String.data_append]
      rw [hdata]
      have htd := takeWhile_dropWhile_append (fun c => decide (c ≠ '+')) pre.data
        ('+' :: metadata.data)
        (fun x hx => by
          simp only [ne_eq, decide_not, Bool.not_eq_true', decide_eq_false_iff_not]
          intro hxp
          exact hplus (hxp ▸ hx))
        (fun y hy => by
          simp only [List.head?_cons, Option.mem_def, Option.some.injEq] at hy
          rw [← hy]
          decide)
      refine ⟨?_, ?_⟩
      · unfold semver.parseTail
        simp only [htd.1, htd.2, hvalid, hvalidm]
        simp
      · intro c hc
        simp only [List.head?_cons, Option.mem_def, Option.some.injEq] at hc
        rw [← hc]
        decide

theorem parseSegment_toString (n : Nat) (hn : n < 2 ^ 63) :
    semver.parseSegment (toString n).data = Except.ok n := by
  have hparse := (toString_nat_digits n).2.2.2
  unfold parseDigits at hparse
  have hall : (toString n).data.all Char.isDigit = true :=
    List.all_eq_true.2 (toString_nat_digits n).2.1
  rw [if_pos ⟨(toString_nat_digits n).1, hall⟩] at hparse
  unfold semver.parseSegment
  simp only [Option.some.inj hparse, hn, if_true]

theorem takeDotNumber_written (n : Nat) (rest : List Char)
    (hrest : ∀ c ∈ rest.head?, c.isDigit = false) :
    semver.takeDotNumber ('.' :: ((toString n).data ++ rest)) =
      (some (toString n).data, rest) := by
  obtain ⟨h1, h2⟩ := takeWhile_dropWhile_append Char.isDigit (toString n).data rest
    (toString_nat_digits n).2.1 hrest
  unfold semver.takeDotNumber
  simp only [h1, h2]
  have hne : (toString n).data.isEmpty = false := by
    cases hd : (toString n).data with
    | nil => exact absurd hd (toString_nat_digits n).1
    | cons c cs => rfl
  rw [hne]
  simp

/-- A version whose numbers fit an `int64` and whose prerelease and metadata texts are empty or
valid is read back from its text, which is then its original text. -/
theorem NewVersion_str (v : semver.Version) (hmajor : v.major < 2 ^ 63)
    (hminor : v.minor < 2 ^ 63) (hpatch : v.patch < 2 ^ 63)
    (hpre : v.pre = "" ∨ semver.validIdentifiers v.pre.data = true)
    (hmeta : v.metadata = "" ∨ semver.validIdentifiers v.metadata.data = true) :
    semver.NewVersion v.str = Except.ok { v with original := v.str } := by
  obtain ⟨htail, hhead⟩ := parseTail_written v.pre v.metadata hpre hmeta
  have hdata : v.str.data = (toString v.major).data ++ ('.' :: ((toString v.minor).data ++
      ('.' :: ((toString v.patch).data ++
        ((if v.pre ≠ "" then "-" ++ v.pre else "") ++
          (if v.metadata ≠ "" then "+" ++ v.metadata else "")).data)))) := by
    unfold semver.Version.str
    simp [String.data_append]
  have hdot : ∀ (rest : List Char), ∀ c ∈ ('.' :: rest).head?, c.isDigit = false := by
    intro rest c hc
    simp only [List.head?_cons, Option.mem_def, Option.some.injEq] at hc
    rw [← hc]
    decide
  obtain ⟨h1, h2⟩ := takeWhile_dropWhile_append Char.isDigit (toString v.major).data _
    (toString_nat_digits v.major).2.1 (hdot ((toString v.minor).data ++
      ('.' :: ((toString v.patch).data ++
        ((if v.pre ≠ "" then "-" ++ v.pre else "") ++
          (if v.metadata ≠ "" then "+" ++ v.metadata else "")).data))))
  have hminorPart := takeDotNumber_written v.minor ('.' :: ((toString v.patch).data ++
        ((if v.pre ≠ "" then "-" ++ v.pre else "") ++
          (if v.metadata ≠ "" then "+" ++ v.metadata else "")).data)) (hdot _)
  have hpatchPart := takeDotNumber_written v.patch
        (((if v.pre ≠ "" then "-" ++ v.pre else "") ++
          (if v.metadata ≠ "" then "+" ++ v.metadata else "")).data) hhead
  have hfirst : semver.dropLeadingV v.str.data = v.str.data := by
    unfold semver.dropLeadingV
    split
    · rename_i rest heq
      rw [hdata] at heq
      cases hd : (toString v.major).data with
      | nil => exact absurd hd (toString_nat_digits v.major).1
      | cons c cs =>
        rw [hd] at heq
        simp only [List.cons_append, List.cons.injEq] at heq
        have hdigit := (toString_nat_digits v.major).2.1 c (by rw [hd]; simp)
        rw [heq.1] at hdigit
        exact absurd hdigit (by decide)
    · rfl
  have hne : (toString v.major).data.isEmpty = false := by
    cases hd : (toString v.major).data with
    | nil => exact absurd hd (toString_nat_digits v.major).1
    | cons c cs => rfl
  unfold semver.NewVersion
  simp only [hfirst]
  rw [hdata]
  simp only [h1, h2, hne, hminorPart, hpatchPart, htail, parseSegment_toString v.major hmajor,
    parseSegment_toString v.minor hminor, parseSegment_toString v.patch hpatch]
  simp

/-- The published version `M.m.p-w.n` is read back as the window `w` and the number `n`, for
a number that fits an `int`. -/
theorem ReleaseVersionFromPublishedVersion_number (text : String) (v : semver.Version)
    (window : String) (n : Nat) (hw : '.' ∉ window.data) (hn : n < 2 ^ 63)
    (hpre : v.pre = window ++ "." ++ toString n)
    (hparse : semver.NewVersion text = Except.ok v) :
    ReleaseVersionFromPublishedVersion isPrint text =
      Except.ok { semver := v, window := window, prereleaseVersion := (n : Int) } := by
  unfold ReleaseVersionFromPublishedVersion
  rw [hparse]
  simp only [hpre, splitDots_window_number window n hw, List.length_cons, List.length_nil,
    ne_eq, not_true_eq_false, if_false, List.headD_cons, List.getLastD_cons,
    List.getLastD_nil, parseInt64_toString n hn]

theorem window_facts (window : String)
    (hw : window = "alpha" ∨ window = "beta" ∨ window = "rc") :
    '.' ∉ window.data ∧ semver.validIdentifiers window.data = true ∧ window ≠ "ga" := by
  rcases hw with h | h | h <;> subst h <;> decide

/-- C29: for a release version of a window among alpha, beta and rc, whose numbers fit an
`int64` and whose metadata is empty or valid, and a number `n` from 0 that fits an `int`,
`SetPrereleaseVersion` returns the version with the prerelease `<window>.<n>` and the number
`n` (a new value: the receiver is passed by value), and `ReleaseVersionFromPublishedVersion`
reads its text back as a release version of the same window, number, major, minor, patch and
metadata, whose original text is the text read. For a GA release version
`SetPrereleaseVersion` returns the error that quotes the text of the version, and
`PrereleaseVersionsConstraint` the error that shows the fields of the struct `rv.semver`. -/
theorem SetPrereleaseVersion_roundtrip (rv : releaseVersion) (n : Nat) :
    (rv.window = "alpha" ∨ rv.window = "beta" ∨ rv.window = "rc" →
      rv.semver.major < 2 ^ 63 → rv.semver.minor < 2 ^ 63 → rv.semver.patch < 2 ^ 63 →
      n < 2 ^ 63 →
      (rv.semver.metadata = "" ∨ semver.validIdentifiers rv.semver.metadata.data = true) →
      rv.SetPrereleaseVersion isPrint (n : Int) =
        Except.ok { semver := rv.semver.withPrerelease (rv.window ++ "." ++ toString n),
                    window := rv.window, prereleaseVersion := (n : Int) } ∧
      ReleaseVersionFromPublishedVersion isPrint
        (releaseVersion.str
          { semver := rv.semver.withPrerelease (rv.window ++ "." ++ toString n),
            window := rv.window, prereleaseVersion := (n : Int) }) =
        Except.ok
          { semver :=
              ⟨rv.semver.major, rv.semver.minor, rv.semver.patch,
                rv.window ++ "." ++ toString n, rv.semver.metadata,
                semver.Version.str (rv.semver.withPrerelease (rv.window ++ "." ++ toString n))⟩,
            window := rv.window, prereleaseVersion := (n : Int) }) ∧
    (rv.window = "ga" →
      rv.SetPrereleaseVersion isPrint (n : Int) =
        Except.error ("SetPrereleaseVersion: can't set the prerelease version on a GA " ++
          "version (" ++ goQuote isPrint rv.str ++ ")") ∧
      rv.PrereleaseVersionsConstraint isPrint =
        Except.error ("can't determine PrereleaseVersionsConstraint for " ++
          quoteVersion isPrint rv.semver ++ ", which is GA")) := by
  constructor
  · intro hw hmajor hminor hpatch hn hmeta
    obtain ⟨hdot, hvalid, hnotga⟩ := window_facts rv.window hw
    have hga : rv.IsGA = false := by
      simp [releaseVersion.IsGA, hnotga]
    have hvalidn := validIdentifiers_window_number rv.window n hdot hvalid
    constructor
    · have h := @SetPrereleaseVersion_ok isPrint rv (n : Int) hga
        (by rw [toString_int_ofNat]; exact hvalidn)
      rw [h, toString_int_ofNat]
    · unfold releaseVersion.str
      exact ReleaseVersionFromPublishedVersion_number _ _ rv.window n hdot hn rfl
        (NewVersion_str (rv.semver.withPrerelease (rv.window ++ "." ++ toString n)) hmajor
          hminor hpatch (Or.inr hvalidn) hmeta)
  · intro hga
    have hisga : rv.IsGA = true := by
      simp [releaseVersion.IsGA, hga]
    constructor
    · unfold releaseVersion.SetPrereleaseVersion
      rw [hisga]
      rfl
    · unfold releaseVersion.PrereleaseVersionsConstraint
      rw [hisga]
      rfl

/-- The release version 2.0.0-rc.1 with the number 457: the text 2.0.0-rc.457 is read back.
The release version 2.0.0 is GA: the error shows the numbers 2, 0 and 0 as quoted runes. -/
theorem SetPrereleaseVersion_roundtrip_witness :
    rcReleaseVersion.SetPrereleaseVersion testPrintable 457 =
      Except.ok { semver := ⟨2, 0, 0, "rc.457", "", "2.0.0-rc.457"⟩, window := "rc",
                  prereleaseVersion := 457 } ∧
    ReleaseVersionFromPublishedVersion testPrintable "2.0.0-rc.457" =
      Except.ok { semver := ⟨2, 0, 0, "rc.457", "", "2.0.0-rc.457"⟩, window := "rc",
                  prereleaseVersion := 457 } ∧
    gaReleaseVersion.PrereleaseVersionsConstraint testPrintable =
      Except.error ("can't determine PrereleaseVersionsConstraint for " ++
        "\x7b\x27\\x02\x27 \x27\\x00\x27 \x27\\x00\x27 \"\" \"\" \"2.0.0\"\x7d, " ++
        "which is GA") :=
  ⟨((SetPrereleaseVersion_roundtrip rcReleaseVersion 457).1 (Or.inr (Or.inr rfl))
      (by decide) (by decide) (by decide) (by decide) (Or.inl rfl)).1,
    ((SetPrereleaseVersion_roundtrip rcReleaseVersion 457).1 (Or.inr (Or.inr rfl))
      (by decide) (by decide) (by decide) (by decide) (Or.inl rfl)).2,
    ((@SetPrereleaseVersion_roundtrip testPrintable gaReleaseVersion 0).2 rfl).2⟩

/-! ### The versions within the prerelease constraint -/

theorem comparePrePart_eq_zero (s o : String) (h : semver.comparePrePart s o = 0) : s = o := by
  by_contra hne
  unfold semver.comparePrePart at h
  rw [if_neg hne] at h
  split_ifs at h
  all_goals first | omega | (split at h <;> omega)

theorem comparePrePart_self (s : String) : semver.comparePrePart s s = 0 := by
  unfold semver.comparePrePart
  rw [if_pos rfl]

/-- A piece compared with a different piece that writes a number. -/
theorem comparePrePart_number (y o : String) (oi : Nat) (ho : parseUint64 o = some oi)
    (hne : y ≠ o) :
    semver.comparePrePart y o =
      if y = "" then -1
      else match parseUint64 y with
        | none => 1
        | some n => if n > oi then 1 else -1 := by
  have hoe : o ≠ "" := by
    intro h
    have hnone : parseUint64 "" = none := rfl
    rw [h, hnone] at ho
    cases ho
  unfold semver.comparePrePart
  rw [if_neg hne]
  by_cases hy : y = ""
  · rw [if_pos hy, if_pos hy]
  · rw [if_neg hy, if_neg hy, if_neg hoe, ho]
    cases parseUint64 y <;> rfl

theorem comparePreParts_cons_cons (s o : String) (ss os : List String) :
    semver.comparePreParts (s :: ss) (o :: os) =
      if semver.comparePrePart s o ≠ 0 then semver.comparePrePart s o
      else semver.comparePreParts ss os := rfl

theorem compareSegment_self (a : Nat) : semver.compareSegment a a = 0 := by
  simp [semver.compareSegment]

theorem compareSegment_ne_zero (a b : Nat) (h : a ≠ b) : semver.compareSegment a b ≠ 0 := by
  unfold semver.compareSegment
  split_ifs <;> omega

/-- The comparison of a version with a version of other numbers is decided by the numbers. -/
theorem Compare_of_numbers (v o : semver.Version) (ho : o.pre ≠ "") :
    (v.major = o.major ∧ v.minor = o.minor ∧ v.patch = o.patch ∧
      v.Compare o = if v.pre = "" then 1 else semver.comparePrerelease v.pre o.pre) ∨
    (v.Compare o ≠ 0 ∧
      v.Compare o =
        semver.Version.Compare (semver.constraintVersion v.major v.minor v.patch "")
          (semver.constraintVersion o.major o.minor o.patch "")) := by
  by_cases h1 : v.major = o.major
  · by_cases h2 : v.minor = o.minor
    · by_cases h3 : v.patch = o.patch
      · left
        refine ⟨h1, h2, h3, ?_⟩
        simp [semver.Version.Compare, h1, h2, h3, ho, compareSegment_self]
      · right
        have hseg := compareSegment_ne_zero _ _ h3
        simp only [semver.Version.Compare, h1, h2, compareSegment_self, ne_eq,
          not_true_eq_false, if_false, hseg, not_false_eq_true, if_true, and_self]
    · right
      have hseg := compareSegment_ne_zero _ _ h2
      simp only [semver.Version.Compare, h1, compareSegment_self, ne_eq,
        not_true_eq_false, if_false, hseg, not_false_eq_true, if_true, and_self]
  · right
    have hseg := compareSegment_ne_zero _ _ h1
    simp only [semver.Version.Compare, ne_eq, hseg, not_false_eq_true, if_true, and_self]

/-- A version within the prerelease constraint of `M.m.p` and a window has the numbers `M.m.p`
and a prerelease text whose first piece is the window and whose second piece writes a number
from 0 to 9999. -/
theorem within_prerelease_constraint (major minor patch : Nat) (window : String)
    (hw : window = "alpha" ∨ window = "beta" ∨ window = "rc") (v : semver.Version)
    (h : semver.Constraints.Check
      [{ op := semver.Operator.greaterThanEqual,
         con := semver.constraintVersion major minor patch (window ++ ".0") },
       { op := semver.Operator.lessThanEqual,
         con := semver.constraintVersion major minor patch (window ++ ".9999") }] v = true) :
    v.major = major ∧ v.minor = minor ∧ v.patch = patch ∧ v.pre ≠ "" ∧
      ∃ piece rest, ∃ n : Nat, splitDots v.pre = window :: piece :: rest ∧
        parseUint64 piece = some n ∧ n ≤ 9999 := by
  have hfacts : window ++ ".0" ≠ "" ∧ window ++ ".9999" ≠ "" ∧ window ≠ "" ∧
      splitDots (window ++ ".0") = [window, "0"] ∧
      splitDots (window ++ ".9999") = [window, "9999"] := by
    rcases hw with hw | hw | hw <;> subst hw <;> decide
  obtain ⟨hne0, hne9, hwne, hsplit0, hsplit9⟩ := hfacts
  have hge : v.Compare (semver.constraintVersion major minor patch (window ++ ".0")) ≥ 0 := by
    simp only [semver.Constraints.Check, List.all_cons, List.all_nil, Bool.and_true,
      Bool.and_eq_true, semver.Constraint.check, hne0, and_false, if_false,
      decide_eq_true_eq] at h
    exact h.1
  have hle : v.Compare (semver.constraintVersion major minor patch (window ++ ".9999")) ≤ 0 := by
    simp only [semver.Constraints.Check, List.all_cons, List.all_nil, Bool.and_true,
      Bool.and_eq_true, semver.Constraint.check, hne9, and_false, if_false,
      decide_eq_true_eq] at h
    exact h.2
  rcases Compare_of_numbers v (semver.constraintVersion major minor patch (window ++ ".0")) hne0 with
    ⟨h1, h2, h3, hc0⟩ | ⟨hnz, hc0⟩
  swap
  · rcases Compare_of_numbers v (semver.constraintVersion major minor patch (window ++ ".9999")) hne9 with
      ⟨h1, h2, h3, _⟩ | ⟨_, hc9⟩
    · exfalso
      rcases Compare_of_numbers v (semver.constraintVersion major minor patch (window ++ ".0")) hne0 with
        ⟨_, _, _, _⟩ | ⟨hnz', hc0'⟩
      · simp only at h1 h2 h3
        rw [h1, h2, h3] at hc0
        simp only [semver.Version.Compare, compareSegment_self, ne_eq, not_true_eq_false,
          if_false, and_self, if_true] at hc0
        exact hnz hc0
      · simp only at h1 h2 h3
        rw [h1, h2, h3] at hc0
        simp only [semver.Version.Compare, compareSegment_self, ne_eq, not_true_eq_false,
          if_false, and_self, if_true] at hc0
        exact hnz hc0
    · exfalso
      simp only at hc0 hc9
      rw [← hc0] at hc9
      rw [hc9] at hle
      omega
  · rcases Compare_of_numbers v (semver.constraintVersion major minor patch (window ++ ".9999")) hne9 with
      ⟨_, _, _, hc9⟩ | ⟨hnz9, hc9⟩
    swap
    · exfalso
      simp only at h1 h2 h3 hc9
      rw [h1, h2, h3] at hc9
      simp only [semver.Version.Compare, compareSegment_self, ne_eq, not_true_eq_false,
        if_false, and_self, if_true] at hc9
      exact hnz9 hc9
    · simp only at h1 h2 h3 hc0 hc9
      have hpre : v.pre ≠ "" := by
        intro hp
        rw [hc9, if_pos hp] at hle
        omega
      refine ⟨h1, h2, h3, hpre, ?_⟩
      rw [hc0, if_neg hpre] at hge
      rw [hc9, if_neg hpre] at hle
      unfold semver.comparePrerelease at hge hle
      rw [hsplit0] at hge
      rw [hsplit9] at hle
      cases hP : splitDots v.pre with
      | nil =>
        exfalso
        rw [hP] at hge
        have : semver.comparePreParts [] [window, "0"] = -1 := by
          simp [semver.comparePreParts, semver.compareMissingParts, semver.comparePrePart,
            hwne, Ne.symm hwne]
        rw [this] at hge
        omega
      | cons first rest1 =>
        rw [hP, comparePreParts_cons_cons] at hge hle
        by_cases hfirst : semver.comparePrePart first window = 0
        swap
        · exfalso
          rw [if_pos hfirst] at hge hle
          omega
        · have hfw := comparePrePart_eq_zero _ _ hfirst
          subst hfw
          simp only [hfirst, ne_eq, not_true_eq_false, if_false] at hge hle
          cases rest1 with
          | nil =>
            exfalso
            have : semver.comparePreParts [] ["0"] = -1 := by decide
            rw [this] at hge
            omega
          | cons piece rest2 =>
            rw [comparePreParts_cons_cons] at hge hle
            refine ⟨piece, rest2, ?_⟩
            by_cases hp0 : piece = "0"
            · exact ⟨0, rfl, by rw [hp0]; rfl, by omega⟩
            · by_cases hp9 : piece = "9999"
              · exact ⟨9999, rfl, by rw [hp9]; rfl, by omega⟩
              · have h0 : parseUint64 "0" = some 0 := rfl
                have h9 : parseUint64 "9999" = some 9999 := rfl
                have ha := comparePrePart_number piece "0" 0 h0 hp0
                have hb := comparePrePart_number piece "9999" 9999 h9 hp9
                by_cases hpe : piece = ""
                · exfalso
                  rw [if_pos hpe] at ha
                  rw [ha] at hge
                  simp at hge
                · rw [if_neg hpe] at ha hb
                  cases hn : parseUint64 piece with
                  | none =>
                    exfalso
                    rw [hn] at hb
                    simp only at hb
                    rw [hb] at hle
                    simp at hle
                  | some n =>
                    rw [hn] at ha hb
                    simp only at ha hb
                    refine ⟨n, rfl, rfl, ?_⟩
                    by_contra hbig
                    have hn9 : n > 9999 := by omega
                    rw [if_pos hn9] at hb
                    rw [hb] at hle
                    simp at hle

/-- The version and the prerelease number of a release within the prerelease constraint. -/
theorem publishedNumber_within (major minor patch : Nat) (window : String)
    (hw : window = "alpha" ∨ window = "beta" ∨ window = "rc") (r : Release)
    (h : satisfiesConstraint
      [{ op := semver.Operator.greaterThanEqual,
         con := semver.constraintVersion major minor patch (window ++ ".0") },
       { op := semver.Operator.lessThanEqual,
         con := semver.constraintVersion major minor patch (window ++ ".9999") }] r = true) :
    ∃ v piece rest, semver.NewVersion r.Version = Except.ok v ∧
      v.major = major ∧ v.minor = minor ∧ v.patch = patch ∧ v.pre ≠ "" ∧
      splitDots v.pre = window :: piece :: rest ∧
      parseInt64 piece = some (publishedNumber r) ∧
      0 ≤ publishedNumber r ∧ publishedNumber r ≤ 9999 ∧
      ∃ n : Nat, parseUint64 piece = some n ∧ (n : Int) = publishedNumber r := by
  unfold satisfiesConstraint at h
  cases hv : semver.NewVersion r.Version with
  | error e => simp [hv] at h
  | ok v =>
    simp only [hv] at h
    obtain ⟨h1, h2, h3, hpre, piece, rest, n, hsplit, hparseU, hn9⟩ :=
      within_prerelease_constraint major minor patch window hw v h
    have hparse := parseInt64_of_parseUint64 piece n hparseU (by omega)
    have hnum : publishedNumber r = (n : Int) := by
      unfold publishedNumber prereleaseNumber
      simp only [hv, hsplit, hparse, Option.getD_some]
    rw [hnum]
    exact ⟨v, piece, rest, rfl, h1, h2, h3, hpre, hsplit, hparse, by omega, by omega,
      n, hparseU, rfl⟩

/-- Among the releases within the prerelease constraint, the comparison of `FindLatest` follows
the prerelease numbers. -/
theorem releaseLess_follows_number (major minor patch : Nat) (window : String)
    (hw : window = "alpha" ∨ window = "beta" ∨ window = "rc") (a b : Release)
    (ha : satisfiesConstraint
      [{ op := semver.Operator.greaterThanEqual,
         con := semver.constraintVersion major minor patch (window ++ ".0") },
       { op := semver.Operator.lessThanEqual,
         con := semver.constraintVersion major minor patch (window ++ ".9999") }] a = true)
    (hb : satisfiesConstraint
      [{ op := semver.Operator.greaterThanEqual,
         con := semver.constraintVersion major minor patch (window ++ ".0") },
       { op := semver.Operator.lessThanEqual,
         con := semver.constraintVersion major minor patch (window ++ ".9999") }] b = true) :
    (releaseLess a b = true → publishedNumber a ≤ publishedNumber b) ∧
    (publishedNumber a < publishedNumber b → releaseLess a b = true) := by
  obtain ⟨va, ya, ra, hva, ha1, ha2, ha3, hapre, hasplit, haparse, _, _, na, hau, hna⟩ :=
    publishedNumber_within major minor patch window hw a ha
  obtain ⟨vb, yb, rb, hvb, hb1, hb2, hb3, hbpre, hbsplit, hbparse, _, _, nb, hbu, hnb⟩ :=
    publishedNumber_within major minor patch window hw b hb
  have hless : releaseLess a b = decide (va.Compare vb < 0) := by
    unfold releaseLess
    simp only [hva, hvb]
    rfl
  have hcompare : va.Compare vb =
      if semver.comparePrePart ya yb ≠ 0 then semver.comparePrePart ya yb
      else semver.comparePreParts ra rb := by
    rcases Compare_of_numbers va vb hbpre with ⟨_, _, _, hc⟩ | ⟨hnz, hc⟩
    · rw [hc, if_neg hapre]
      unfold semver.comparePrerelease
      rw [hasplit, hbsplit, comparePreParts_cons_cons, comparePrePart_self]
      simp only [ne_eq, not_true_eq_false, if_false]
      rw [comparePreParts_cons_cons]
    · exfalso
      rw [ha1, ha2, ha3, hb1, hb2, hb3] at hc
      simp only [semver.Version.Compare, compareSegment_self, ne_eq, not_true_eq_false,
        if_false, and_self, if_true] at hc
      exact hnz hc
  rw [hless, hcompare]
  by_cases hy : ya = yb
  · have hnum : publishedNumber a = publishedNumber b := by
      rw [hy, hbparse] at haparse
      exact (Option.some.inj haparse).symm
    rw [hnum]
    exact ⟨fun _ => le_refl _, fun h => absurd h (lt_irrefl _)⟩
  · have hyne : ya ≠ "" := by
      intro he
      have hnone : parseInt64 "" = none := rfl
      rw [he, hnone] at haparse
      cases haparse
    have hc := comparePrePart_number ya yb nb hbu hy
    rw [if_neg hyne, hau] at hc
    simp only at hc
    rw [← hna, ← hnb]
    by_cases hgt : na > nb
    · rw [if_pos hgt] at hc
      rw [hc]
      simp only [ne_eq, one_ne_zero, not_false_eq_true, if_true]
      constructor
      · intro h
        simp at h
      · intro h
        omega
    · rw [if_neg hgt] at hc
      rw [hc]
      have hm : (if (-1 : Int) ≠ 0 then (-1 : Int) else semver.comparePreParts ra rb) = -1 := by
        simp
      rw [hm]
      exact ⟨fun _ => by omega, fun _ => by decide⟩

/-- A release with the version `M.m.p-w.k`, `k` up to 9999, is within the prerelease
constraint and has the prerelease number `k`. -/
theorem publishedNumber_canonical (major minor patch : Nat) (window : String)
    (hw : window = "alpha" ∨ window = "beta" ∨ window = "rc") (r : Release) (k : Nat)
    (metadata : String) (hk : k ≤ 9999)
    (hparse : semver.NewVersion r.Version =
      Except.ok ⟨major, minor, patch, window ++ "." ++ toString k, metadata, r.Version⟩) :
    satisfiesConstraint
      [{ op := semver.Operator.greaterThanEqual,
         con := semver.constraintVersion major minor patch (window ++ ".0") },
       { op := semver.Operator.lessThanEqual,
         con := semver.constraintVersion major minor patch (window ++ ".9999") }] r = true ∧
    publishedNumber r = (k : Int) := by
  obtain ⟨hdot, _, _⟩ := window_facts window hw
  constructor
  · unfold satisfiesConstraint
    rw [hparse]
    exact prerelease_constraint_check major minor patch window k metadata _ hdot hk
  · unfold publishedNumber prereleaseNumber
    simp only [hparse, splitDots_window_number window k hdot,
      parseInt64_toString k (by omega), Option.getD_some]

/-- C27 (as amended): for a window among alpha, beta and rc, the version `M.m.p` and any list
of published releases, a version that `determineVersion` returns has a prerelease number
greater than `k` for every published release with a version `M.m.p-w.k`, `k` up to 9999, and
its prerelease text is not that of such a release. -/
theorem determineVersion_above_published (releases : List Release) (rv v : releaseVersion)
    (hw : rv.window = "alpha" ∨ rv.window = "beta" ∨ rv.window = "rc")
    (h : determineVersion isPrint releases rv = Except.ok v) :
    ∀ r ∈ releases, ∀ (k : Nat) (metadata : String), k ≤ 9999 →
      semver.NewVersion r.Version =
        Except.ok ⟨rv.semver.major, rv.semver.minor, rv.semver.patch,
          rv.window ++ "." ++ toString k, metadata, r.Version⟩ →
      (k : Int) < v.prereleaseVersion ∧ v.semver.pre ≠ rv.window ++ "." ++ toString k := by
  intro r hr k metadata hk hparse
  obtain ⟨hdot, hvalid, hnotga⟩ := window_facts rv.window hw
  have hga : rv.IsGA = false := by
    simp [releaseVersion.IsGA, hnotga]
  obtain ⟨hrsat, hrnum⟩ := publishedNumber_canonical rv.semver.major rv.semver.minor
    rv.semver.patch rv.window hw r k metadata hk hparse
  unfold determineVersion at h
  rw [hga, PrereleaseVersionsConstraint_ok rv hga hvalid] at h
  simp only [Bool.false_eq_true, if_false] at h
  cases hfind : releaseSet.FindLatest releases
      [{ op := semver.Operator.greaterThanEqual,
         con := semver.constraintVersion rv.semver.major rv.semver.minor rv.semver.patch
                  (rv.window ++ ".0") },
       { op := semver.Operator.lessThanEqual,
         con := semver.constraintVersion rv.semver.major rv.semver.minor rv.semver.patch
                  (rv.window ++ ".9999") }] with
  | none =>
    have hnone := (FindLatest_eq_none_iff releases _).1 hfind r hr
    rw [hrsat] at hnone
    cases hnone
  | some latest =>
    rw [hfind] at h
    simp only at h
    obtain ⟨hlmem, hlsat⟩ := FindLatest_mem releases _ latest hfind
    obtain ⟨vl, piece, rest, hvl, _, _, _, _, hsplit, hpiece, hn0, hn9⟩ :=
      publishedNumber_within rv.semver.major rv.semver.minor rv.semver.patch rv.window hw
        latest hlsat
    have hmax : publishedNumber r ≤ publishedNumber latest := by
      apply sortSliceDescending_head_max releaseLess publishedNumber
        (releases.filter (satisfiesConstraint
          [{ op := semver.Operator.greaterThanEqual,
             con := semver.constraintVersion rv.semver.major rv.semver.minor
                      rv.semver.patch (rv.window ++ ".0") },
           { op := semver.Operator.lessThanEqual,
             con := semver.constraintVersion rv.semver.major rv.semver.minor
                      rv.semver.patch (rv.window ++ ".9999") }]))
      · intro a ha b hb
        exact (releaseLess_follows_number rv.semver.major rv.semver.minor rv.semver.patch
          rv.window hw a b (List.mem_filter.1 ha).2 (List.mem_filter.1 hb).2).1
      · intro a ha b hb
        exact (releaseLess_follows_number rv.semver.major rv.semver.minor rv.semver.patch
          rv.window hw a b (List.mem_filter.1 ha).2 (List.mem_filter.1 hb).2).2
      · exact hfind
      · exact List.mem_filter.2 ⟨hr, hrsat⟩
    rw [hrnum] at hmax
    unfold ReleaseVersionFromPublishedVersion at h
    rw [hvl] at h
    simp only [hsplit] at h
    cases rest with
    | cons extra more =>
      simp at h
    | nil =>
      simp only [List.length_cons, List.length_nil, ne_eq, not_true_eq_false, if_false,
        List.getLastD_cons, List.getLastD_nil, hpiece, releaseVersion.PrereleaseVersion] at h
      rw [wrapInt64_of_small _ (by omega) (by omega)] at h
      unfold releaseVersion.SetPrereleaseVersion at h
      rw [hga] at h
      simp only [Bool.false_eq_true, if_false] at h
      cases hset : semver.Version.SetPrerelease rv.semver
          (rv.window ++ "." ++ toString (publishedNumber latest + 1)) with
      | error e =>
        rw [hset] at h
        cases h
      | ok vnew =>
        rw [hset] at h
        simp only [Except.ok.injEq] at h
        have hpre : vnew.pre = rv.window ++ "." ++ toString (publishedNumber latest + 1) := by
          unfold semver.Version.SetPrerelease at hset
          split_ifs at hset
          rw [← Except.ok.inj hset]
          rfl
        rw [← h]
        simp only
        refine ⟨by omega, ?_⟩
        rw [hpre]
        intro heq
        obtain ⟨m, hm⟩ : ∃ m : Nat, publishedNumber latest + 1 = (m : Int) :=
          ⟨(publishedNumber latest + 1).toNat, (Int.toNat_of_nonneg (by omega)).symm⟩
        rw [hm, toString_int_ofNat] at heq
        have := window_number_injective rv.window m k heq
        omega

/-- The test "when previous release candidates have been published": the version returned,
2.0.0-rc.3, has a number above that of the published 2.0.0-rc.2. -/
theorem determineVersion_above_published_witness :
    determineVersion testPrintable rcTestReleases rcReleaseVersion =
      Except.ok { semver := ⟨2, 0, 0, "rc.3", "", "2.0.0-rc.3"⟩, window := "rc",
                  prereleaseVersion := 3 } ∧
    ((2 : Nat) : Int) < 3 ∧ "rc.3" ≠ rcReleaseVersion.window ++ "." ++ toString 2 :=
  ⟨rfl, @determineVersion_above_published testPrintable rcTestReleases rcReleaseVersion
    { semver := ⟨2, 0, 0, "rc.3", "", "2.0.0-rc.3"⟩, window := "rc", prereleaseVersion := 3 }
    (Or.inr (Or.inr rfl)) rfl (releaseOnPivnet 0 "2.0.0-rc.2" "") (by decide) 2 ""
    (by decide) rfl⟩

/-- C27, counterexample: with 2.0.0-rc.9999 and 2.0.0-rc.10000 published, `determineVersion`
returns 2.0.0-rc.10000: its prerelease number is not greater than that of the published
2.0.0-rc.10000, and its text is that of a published version. -/
theorem determineVersion_repeats_published :
    determineVersion testPrintable rcAtBoundReleases rcReleaseVersion =
      Except.ok { semver := ⟨2, 0, 0, "rc.10000", "", "2.0.0-rc.10000"⟩, window := "rc",
                  prereleaseVersion := 10000 } ∧
    releaseOnPivnet 2 "2.0.0-rc.10000" "" ∈ rcAtBoundReleases ∧
    semver.NewVersion (releaseOnPivnet 2 "2.0.0-rc.10000" "").Version =
      Except.ok ⟨2, 0, 0, "rc" ++ "." ++ toString 10000, "", "2.0.0-rc.10000"⟩ ∧
    releaseVersion.str { semver := ⟨2, 0, 0, "rc.10000", "", "2.0.0-rc.10000"⟩, window := "rc",
                         prereleaseVersion := 10000 } =
      (releaseOnPivnet 2 "2.0.0-rc.10000" "").Version :=
  ⟨rfl, by decide, rfl, by decide⟩

/-! ### `endOfSupportFor` in a location -/

theorem daysInMonth_ge (year month : Nat) : 28 ≤ daysInMonth year month := by
  unfold daysInMonth
  split_ifs <;> omega

/-- The day after the day before the last day of a month is that last day. -/
theorem dayAfter_dayBefore_last (year month : Nat) :
    (CivilDate.dayBefore ⟨year, month, daysInMonth year month⟩).dayAfter =
      ⟨year, month, daysInMonth year month⟩ := by
  have h := daysInMonth_ge year month
  unfold CivilDate.dayBefore
  simp only [show daysInMonth year month > 1 by omega, if_true]
  unfold CivilDate.dayAfter
  simp only [show daysInMonth year month - 1 < daysInMonth year month by omega, if_true]
  congr 1
  omega

theorem dayBefore_first (year month : Nat) :
    ∃ y m, CivilDate.dayBefore ⟨year, month, 1⟩ = ⟨y, m, daysInMonth y m⟩ := by
  unfold CivilDate.dayBefore
  by_cases h : month > 1
  · exact ⟨year, month - 1, by simp [h]⟩
  · exact ⟨year - 1, 12, by simp [h, daysInMonth]⟩

theorem lookup_fixed (l : Location) (h : l.changes = []) (m : Moment) :
    l.lookup m = (l.offset, none, none) := by
  unfold Location.lookup
  rw [h]
  rfl

theorem shiftDays_zero (t : CivilDate) : t.shiftDays 0 = t := by
  simp [CivilDate.shiftDays, CivilDate.addDays]

theorem shiftDays_one (t : CivilDate) : t.shiftDays 1 = t.dayAfter := by
  simp [CivilDate.shiftDays, CivilDate.addDays]

theorem shiftDays_neg_one (t : CivilDate) : t.shiftDays (-1) = t.dayBefore := by
  simp [CivilDate.shiftDays, CivilDate.subDays]

/-- In a location without clock changes, 24 hours before the midnight that starts a month is
on the last day of the month before, also on the local clock. -/
theorem day_before_month_start_fixed (year month : Nat) (loc : Location)
    (hfixed : loc.changes = [])
    (hoffset : -86400 < loc.offset ∧ loc.offset < 86400) :
    ((Date year month 1 loc).Add (-24 * 3600)).localMoment.date =
      CivilDate.dayBefore ⟨year, month, 1⟩ := by
  obtain ⟨y, m, hlast⟩ := dayBefore_first year month
  have hl := lookup_fixed loc hfixed
  unfold Time.localMoment Time.Add Date
  simp only [hl, Bool.or_false]
  by_cases h0 : loc.offset = 0
  · simp only [h0, ne_eq, not_true_eq_false, if_false]
    unfold Moment.add
    have h1 : (-24 * 3600 : Int) / 86400 = -1 := by norm_num
    have h2 : (-24 * 3600 : Int) % 86400 = 0 := by norm_num
    simp only [hl, h0, Nat.cast_zero, zero_add, add_zero, h1, h2, shiftDays_neg_one,
      Int.toNat_zero, Int.zero_ediv, shiftDays_zero]
  · simp only [ne_eq, h0, not_false_eq_true, if_true, Bool.false_eq_true, if_false]
    unfold Moment.add
    simp only [hl, Nat.cast_zero, zero_add]
    by_cases hpos : 0 < loc.offset
    · have h1 : (-loc.offset) / 86400 = -1 := by omega
      have h2 : (-loc.offset) % 86400 = 86400 - loc.offset := by omega
      have h3 : ((86400 - loc.offset).toNat : Int) = 86400 - loc.offset :=
        Int.toNat_of_nonneg (by omega)
      have h4 : (86400 - loc.offset + -24 * 3600) / 86400 = -1 := by omega
      have h5 : (86400 - loc.offset + -24 * 3600) % 86400 = 86400 - loc.offset := by omega
      have h6 : (86400 - loc.offset + loc.offset) / 86400 = 1 := by omega
      simp only [h1, h2, h3, h4, h5, h6, shiftDays_neg_one, shiftDays_one]
      rw [hlast, dayAfter_dayBefore_last]
    · have hneg : loc.offset < 0 := by omega
      have h1 : (-loc.offset) / 86400 = 0 := by omega
      have h2 : (-loc.offset) % 86400 = -loc.offset := by omega
      have h3 : ((-loc.offset).toNat : Int) = -loc.offset :=
        Int.toNat_of_nonneg (by omega)
      have h4 : (-loc.offset + -24 * 3600) / 86400 = -1 := by omega
      have h5 : (-loc.offset + -24 * 3600) % 86400 = -loc.offset := by omega
      have h6 : (-loc.offset + loc.offset) / 86400 = 0 := by omega
      simp only [h1, h2, h3, h4, h5, h6, shiftDays_neg_one, shiftDays_zero]

/-- The date `lastDayOfNinthMonth` names is the last day of a month: that of the month 9 months
after the month of the date, which lies between 1 and 12. -/
theorem lastDayOfNinthMonth_eq (publishDate : CivilDate)
    (hmonth : 1 ≤ publishDate.Month ∧ publishDate.Month ≤ 12) :
    lastDayOfNinthMonth publishDate =
      CivilDate.Format
        { Year := publishDate.Year + (publishDate.Month + 8) / 12,
          Month := (publishDate.Month + 8) % 12 + 1,
          Day := daysInMonth (publishDate.Year + (publishDate.Month + 8) / 12)
            ((publishDate.Month + 8) % 12 + 1) } ∧
    1 ≤ (publishDate.Month + 8) % 12 + 1 ∧ (publishDate.Month + 8) % 12 + 1 ≤ 12 ∧
    1 ≤ (publishDate.Month + 9) % 12 + 1 ∧ (publishDate.Month + 9) % 12 + 1 ≤ 12 := by
  obtain ⟨year, month, day⟩ := publishDate
  obtain ⟨h1, h2⟩ := hmonth
  simp only at h1 h2
  refine ⟨?_, by omega, by omega, by omega, by omega⟩
  unfold lastDayOfNinthMonth
  simp only
  have hdate : CivilDate.dayBefore ⟨year + (month + 9) / 12, (month + 9) % 12 + 1, 1⟩ =
      ⟨year + (month + 8) / 12, (month + 8) % 12 + 1,
        daysInMonth (year + (month + 8) / 12) ((month + 8) % 12 + 1)⟩ := by
    unfold CivilDate.dayBefore
    interval_cases month <;> simp [daysInMonth]
  rw [hdate]

/-- In a location without clock changes `endOfSupportFor` returns the date of the last day of
the ninth month after the month of the local date. -/
theorem endOfSupportFor_fixed (publishDate : Time)
    (hfixed : publishDate.loc.changes = [])
    (hoffset : -86400 < publishDate.loc.offset ∧ publishDate.loc.offset < 86400) :
    endOfSupportFor publishDate = lastDayOfNinthMonth publishDate.localMoment.date := by
  unfold endOfSupportFor lastDayOfNinthMonth Time.Format
  simp only
  rw [show publishDate.Location = publishDate.loc from rfl,
    day_before_month_start_fixed _ _ publishDate.loc hfixed hoffset]
  rfl

/-- C28, at the failing input: for a publish time of June 2018 on the clock of Europe/Berlin,
`endOfSupportFor` returns 2019-03-30, not the last day of the ninth month after June 2018,
which is 2019-03-31: the clock goes forward on 2019-03-31, and 24 hours before the midnight
that starts April 2019 it is 23:00 of 2019-03-30 there. On a clock that stays one hour ahead
of UTC the function returns 2019-03-31. -/
theorem endOfSupportFor_clock_change :
    berlinNoon.Year = 2018 ∧ berlinNoon.Month = 6 ∧
    endOfSupportFor berlinNoon = "2019-03-30" ∧
    (CivilDate.dayBefore
      { Year := 2018 + (6 + 9) / 12, Month := (6 + 9) % 12 + 1, Day := 1 }).Format =
      "2019-03-31" ∧
    endOfSupportFor { utc := berlinNoon.utc, loc := { offset := 3600, changes := [] } } =
      "2019-03-31" := by
  decide

end Kiln
